import Mathlib

/-!
Verification development for the recruiting-class scraper core.

This file gives a shallow embedding of the algorithmic core of the
repository (src/scraper.py and src/patch_missing_ranks.py): date parsing
and the September-1 cutoff check, player-URL normalization, the two-tier
timeline reconciliation with its priority accumulator and deep-history
early exit, the Load-More list-crawl loops of both scripts, the
gap-resolution orchestration, and the concurrent batch numbering.
Machine-level concerns (Playwright, the DOM, CSV files) are abstracted as
explicit inputs; everything the claims quantify over is translated
function by function from the Python source.  String manipulation is
carried out over character lists by structural recursion so that every
definition evaluates inside the kernel.
-/

namespace Scraper

/-! ## Character-list string primitives -/

/-- Split a character list at every occurrence of a separator character,
like Python str.split on a one-character separator. -/
def splitOnChar (c : Char) : List Char → List (List Char)
  | [] => [[]]
  | a :: rest =>
    let r := splitOnChar c rest
    if a = c then [] :: r
    else
      match r with
      | [] => [[a]]
      | h :: t => (a :: h) :: t

/-- Value of a decimal digit character, none for a non-digit. -/
def digitVal (c : Char) : Option Nat :=
  if '0' ≤ c ∧ c ≤ '9' then some (c.toNat - '0'.toNat) else none

/-- Accumulating decimal parse of a digit run. -/
def parseNatGo : List Char → Nat → Option Nat
  | [], acc => some acc
  | c :: rest, acc =>
    match digitVal c with
    | some d => parseNatGo rest (acc * 10 + d)
    | none => none

/-- Decimal parse of a nonempty all-digit character list, none otherwise. -/
def parseNatDigits : List Char → Option Nat
  | [] => none
  | l => parseNatGo l 0

/-- Whitespace characters stripped by Python str.strip. -/
def isWS (c : Char) : Bool :=
  c = ' ' || c = '\t' || c = '\n' || c = '\r'

/-- Strip leading and trailing whitespace. -/
def trimChars (l : List Char) : List Char :=
  ((l.dropWhile isWS).reverse.dropWhile isWS).reverse

/-- Strip, then replace newlines by spaces and delete carriage returns,
matching clean_text's strip().replace('\n', ' ').replace('\r', ''). -/
def cleanChars (l : List Char) : List Char :=
  ((trimChars l).map (fun c => if c = '\n' then ' ' else c)).filter (fun c => c ≠ '\r')

/-! ## Dates (scraper.py: is_date_valid_for_class, normalize_date, clean_text) -/

/-- Leap-year rule of the proleptic Gregorian calendar, as Python's
datetime uses when validating day-of-month. -/
def isLeapYear (y : Nat) : Bool :=
  (y % 4 == 0 && y % 100 != 0) || y % 400 == 0

/-- Number of days datetime accepts in month m of year y. -/
def daysInMonth (y m : Nat) : Nat :=
  if m = 2 then (if isLeapYear y then 29 else 28)
  else if m = 4 ∨ m = 6 ∨ m = 9 ∨ m = 11 then 30
  else 31

/-- Model of datetime.strptime(s, "%m/%d/%Y"): the string must be three
runs of digits separated by slashes, month of one or two digits in 1..12,
day of one or two digits valid for the month, year of at most four digits
and at least 1.  Returns (month, day, year) on success. -/
def parseMMDDYYYY (s : String) : Option (Nat × Nat × Nat) :=
  match splitOnChar '/' s.data with
  | [ms, ds, ys] =>
    match parseNatDigits ms, parseNatDigits ds, parseNatDigits ys with
    | some m, some d, some y =>
      if 1 ≤ m ∧ m ≤ 12 ∧ 1 ≤ d ∧ d ≤ daysInMonth y m ∧ 1 ≤ y ∧
          ms.length ≤ 2 ∧ ds.length ≤ 2 ∧ ys.length ≤ 4 then
        some (m, d, y)
      else none
    | _, _, _ => none
  | _ => none

/-- Strict chronological order of two calendar dates, as datetime
comparison orders datetime(y, m, d) values. -/
def dateBefore (y m d y2 m2 d2 : Nat) : Bool :=
  decide (y < y2 ∨ (y = y2 ∧ (m < m2 ∨ (m = m2 ∧ d < d2))))

/-- Model of is_date_valid_for_class (scraper.py lines 129-137): "NA" is
invalid; a parseable MM/DD/YYYY date is valid iff it is strictly before
September 1 of the recruiting year; any parse failure (including a
recruiting year outside datetime's 1..9999 range, which makes the cutoff
construction raise) is swallowed by the bare except and reported valid. -/
def is_date_valid_for_class (date_str : String) (recruiting_year : Nat) : Bool :=
  if date_str = "NA" then false
  else
    match parseMMDDYYYY date_str with
    | none => true
    | some (m, d, y) =>
      if recruiting_year < 1 ∨ 9999 < recruiting_year then true
      else dateBefore y m d recruiting_year 9 1

/-- Model of clean_text: empty input maps to "NA"; otherwise strip and
normalize newline/carriage-return characters. -/
def clean_text (text : String) : String :=
  if text = "" then "NA" else ⟨cleanChars text.data⟩

/-- Abbreviated month names recognized by strptime's %b directive. -/
def monthAbbrs : List (List Char × Nat) :=
  [("Jan".data, 1), ("Feb".data, 2), ("Mar".data, 3), ("Apr".data, 4),
   ("May".data, 5), ("Jun".data, 6), ("Jul".data, 7), ("Aug".data, 8),
   ("Sep".data, 9), ("Oct".data, 10), ("Nov".data, 11), ("Dec".data, 12)]

/-- Full month names recognized by strptime's %B directive. -/
def monthFulls : List (List Char × Nat) :=
  [("January".data, 1), ("February".data, 2), ("March".data, 3), ("April".data, 4),
   ("May".data, 5), ("June".data, 6), ("July".data, 7), ("August".data, 8),
   ("September".data, 9), ("October".data, 10), ("November".data, 11),
   ("December".data, 12)]

/-- Lookup of a month name in one of the tables. -/
def lookupMonth : List (List Char × Nat) → List Char → Option Nat
  | [], _ => none
  | (k, v) :: rest, s => if s = k then some v else lookupMonth rest s

/-- Model of strptime(s, "%b %d, %Y") and "%B %d, %Y" for a given
month-name table: month name, space, day digits, comma, space, year. -/
def parseMonthNameDate (names : List (List Char × Nat)) (s : List Char) :
    Option (Nat × Nat × Nat) :=
  match splitOnChar ',' s with
  | [front, t] =>
    match t with
    | ' ' :: ys =>
      match splitOnChar ' ' front with
      | [mon, ds] =>
        match lookupMonth names mon, parseNatDigits ds, parseNatDigits ys with
        | some m, some d, some y =>
          if 1 ≤ d ∧ d ≤ daysInMonth y m ∧ 1 ≤ y ∧ ds.length ≤ 2 ∧ ys.length ≤ 4 then
            some (m, d, y)
          else none
        | _, _, _ => none
      | _ => none
    | _ => none
  | _ => none

/-- Two-digit zero padding, as strftime's %m and %d produce. -/
def pad2 (n : Nat) : List Char :=
  if n < 10 then '0' :: Nat.toDigits 10 n else Nat.toDigits 10 n

/-- Four-digit zero padding, as strftime's %Y produces. -/
def pad4 (n : Nat) : List Char :=
  if n < 10 then '0' :: '0' :: '0' :: Nat.toDigits 10 n
  else if n < 100 then '0' :: '0' :: Nat.toDigits 10 n
  else if n < 1000 then '0' :: Nat.toDigits 10 n
  else Nat.toDigits 10 n

/-- Formatting a parsed date back with strftime("%m/%d/%Y"). -/
def formatMMDDYYYY (m d y : Nat) : List Char :=
  pad2 m ++ '/' :: pad2 d ++ '/' :: pad4 y

/-- Model of normalize_date (scraper.py lines 111-127): clean the text,
try the three accepted formats in order, reformat the first that parses,
and fall through to the cleaned string unchanged when none parses. -/
def normalize_date (date_str : String) : String :=
  if date_str = "" then "NA"
  else
    let s := clean_text date_str
    match parseMMDDYYYY s with
    | some (m, d, y) => ⟨formatMMDDYYYY m d y⟩
    | none =>
      match parseMonthNameDate monthAbbrs s.data with
      | some (m, d, y) => ⟨formatMMDDYYYY m d y⟩
      | none =>
        match parseMonthNameDate monthFulls s.data with
        | some (m, d, y) => ⟨formatMMDDYYYY m d y⟩
        | none => s

/-! ## URL normalization (scraper.py: normalize_player_url) -/

/-- Fueled replace-all: Python str.replace scans left to right, replaces
each non-overlapping occurrence of the pattern and resumes after the
inserted replacement.  One unit of fuel is spent per examined position;
fuel equal to the length of the string is always enough. -/
def replaceAllF (pat rep : List Char) : Nat → List Char → List Char
  | _, [] => []
  | 0, s => s
  | fuel + 1, c :: rest =>
    if pat.isPrefixOf (c :: rest) then
      rep ++ replaceAllF pat rep fuel (rest.drop (pat.length - 1))
    else
      c :: replaceAllF pat rep fuel rest

/-- Python str.replace(pat, rep) for a nonempty pattern. -/
def replaceAll (pat rep s : List Char) : List Char :=
  replaceAllF pat rep s.length s

/-- The canonical player-URL path root the source's regex is anchored on. -/
def playerPre : List Char := "https://247sports.com/player/".data

/-- Part of the "://www." to "://" collapse in normalize_player_url. -/
def wwwPat : List Char := "://www.".data

/-- Replacement text of the "://www." collapse. -/
def wwwRep : List Char := "://".data

/-- Pattern of the insecure-scheme upgrade in normalize_player_url. -/
def httpPat : List Char := "http://".data

/-- Replacement text of the insecure-scheme upgrade. -/
def httpRep : List Char := "https://".data

/-- Model of the anchored regex match of normalize_player_url: the string
must start with the canonical player-URL root followed by at least one
non-slash character; the group is that root plus the maximal run of
non-slash characters. -/
def matchPlayer (s : List Char) : Option (List Char) :=
  if playerPre.isPrefixOf s then
    let seg := (s.drop playerPre.length).takeWhile (fun c => c ≠ '/')
    if seg = [] then none else some (playerPre ++ seg)
  else none

/-- Shape of a raw player-URL string: scheme choice, optional www host
prefix, the canonical host and path root, the player segment, a trailing
sub-resource path, and a query-string/fragment part. -/
def rawPlayerURL (secure www : Bool) (seg path qf : List Char) : List Char :=
  (if secure then "https://".data else "http://".data) ++
    (if www then "www.".data else []) ++
    "247sports.com/player/".data ++ seg ++ path ++ qf

/-- Model of normalize_player_url (scraper.py lines 91-104): strip the
query string and fragment, collapse "://www." to "://", upgrade "http://"
to "https://", and when the result matches the canonical player-URL
pattern return the matched group with a trailing slash, otherwise the
transformed string itself. -/
def normalize_player_url (url : List Char) : List Char :=
  let s1 := (url.takeWhile (fun c => c ≠ '?')).takeWhile (fun c => c ≠ '#')
  let s2 := replaceAll wwwPat wwwRep s1
  let s3 := replaceAll httpPat httpRep s2
  match matchPlayer s3 with
  | some g => g ++ ['/']
  | none => s3

/-! ## Timeline reconciliation (scraper.py: parse_timeline)

A timeline item is modelled by what the scraper's regexes extract from its
text: whether the word draft occurs (with the detected draft date/team,
"NA" when the respective regex does not match or its result is filtered
out), the commitment/signing classification of the text, the detected and
normalized event date ("NA" when no date regex match), and the detected
team, if any. -/

/-- Classification of an item's text by the keyword tests of
parse_timeline: commitment/committed/commits-to, else signed/signing, else
neither. -/
inductive EventKind
  | commitment
  | signing
  | other
deriving DecidableEq, Repr

/-- Priority assigned to an item by parse_timeline (100, 1, 0). -/
def eventPriority : EventKind → Int
  | .commitment => 100
  | .signing => 1
  | .other => 0

/-- One timeline item, reduced to the values the scraper's regexes extract
from its text. -/
structure TEvent where
  isDraft : Bool
  draftDate : String
  draftTeam : String
  kind : EventKind
  dateStr : String
  team : Option String
deriving DecidableEq, Repr

/-- The parts of the record dict that parse_timeline reads or writes,
including the priority accumulator stored under the private _date_priority
key. -/
structure MergeState where
  signedDate : String
  signedTeam : String
  draftDate : String
  draftTeam : String
  datePriority : Int
deriving DecidableEq, Repr

/-- Record state as parse_profile initializes it: every field at the "NA"
sentinel and the priority accumulator at -1. -/
def initMergeState : MergeState :=
  { signedDate := "NA", signedTeam := "NA", draftDate := "NA", draftTeam := "NA",
    datePriority := -1 }

/-- Draft clause of the abbreviated scan (scraper.py lines 377-387): first
occurrence wins, each of date and team only filled while still "NA". -/
def mergeDraft (st : MergeState) (e : TEvent) : MergeState :=
  if e.isDraft then
    let st1 := if e.draftDate ≠ "NA" ∧ st.draftDate = "NA"
      then { st with draftDate := e.draftDate } else st
    if e.draftTeam ≠ "NA" ∧ st1.draftTeam = "NA"
      then { st1 with draftTeam := e.draftTeam } else st1
  else st

/-- The assignment block an accepted candidate performs (both tiers of
parse_timeline): Signed Date and the accumulator are overwritten, Signed
Team only when the team regex matched. -/
def applyEvent (st : MergeState) (e : TEvent) : MergeState :=
  { st with signedDate := e.dateStr, datePriority := eventPriority e.kind,
            signedTeam := e.team.getD st.signedTeam }

/-- Commitment/signing clause of the abbreviated scan (scraper.py lines
389-409): an item with positive priority, a detected date that passes the
validity check, and priority strictly above the accumulator overwrites
Signed Date, the accumulator, and (when a team was detected) Signed Team. -/
def mergeCommit (year : Nat) (st : MergeState) (e : TEvent) : MergeState :=
  if 0 < eventPriority e.kind then
    if e.dateStr ≠ "NA" ∧ is_date_valid_for_class e.dateStr year then
      if st.datePriority < eventPriority e.kind then applyEvent st e
      else st
    else st
  else st

/-- Processing of one abbreviated-timeline item: draft clause then
commitment clause, as the two sequential if-blocks in the source. -/
def mergeEvent (year : Nat) (st : MergeState) (e : TEvent) : MergeState :=
  mergeCommit year (mergeDraft st e) e

/-- The abbreviated-timeline scan: every item is processed, in order, with
no early exit. -/
def mergeTimeline (year : Nat) (st : MergeState) (events : List TEvent) : MergeState :=
  events.foldl (mergeEvent year) st

/-- One deep-history page scan (scraper.py lines 433-458).  Returns the
resulting state, the number of items examined (instrumentation of the loop
iterations), and whether the priority-100 early exit fired. -/
def scanDeepItems (year : Nat) (st : MergeState) : List TEvent → MergeState × Nat × Bool
  | [] => (st, 0, false)
  | e :: rest =>
    if 0 < eventPriority e.kind ∧
        (e.dateStr ≠ "NA" ∧ is_date_valid_for_class e.dateStr year) ∧
        st.datePriority < eventPriority e.kind then
      if eventPriority e.kind = 100 then (applyEvent st e, 1, true)
      else
        let r := scanDeepItems year (applyEvent st e) rest
        (r.1, r.2.1 + 1, r.2.2)
    else
      let r := scanDeepItems year st rest
      (r.1, r.2.1 + 1, r.2.2)

/-- Deep-history pagination (scraper.py lines 427-466): while fewer than
10 pages have been advanced past, scan the current page, stop on the early
exit, otherwise follow the next-page affordance when present (the end of
the page list models its absence).  Returns the final state, the number of
pages examined, and whether the early exit fired. -/
def deepLoop (year : Nat) : Nat → MergeState → List (List TEvent) → MergeState × Nat × Bool
  | _, st, [] => (st, 0, false)
  | pageCount, st, cur :: rest =>
    if pageCount < 10 then
      let r := scanDeepItems year st cur
      if r.2.2 then (r.1, 1, true)
      else
        match rest with
        | [] => (r.1, 1, false)
        | p :: ps =>
          let r2 := deepLoop year (pageCount + 1) r.1 (p :: ps)
          (r2.1, r2.2.1 + 1, r2.2.2)
    else (st, 0, false)

/-- Model of parse_timeline (scraper.py lines 357-472): the abbreviated
timeline is always scanned in full; when the deep-dive budget applies and
the full-history link exists (some pages), the paginated deep scan runs on
the state the abbreviated scan produced.  The Nat and Bool components
report pages examined and early exit of the deep tier. -/
def parse_timeline_model (year : Nat) (st0 : MergeState) (abbrevItems : List TEvent)
    (doDeepDive : Bool) (deepPages : Option (List (List TEvent))) :
    MergeState × Nat × Bool :=
  let st1 := mergeTimeline year st0 abbrevItems
  if doDeepDive then
    match deepPages with
    | some pages => deepLoop year 0 st1 pages
    | none => (st1, 0, false)
  else (st1, 0, false)

/-- An event is a candidate for the signed date: positive priority, a
detected date, and the date passes the recruiting-year validity check. -/
def isCandidate (year : Nat) (e : TEvent) : Bool :=
  decide (0 < eventPriority e.kind) && decide (e.dateStr ≠ "NA") &&
    is_date_valid_for_class e.dateStr year

/-- Running maximum of candidate priorities over a list of events, seeded
with an initial accumulator value. -/
def foldPrio (year : Nat) (a : Int) (events : List TEvent) : Int :=
  events.foldl (fun acc e => if isCandidate year e then max acc (eventPriority e.kind) else acc) a

/-! ## List convergence driver (scraper.py: click_load_more_until_complete) -/

/-- Outcome of one iteration of the Load More loop, as the try/except
classifies it: the button is present and visible and the click succeeds;
the button is absent or not visible; or some call in the body raises. -/
inductive Obs
  | click
  | noButton
  | fail
deriving DecidableEq, Repr

/-- Why the Load More loop stopped. -/
inductive StopReason
  | complete
  | tooManyFailures
  | maxClicksReached
deriving DecidableEq, Repr

/-- Final state of the Load More loop: clicks performed, next observation
index, iterations executed, and the stop reason. -/
structure RunResult where
  clicks : Nat
  time : Nat
  iters : Nat
  reason : StopReason
deriving DecidableEq, Repr

/-- Termination measure of the Load More loop: every iteration strictly
decreases it, so it also bounds the number of iterations still possible
from a given counter state. -/
def runMeasure (maxClicks cc cf nbc : Nat) : Nat :=
  14 * (maxClicks - cc) + (10 - cf) + (3 - nbc)

/-- Fueled body of the while loop of click_load_more_until_complete
(scraper.py lines 218-251), driven by a stream of observation outcomes
indexed by iteration: a successful click advances the click counter and
resets both the consecutive-failure and no-button counters; the third
consecutive no-button observation declares the listing complete; the tenth
consecutive failure aborts with the partial result; the click ceiling
bounds the loop.  Fuel at least runMeasure never runs out. -/
def runFromF (obs : Nat → Obs) (maxClicks : Nat) :
    Nat → Nat → Nat → Nat → Nat → Nat → RunResult
  | 0, t, cc, _, _, it => ⟨cc, t, it, .maxClicksReached⟩
  | fuel + 1, t, cc, cf, nbc, it =>
    if cc < maxClicks then
      match obs t with
      | .click => runFromF obs maxClicks fuel (t + 1) (cc + 1) 0 0 (it + 1)
      | .noButton =>
        if nbc + 1 ≥ 3 then ⟨cc, t + 1, it + 1, .complete⟩
        else runFromF obs maxClicks fuel (t + 1) cc cf (nbc + 1) (it + 1)
      | .fail =>
        if cf + 1 ≥ 10 then ⟨cc, t + 1, it + 1, .tooManyFailures⟩
        else runFromF obs maxClicks fuel (t + 1) cc (cf + 1) nbc (it + 1)
    else ⟨cc, t, it, .maxClicksReached⟩

/-- The Load More loop from an arbitrary counter state. -/
def runFrom (obs : Nat → Obs) (maxClicks t cc cf nbc it : Nat) : RunResult :=
  runFromF obs maxClicks (runMeasure maxClicks cc cf nbc) t cc cf nbc it

/-- Entry of the Load More loop with all counters at zero; max_clicks is
500 in production. -/
def clickLoadMoreLoop (obs : Nat → Obs) (maxClicks : Nat) : RunResult :=
  runFrom obs maxClicks 0 0 0 0 0

/-- Inner cleanup loop of the post-loop verification: up to fuel
iterations, clicking while the button is reported visible; the visibility
oracle is a function of the number of clicks performed so far. -/
def cleanupLoopGo (visible : Nat → Bool) : Nat → Nat → Nat
  | 0, clicks => clicks
  | fuel + 1, clicks =>
    if visible clicks then cleanupLoopGo visible fuel (clicks + 1) else clicks

/-- The post-loop verification of click_load_more_until_complete
(scraper.py lines 253-271): one visibility check; if the button is still
visible, up to 50 further clicks, each preceded by a re-check.  Returns
the total number of clicks performed including the main loop's. -/
def cleanupPhase (visible : Nat → Bool) (clicks : Nat) : Nat :=
  if visible clicks then cleanupLoopGo visible 50 clicks else clicks

/-- Python "pat in s" substring test over character lists. -/
def containsSub (pat : List Char) : List Char → Bool
  | [] => pat.isEmpty
  | c :: rest => pat.isPrefixOf (c :: rest) || containsSub pat rest

/-- Fueled ordered deduplication, as dict.fromkeys performs it: keep the
first occurrence of each element. -/
def dedupFirstF : Nat → List (List Char) → List (List Char)
  | _, [] => []
  | 0, l => l
  | fuel + 1, x :: xs => x :: dedupFirstF fuel (xs.filter (fun y => y ≠ x))

/-- Ordered deduplication keeping first occurrences. -/
def dedupFirst (l : List (List Char)) : List (List Char) :=
  dedupFirstF l.length l

/-- The link-extraction and deduplication tail of
click_load_more_until_complete (scraper.py lines 298-302): keep links that
mention /player/ and 247sports.com, normalize each, and deduplicate
preserving first-seen order. -/
def extractPlayerUrls (links : List (List Char)) : List (List Char) :=
  dedupFirst ((links.filter (fun u =>
    containsSub "/player/".data u && containsSub "247sports.com".data u)).map
      normalize_player_url)

/-- Observation stream of the simulated finite listing used by the
convergence claim: after c successful clicks the page shows
min ((c + 1) * step) total items, the Load More affordance is visible
exactly while fewer than total are shown, and clicks never fail.  While
the loop keeps clicking, the iteration index equals the click count, so
the stream is indexed accordingly. -/
def simObs (step total : Nat) (t : Nat) : Obs :=
  if (t + 1) * step < total then Obs.click else Obs.noButton

/-- Visibility of the simulated Load More button after a given number of
clicks. -/
def simVisible (step total : Nat) (clicks : Nat) : Bool :=
  decide ((clicks + 1) * step < total)

/-- The i-th distinct player URL shown by the simulated listing. -/
def simUrl (i : Nat) : List Char :=
  playerPre ++ List.replicate (i + 1) 'a' ++ ['/']

/-- Links shown on the simulated page after c clicks. -/
def simLinks (step total c : Nat) : List (List Char) :=
  (List.range (min ((c + 1) * step) total)).map simUrl

/-- End-to-end model of click_load_more_until_complete on the simulated
finite listing: main loop, cleanup verification, then extraction and
deduplication of the links then shown. -/
def simCrawl (step total : Nat) : List (List Char) :=
  let r := clickLoadMoreLoop (simObs step total) 500
  let finalClicks := cleanupPhase (simVisible step total) r.clicks
  extractPlayerUrls (simLinks step total finalClicks)

/-! ## Gap-repair crawl loop (patch_missing_ranks.py: get_players_from_list) -/

/-- Why the gap-repair Load More loop stopped. -/
inductive GapStop
  | enough
  | complete
  | tooManyFailures
  | rangeExhausted
deriving DecidableEq, Repr

/-- Final state of the gap-repair Load More loop. -/
structure GapRunResult where
  clicks : Nat
  iters : Nat
  reason : GapStop
deriving DecidableEq, Repr

/-- The Load More for-loop of get_players_from_list
(patch_missing_ranks.py lines 150-195): a bounded iteration range (fuel);
a successful click resets the failure and no-button counters and, on every
fifth click, stops early once the item count exceeds maxRankNeeded + 50;
the third consecutive no-button observation stops; the fifth consecutive
failure stops.  items gives the item count as a function of clicks
performed. -/
def gapRunFrom (obs : Nat → Obs) (items : Nat → Nat) (maxRankNeeded : Nat) :
    Nat → Nat → Nat → Nat → Nat → Nat → GapRunResult
  | 0, _, cc, _, _, it => ⟨cc, it, .rangeExhausted⟩
  | fuel + 1, t, cc, cf, nbc, it =>
    match obs t with
    | .click =>
      if (cc + 1) % 5 = 0 ∧ items (cc + 1) > maxRankNeeded + 50 then
        ⟨cc + 1, it + 1, .enough⟩
      else gapRunFrom obs items maxRankNeeded fuel (t + 1) (cc + 1) 0 0 (it + 1)
    | .noButton =>
      if nbc + 1 ≥ 3 then ⟨cc, it + 1, .complete⟩
      else gapRunFrom obs items maxRankNeeded fuel (t + 1) cc cf (nbc + 1) (it + 1)
    | .fail =>
      if cf + 1 ≥ 5 then ⟨cc, it + 1, .tooManyFailures⟩
      else gapRunFrom obs items maxRankNeeded fuel (t + 1) cc (cf + 1) nbc (it + 1)

/-! ## Gap resolution (patch_missing_ranks.py: main) -/

/-- One entry of a rank-to-player list snapshot. -/
structure PlayerRef where
  url : String
  name : String
deriving DecidableEq, Repr

/-- Info the composite pass stores per target URL. -/
structure TargetInfo where
  name : String
  missingCompositeRank : Nat
deriving DecidableEq, Repr

/-- Dict insert-or-update on the URL-keyed target dict, preserving Python
dict insertion order; a repeated URL only has its recorded composite rank
overwritten (patch_missing_ranks.py lines 466-473). -/
def upsertTarget (tp : List (String × TargetInfo)) (url name : String) (rank : Nat) :
    List (String × TargetInfo) :=
  if (tp.lookup url).isSome then
    tp.map (fun kv =>
      if kv.1 = url then (kv.1, { kv.2 with missingCompositeRank := rank }) else kv)
  else tp ++ [(url, ⟨name, rank⟩)]

/-- The composite-gap pass (patch_missing_ranks.py lines 462-475): for
each requested composite rank in order, a rank present in the composite
snapshot upserts its player into the URL-keyed target dict, an absent rank
is reported.  Returns the target dict and the reported misses. -/
def compPass (compMap : List (Nat × PlayerRef)) :
    List Nat → List (String × TargetInfo) → List Nat →
    List (String × TargetInfo) × List Nat
  | [], tp, misses => (tp, misses)
  | r :: rest, tp, misses =>
    match compMap.lookup r with
    | some p => compPass compMap rest (upsertTarget tp p.url p.name r) misses
    | none => compPass compMap rest tp (misses ++ [r])

/-- One diagnostics entry (patch_missing_ranks.py lines 515-523), reduced
to the fields the secondary pass consults. -/
structure DiagEntry where
  url : String
  got247 : String
deriving DecidableEq, Repr

/-- Dict write with string key: overwrite in place or append. -/
def setDiag (ds : List (String × DiagEntry)) (k : String) (v : DiagEntry) :
    List (String × DiagEntry) :=
  if (ds.lookup k).isSome then ds.map (fun kv => if kv.1 = k then (kv.1, v) else kv)
  else ds ++ [(k, v)]

/-- Diagnostics built while scraping the composite-pass targets, keyed by
the extracted player id (idOf) with dict overwrite semantics; got247 is
the 247 National Rank string the profile parse reports (profile247). -/
def diagnosticsOf (idOf profile247 : String → String) (urls : List String) :
    List (String × DiagEntry) :=
  urls.foldl (fun ds u => setDiag ds (idOf u) ⟨u, profile247 u⟩) []

/-- Natural number rendered in decimal, as Python str produces. -/
def natStr (n : Nat) : String := ⟨Nat.toDigits 10 n⟩

/-- Integer rendered in decimal, as Python str produces. -/
def intStr : Int → String
  | .ofNat n => natStr n
  | .negSucc n => ⟨'-' :: Nat.toDigits 10 (n + 1)⟩

/-- Whether some diagnostics entry reports the given 247 rank (the
coverage filter of patch_missing_ranks.py lines 531-534). -/
def covered247 (ds : List (String × DiagEntry)) (r : Nat) : Bool :=
  ds.any (fun kv => kv.2.got247 = natStr r)

/-- The secondary pass (patch_missing_ranks.py lines 585-605): each
still-uncovered 247 rank is looked up in the 247-only snapshot; a present
rank's player is fetched unless some diagnostics entry already carries its
URL; an absent rank is reported.  Returns fetched URLs and reported
misses, in request order. -/
def pass247 (r247Map : List (Nat × PlayerRef)) (ds : List (String × DiagEntry)) :
    List Nat → List String × List Nat
  | [] => ([], [])
  | r :: rest =>
    let tl := pass247 r247Map ds rest
    match r247Map.lookup r with
    | some p =>
      if ds.any (fun kv => kv.2.url = p.url) then tl
      else (p.url :: tl.1, tl.2)
    | none => (tl.1, r :: tl.2)

/-- Output of one year of the patch run. -/
structure ResolveOut where
  fetched1 : List String
  fetched2 : List String
  hardComp : List Nat
  hard247 : List Nat
deriving DecidableEq, Repr

/-- Per-year gap-resolution orchestration of patch_missing_ranks.main
(lines 447-610): on an empty composite list snapshot the year is skipped
outright (lines 454-456) — nothing fetched, nothing reported.  Otherwise:
composite pass over the composite snapshot, fetching each target-dict URL
once in insertion order; diagnostics from those fetches; the coverage
filter; then the secondary pass over the 247-only snapshot. -/
def resolveGapsModel (idOf profile247 : String → String)
    (compMap r247Map : List (Nat × PlayerRef)) (gapsComp gaps247 : List Nat) :
    ResolveOut :=
  if compMap = [] then ⟨[], [], [], []⟩
  else
    let c := compPass compMap gapsComp [] []
    let f1 := c.1.map (fun kv => kv.1)
    let ds := diagnosticsOf idOf profile247 f1
    let notCovered := gaps247.filter (fun r => ¬ covered247 ds r)
    let p2 := pass247 r247Map ds notCovered
    ⟨f1, p2.1, c.2, p2.2⟩

/-- All URLs the patch run fetches, in order. -/
def fetchedAll (o : ResolveOut) : List String := o.fetched1 ++ o.fetched2

/-! ## Field records and the batch executor (scraper.py: parse_profile,
scrape_player, scrape_player_batch) -/

/-- The CSV schema (scraper.py lines 56-63). -/
def CSV_HEADERS : List String :=
  ["247 ID", "Player Name", "Position", "Height", "Weight", "High School",
   "City, ST", "Class", "247 Stars", "247 Rating", "247 National Rank",
   "247 Position", "247 Position Rank", "Composite Stars", "Composite Rating",
   "Composite National Rank", "Composite Position", "Composite Position Rank",
   "Signed Date", "Signed Team", "Draft Date", "Draft Team", "Recruiting Year",
   "Profile URL", "Scrape Date", "Data Source"]

/-- Dict write on an ordered association list: update in place, or append
a new key at the end, as Python dict assignment behaves. -/
def setField (k v : String) : List (String × String) → List (String × String)
  | [] => [(k, v)]
  | (k1, v1) :: rest => if k1 = k then (k, v) :: rest else (k1, v1) :: setField k v rest

/-- Dict read; every key this model reads is present, so the default is
never observed. -/
def getField (r : List (String × String)) (k : String) : String :=
  (r.lookup k).getD "NA"

/-- The deep-timeline budget constant (scraper.py line 45). -/
def DEEP_TIMELINE_LIMIT : Nat := 1000

/-- Record as parse_profile initializes it before fetching (scraper.py
lines 474-480): every schema field at "NA", then Profile URL, Recruiting
Year, Scrape Date, Data Source, and the private _date_priority key at -1. -/
def initRecord (url : String) (year : Nat) (scrapeDate : String) :
    List (String × String) :=
  setField "_date_priority" "-1"
    (setField "Data Source" "247Sports Composite"
      (setField "Scrape Date" scrapeDate
        (setField "Recruiting Year" (natStr year)
          (setField "Profile URL" url (CSV_HEADERS.map (fun h => (h, "NA")))))))

/-- What a successfully fetched profile page yields for the fields this
development tracks: the extracted player id, the header name when present,
the abbreviated timeline items, the deep-history pages when the
full-history link exists, and the commit-banner team (already filtered as
the source filters it) when present. -/
structure ProfileContent where
  id247 : String
  playerName : Option String
  abbrevItems : List TEvent
  deepPages : Option (List (List TEvent))
  bannerTeam : Option String
deriving DecidableEq, Repr

/-- Outcome of fetching one player's profile: the initial navigation
raises, or the page is fetched and parsed. -/
inductive FetchOutcome
  | failure
  | success (p : ProfileContent)
deriving DecidableEq, Repr

/-- Writing the timeline merge result back into the record dict, as the
assignments of parse_timeline leave it. -/
def writeMerge (r : List (String × String)) (st : MergeState) :
    List (String × String) :=
  setField "_date_priority" (intStr st.datePriority)
    (setField "Draft Team" st.draftTeam
      (setField "Draft Date" st.draftDate
        (setField "Signed Team" st.signedTeam
          (setField "Signed Date" st.signedDate r))))

/-- Model of parse_profile (scraper.py lines 474-597) for the fields this
development tracks: on fetch failure the initialized record is returned as
is (the except arm prints and returns data); on success the id and name
are recorded, the two-tier timeline scan runs with the positional
deep-dive budget (player_num ≤ DEEP_TIMELINE_LIMIT), and the commit-banner
fallback may fill a still-"NA" Signed Team. -/
def parse_profile_model (url : String) (year : Nat) (scrapeDate : String)
    (playerNum : Nat) (o : FetchOutcome) : List (String × String) :=
  let r0 := initRecord url year scrapeDate
  match o with
  | .failure => r0
  | .success p =>
    let r1 := setField "Player Name" (p.playerName.getD "NA")
      (setField "247 ID" p.id247 r0)
    let doDeep := playerNum ≤ DEEP_TIMELINE_LIMIT
    let st := (parse_timeline_model year initMergeState p.abbrevItems doDeep p.deepPages).1
    let st2 := if st.signedTeam = "NA"
      then { st with signedTeam := p.bannerTeam.getD st.signedTeam } else st
    writeMerge r1 st2

/-- Deletion of the private _date_priority key, as scrape_player_batch
performs on every result before returning it. -/
def stripPriority (r : List (String × String)) : List (String × String) :=
  r.filter (fun kv => kv.1 ≠ "_date_priority")

/-- Per-window scraping with global numbering: the entity at in-window
index i of window batchNum receives player number batchNum * w + i + 1
(scraper.py lines 607-610). -/
def scrapeBatchGo (year : Nat) (scrapeDate : String) (w bnum i : Nat) :
    List (String × FetchOutcome) → List (List (String × String))
  | [] => []
  | (url, o) :: rest =>
    stripPriority (parse_profile_model url year scrapeDate (bnum * w + i + 1) o) ::
      scrapeBatchGo year scrapeDate w bnum (i + 1) rest

/-- Model of scrape_player_batch (scraper.py lines 603-620): each URL in
the window is scraped with its global player number, per-entity failures
degrade to the initialized record instead of raising, and the private
_date_priority key is deleted from each result. -/
def scrape_player_batch_model (year : Nat) (scrapeDate : String) (w bnum : Nat)
    (entries : List (String × FetchOutcome)) : List (List (String × String)) :=
  scrapeBatchGo year scrapeDate w bnum 0 entries

/-! ## Deep-dive budget allocation across windows (scraper.py: scrape_year) -/

/-- Player numbers assigned across the whole crawl: scrape_year cuts the
URL list into consecutive windows of width w and hands window b to
scrape_player_batch with batch_num b, whose entities receive numbers
b * w + i + 1 (scraper.py lines 670-675 with 607-610).  Mirrors the two
nested loops for any width w ≥ 1 (the source fixes w = MAX_CONCURRENT = 4). -/
def batchNumsF {α : Type} (w : Nat) : Nat → Nat → List α → List Nat
  | _, _, [] => []
  | 0, _, _ => []
  | fuel + 1, b, u :: rest =>
    (List.range ((u :: rest.take (w - 1)).length)).map (fun i => b * w + i + 1) ++
      batchNumsF w fuel (b + 1) (rest.drop (w - 1))

/-- Window numbering with the fuel fixed to the list length, which each
step strictly decreases and so never runs out. -/
def batchNums {α : Type} (w : Nat) (b : Nat) (l : List α) : List Nat :=
  batchNumsF w l.length b l

/-- Whether each entity of the ordered crawl receives the deep-history
budget, under concurrency width w (parse_profile line 580). -/
def deepFlags {α : Type} (w : Nat) (urls : List α) : List Bool :=
  (batchNums w 0 urls).map (fun pn => decide (pn ≤ DEEP_TIMELINE_LIMIT))

/-! # Lemmas

Everything below is proof: helper lemmas first, then one theorem per
claim (with witnesses and counterexamples where required). -/

/-! ## Priority merge lemmas (towards claims C1, C4, C5) -/

theorem mergeDraft_signedDate (st : MergeState) (e : TEvent) :
    (mergeDraft st e).signedDate = st.signedDate := by
  unfold mergeDraft
  split
  · split <;> dsimp only <;> split <;> rfl
  · rfl

theorem mergeDraft_signedTeam (st : MergeState) (e : TEvent) :
    (mergeDraft st e).signedTeam = st.signedTeam := by
  unfold mergeDraft
  split
  · split <;> dsimp only <;> split <;> rfl
  · rfl

theorem mergeDraft_datePriority (st : MergeState) (e : TEvent) :
    (mergeDraft st e).datePriority = st.datePriority := by
  unfold mergeDraft
  split
  · split <;> dsimp only <;> split <;> rfl
  · rfl

theorem isCandidate_iff (year : Nat) (e : TEvent) :
    isCandidate year e = true ↔
      0 < eventPriority e.kind ∧ e.dateStr ≠ "NA" ∧
        is_date_valid_for_class e.dateStr year = true := by
  simp [isCandidate, and_assoc]

theorem mergeCommit_datePriority (year : Nat) (st : MergeState) (e : TEvent) :
    (mergeCommit year st e).datePriority =
      if isCandidate year e then max st.datePriority (eventPriority e.kind)
      else st.datePriority := by
  unfold mergeCommit
  by_cases h1 : 0 < eventPriority e.kind
  · rw [if_pos h1]
    by_cases h2 : e.dateStr ≠ "NA" ∧ is_date_valid_for_class e.dateStr year
    · rw [if_pos h2]
      have hc : isCandidate year e = true := (isCandidate_iff year e).mpr ⟨h1, h2.1, h2.2⟩
      rw [if_pos hc]
      by_cases h3 : st.datePriority < eventPriority e.kind
      · rw [if_pos h3]
        exact (max_eq_right (le_of_lt h3)).symm
      · rw [if_neg h3]
        exact (max_eq_left (le_of_not_lt h3)).symm
    · rw [if_neg h2]
      have hc : ¬ isCandidate year e = true := by
        rw [isCandidate_iff]
        rintro ⟨-, hb, hcv⟩
        exact h2 ⟨hb, hcv⟩
      rw [if_neg hc]
  · rw [if_neg h1]
    have hc : ¬ isCandidate year e = true := by
      rw [isCandidate_iff]
      rintro ⟨ha, -, -⟩
      exact h1 ha
    rw [if_neg hc]

theorem mergeEvent_datePriority (year : Nat) (st : MergeState) (e : TEvent) :
    (mergeEvent year st e).datePriority =
      if isCandidate year e then max st.datePriority (eventPriority e.kind)
      else st.datePriority := by
  unfold mergeEvent
  rw [mergeCommit_datePriority, mergeDraft_datePriority]

theorem foldPrio_cons (year : Nat) (a : Int) (e : TEvent) (l : List TEvent) :
    foldPrio year a (e :: l) =
      foldPrio year (if isCandidate year e then max a (eventPriority e.kind) else a) l := rfl

theorem foldPrio_append (year : Nat) (a : Int) (l1 l2 : List TEvent) :
    foldPrio year a (l1 ++ l2) = foldPrio year (foldPrio year a l1) l2 := by
  simp [foldPrio]

theorem mergeTimeline_datePriority (year : Nat) (events : List TEvent) :
    ∀ st : MergeState,
      (mergeTimeline year st events).datePriority = foldPrio year st.datePriority events := by
  induction events with
  | nil => intro st; rfl
  | cons e rest ih =>
    intro st
    show (mergeTimeline year (mergeEvent year st e) rest).datePriority = _
    rw [ih, foldPrio_cons, mergeEvent_datePriority]

theorem eventPriority_le (k : EventKind) : eventPriority k ≤ 100 := by
  cases k <;> decide

theorem foldPrio_le (year : Nat) (l : List TEvent) :
    ∀ a : Int, a ≤ 100 → foldPrio year a l ≤ 100 := by
  induction l with
  | nil => intro a h; exact h
  | cons e rest ih =>
    intro a h
    rw [foldPrio_cons]
    apply ih
    split
    · exact max_le h (eventPriority_le e.kind)
    · exact h

theorem foldPrio_of_eq_hundred (year : Nat) (l : List TEvent) :
    ∀ a : Int, a = 100 → foldPrio year a l = 100 := by
  induction l with
  | nil => intro a h; exact h
  | cons e rest ih =>
    intro a h
    rw [foldPrio_cons]
    apply ih
    split
    · rw [h]
      exact max_eq_left (eventPriority_le e.kind)
    · exact h

theorem scanDeepItems_cons_skip (year : Nat) (st : MergeState) (e : TEvent)
    (rest : List TEvent)
    (hc : ¬ (0 < eventPriority e.kind ∧
      (e.dateStr ≠ "NA" ∧ is_date_valid_for_class e.dateStr year = true) ∧
      st.datePriority < eventPriority e.kind)) :
    scanDeepItems year st (e :: rest) =
      ((scanDeepItems year st rest).1, (scanDeepItems year st rest).2.1 + 1,
        (scanDeepItems year st rest).2.2) := by
  simp only [scanDeepItems]
  rw [if_neg hc]

theorem scanDeepItems_cons_accept100 (year : Nat) (st : MergeState) (e : TEvent)
    (rest : List TEvent)
    (hc : 0 < eventPriority e.kind ∧
      (e.dateStr ≠ "NA" ∧ is_date_valid_for_class e.dateStr year = true) ∧
      st.datePriority < eventPriority e.kind)
    (h100 : eventPriority e.kind = 100) :
    scanDeepItems year st (e :: rest) = (applyEvent st e, 1, true) := by
  simp only [scanDeepItems]
  rw [if_pos hc, if_pos h100]

theorem scanDeepItems_cons_accept_low (year : Nat) (st : MergeState) (e : TEvent)
    (rest : List TEvent)
    (hc : 0 < eventPriority e.kind ∧
      (e.dateStr ≠ "NA" ∧ is_date_valid_for_class e.dateStr year = true) ∧
      st.datePriority < eventPriority e.kind)
    (h100 : ¬ eventPriority e.kind = 100) :
    scanDeepItems year st (e :: rest) =
      ((scanDeepItems year (applyEvent st e) rest).1,
        (scanDeepItems year (applyEvent st e) rest).2.1 + 1,
        (scanDeepItems year (applyEvent st e) rest).2.2) := by
  simp only [scanDeepItems]
  rw [if_pos hc, if_neg h100]

theorem applyEvent_datePriority (st : MergeState) (e : TEvent) :
    (applyEvent st e).datePriority = eventPriority e.kind := rfl

theorem scanDeepItems_datePriority (year : Nat) (items : List TEvent) :
    ∀ st : MergeState, st.datePriority ≤ 100 →
      (scanDeepItems year st items).1.datePriority = foldPrio year st.datePriority items := by
  induction items with
  | nil => intro st _; rfl
  | cons e rest ih =>
    intro st hst
    by_cases hc : 0 < eventPriority e.kind ∧
        (e.dateStr ≠ "NA" ∧ is_date_valid_for_class e.dateStr year = true) ∧
        st.datePriority < eventPriority e.kind
    · have hcand : isCandidate year e = true :=
        (isCandidate_iff year e).mpr ⟨hc.1, hc.2.1.1, hc.2.1.2⟩
      have hmax : max st.datePriority (eventPriority e.kind) = eventPriority e.kind :=
        max_eq_right (le_of_lt hc.2.2)
      by_cases h100 : eventPriority e.kind = 100
      · rw [scanDeepItems_cons_accept100 year st e rest hc h100]
        show eventPriority e.kind = foldPrio year st.datePriority (e :: rest)
        rw [foldPrio_cons, if_pos hcand, hmax, h100,
          foldPrio_of_eq_hundred year rest 100 rfl]
      · rw [scanDeepItems_cons_accept_low year st e rest hc h100]
        show (scanDeepItems year (applyEvent st e) rest).1.datePriority = _
        rw [ih (applyEvent st e) (le_trans (le_of_eq (applyEvent_datePriority st e))
            (eventPriority_le e.kind)),
          applyEvent_datePriority, foldPrio_cons, if_pos hcand, hmax]
    · rw [scanDeepItems_cons_skip year st e rest hc]
      show (scanDeepItems year st rest).1.datePriority = _
      rw [ih st hst, foldPrio_cons]
      by_cases hcand : isCandidate year e = true
      · rw [if_pos hcand]
        rcases (isCandidate_iff year e).mp hcand with ⟨h1, h2, h3⟩
        have hnlt : ¬ st.datePriority < eventPriority e.kind := by
          intro hlt
          exact hc ⟨h1, ⟨h2, h3⟩, hlt⟩
        rw [max_eq_left (le_of_not_lt hnlt)]
      · rw [if_neg hcand]

theorem scanDeepItems_exit_priority (year : Nat) (items : List TEvent) :
    ∀ st : MergeState, (scanDeepItems year st items).2.2 = true →
      (scanDeepItems year st items).1.datePriority = 100 := by
  induction items with
  | nil => intro st h; exact absurd h (by simp [scanDeepItems])
  | cons e rest ih =>
    intro st h
    by_cases hc : 0 < eventPriority e.kind ∧
        (e.dateStr ≠ "NA" ∧ is_date_valid_for_class e.dateStr year = true) ∧
        st.datePriority < eventPriority e.kind
    · by_cases h100 : eventPriority e.kind = 100
      · rw [scanDeepItems_cons_accept100 year st e rest hc h100]
        exact h100
      · rw [scanDeepItems_cons_accept_low year st e rest hc h100] at h ⊢
        exact ih _ h
    · rw [scanDeepItems_cons_skip year st e rest hc] at h ⊢
      exact ih st h

theorem deepLoop_datePriority (year : Nat) (pages : List (List TEvent)) :
    ∀ pc : Nat, ∀ st : MergeState, st.datePriority ≤ 100 →
      (deepLoop year pc st pages).1.datePriority =
        foldPrio year st.datePriority ((pages.take (10 - pc)).flatten) := by
  induction pages with
  | nil =>
    intro pc st _
    rw [List.take_nil]
    rfl
  | cons cur rest ih =>
    intro pc st hst
    by_cases hpc : pc < 10
    · have h10 : 10 - pc = (10 - pc - 1) + 1 := by omega
      rw [h10, List.take_succ_cons, List.flatten_cons, foldPrio_append]
      rw [deepLoop, if_pos hpc]
      dsimp only
      have hscan := scanDeepItems_datePriority year cur st hst
      cases hex : (scanDeepItems year st cur).2.2 with
      | true =>
        have h100 := scanDeepItems_exit_priority year cur st hex
        rw [if_pos rfl]
        show (scanDeepItems year st cur).1.datePriority = _
        rw [h100, ← hscan, h100, foldPrio_of_eq_hundred year _ 100 rfl]
      | false =>
        rw [if_neg Bool.false_ne_true]
        cases rest with
        | nil =>
          show (scanDeepItems year st cur).1.datePriority = _
          rw [hscan, List.take_nil]
          rfl
        | cons p ps =>
          show (deepLoop year (pc + 1) (scanDeepItems year st cur).1 (p :: ps)).1.datePriority = _
          rw [ih (pc + 1) (scanDeepItems year st cur).1
              (by rw [hscan]; exact foldPrio_le year cur st.datePriority hst), hscan,
            Nat.sub_sub]
    · have h0 : 10 - pc = 0 := by omega
      rw [h0, deepLoop, if_neg hpc]
      rfl

theorem mergeCommit_eq_of_not (year : Nat) (st : MergeState) (e : TEvent)
    (h : ¬ (isCandidate year e = true ∧ st.datePriority < eventPriority e.kind)) :
    mergeCommit year st e = st := by
  unfold mergeCommit
  by_cases h1 : 0 < eventPriority e.kind
  · rw [if_pos h1]
    by_cases h2 : e.dateStr ≠ "NA" ∧ is_date_valid_for_class e.dateStr year
    · rw [if_pos h2, if_neg]
      intro hlt
      exact h ⟨(isCandidate_iff year e).mpr ⟨h1, h2.1, h2.2⟩, hlt⟩
    · rw [if_neg h2]
  · rw [if_neg h1]

theorem mergeEvent_write_requires (year : Nat) (st : MergeState) (e : TEvent)
    (h : (mergeEvent year st e).signedDate ≠ st.signedDate ∨
      (mergeEvent year st e).signedTeam ≠ st.signedTeam) :
    isCandidate year e = true ∧ st.datePriority < eventPriority e.kind := by
  by_contra hn
  have hp : (mergeDraft st e).datePriority = st.datePriority := mergeDraft_datePriority st e
  have heq : mergeCommit year (mergeDraft st e) e = mergeDraft st e := by
    apply mergeCommit_eq_of_not
    rw [hp]
    exact hn
  rcases h with h | h
  · exact h (by unfold mergeEvent; rw [heq, mergeDraft_signedDate])
  · exact h (by unfold mergeEvent; rw [heq, mergeDraft_signedTeam])

/-- Claim C1: over both tiers of the reconciler, the final priority
accumulator equals the running maximum (from the initial -1) of the
priorities of candidate events (positive-priority events with a detected,
valid date; Commitment 100, Signing 1, everything else 0 and never a
candidate), over the events actually processed (the abbreviated items
plus, when the deep-tier budget applies and pages exist, the items of the
at most 10 processed deep pages); and date/team are written into the
record only by a candidate whose priority strictly exceeds the recorded
accumulator, in both tiers. -/
theorem claim_C1_priority_merge (year : Nat) (abbrevItems : List TEvent)
    (pages : List (List TEvent)) (dp : Option (List (List TEvent))) :
    ((parse_timeline_model year initMergeState abbrevItems true (some pages)).1.datePriority
        = foldPrio year (-1) (abbrevItems ++ (pages.take 10).flatten))
    ∧ ((parse_timeline_model year initMergeState abbrevItems false dp).1.datePriority
        = foldPrio year (-1) abbrevItems)
    ∧ ((parse_timeline_model year initMergeState abbrevItems true none).1.datePriority
        = foldPrio year (-1) abbrevItems)
    ∧ (∀ st e, (mergeEvent year st e).signedDate ≠ st.signedDate ∨
          (mergeEvent year st e).signedTeam ≠ st.signedTeam →
        isCandidate year e = true ∧ st.datePriority < eventPriority e.kind)
    ∧ (∀ st e rest, ¬ (0 < eventPriority e.kind ∧
          (e.dateStr ≠ "NA" ∧ is_date_valid_for_class e.dateStr year = true) ∧
          st.datePriority < eventPriority e.kind) →
        scanDeepItems year st (e :: rest) =
          ((scanDeepItems year st rest).1, (scanDeepItems year st rest).2.1 + 1,
            (scanDeepItems year st rest).2.2)) := by
  have habb : (mergeTimeline year initMergeState abbrevItems).datePriority
      = foldPrio year (-1) abbrevItems :=
    mergeTimeline_datePriority year abbrevItems initMergeState
  refine ⟨?_, habb, habb, mergeEvent_write_requires year, scanDeepItems_cons_skip year⟩
  show (deepLoop year 0 (mergeTimeline year initMergeState abbrevItems) pages).1.datePriority = _
  rw [deepLoop_datePriority year pages 0 (mergeTimeline year initMergeState abbrevItems)
      (by rw [habb]; exact foldPrio_le year abbrevItems (-1) (by decide)),
    habb, foldPrio_append]

/-- Witness for claim C1: a signing then a commitment event, both valid
for 2020, with the commitment on a deep page. -/
theorem claim_C1_witness :
    (parse_timeline_model 2020 initMergeState
        [⟨false, "NA", "NA", EventKind.signing, "01/01/2020", some "Auburn"⟩] true
        (some [[⟨false, "NA", "NA", EventKind.commitment, "02/01/2020", some "Alabama"⟩]])).1.datePriority
      = foldPrio 2020 (-1)
        ([⟨false, "NA", "NA", EventKind.signing, "01/01/2020", some "Auburn"⟩] ++
          (([[⟨false, "NA", "NA", EventKind.commitment, "02/01/2020", some "Alabama"⟩]] :
            List (List TEvent)).take 10).flatten) :=
  (claim_C1_priority_merge 2020
    [⟨false, "NA", "NA", EventKind.signing, "01/01/2020", some "Auburn"⟩]
    [[⟨false, "NA", "NA", EventKind.commitment, "02/01/2020", some "Alabama"⟩]] none).1

/-- Counterexample to claim C4 as stated: with the record already holding
Commitment priority from the abbreviated tier, a valid Commitment-priority
event found on the first deep page does not stop the deep scan: the second
page is still examined (2 pages examined, not 1), and no early exit fires. -/
theorem claim_C4_counterexample :
    (parse_timeline_model 2020 initMergeState
        [⟨false, "NA", "NA", EventKind.commitment, "01/01/2020", some "Alabama"⟩] true
        (some [[⟨false, "NA", "NA", EventKind.commitment, "01/01/2020", some "Alabama"⟩],
               [⟨false, "NA", "NA", EventKind.signing, "01/02/2020", some "Auburn"⟩]])).2.1 = 2
    ∧ (parse_timeline_model 2020 initMergeState
        [⟨false, "NA", "NA", EventKind.commitment, "01/01/2020", some "Alabama"⟩] true
        (some [[⟨false, "NA", "NA", EventKind.commitment, "01/01/2020", some "Alabama"⟩],
               [⟨false, "NA", "NA", EventKind.signing, "01/02/2020", some "Auburn"⟩]])).2.2 = false := by
  constructor
  · decide
  · decide

/-- Claim C4 as amended: the deep-history early exit fires exactly on an
accepted Commitment event (valid date, priority 100 strictly above the
accumulator): then no later item or page is examined and the result is
independent of them; an event that does not update the record leaves the
scan running; and the abbreviated tier always scans to the end of the
item list, with no early exit. -/
theorem claim_C4_amended (year : Nat) (st : MergeState) (e : TEvent)
    (hacc : 0 < eventPriority e.kind ∧
      (e.dateStr ≠ "NA" ∧ is_date_valid_for_class e.dateStr year = true) ∧
      st.datePriority < eventPriority e.kind)
    (h100 : eventPriority e.kind = 100) :
    (∀ rest, scanDeepItems year st (e :: rest) = (applyEvent st e, 1, true))
    ∧ (∀ rest pages pc, pc < 10 →
        deepLoop year pc st ((e :: rest) :: pages) = (applyEvent st e, 1, true))
    ∧ (∀ st0 es1 es2, mergeTimeline year st0 (es1 ++ es2)
        = mergeTimeline year (mergeTimeline year st0 es1) es2)
    ∧ (∀ st1 e1 rest, ¬ (0 < eventPriority e1.kind ∧
          (e1.dateStr ≠ "NA" ∧ is_date_valid_for_class e1.dateStr year = true) ∧
          st1.datePriority < eventPriority e1.kind) →
        scanDeepItems year st1 (e1 :: rest) =
          ((scanDeepItems year st1 rest).1, (scanDeepItems year st1 rest).2.1 + 1,
            (scanDeepItems year st1 rest).2.2)) := by
  refine ⟨fun rest => scanDeepItems_cons_accept100 year st e rest hacc h100, ?_,
    ?_, scanDeepItems_cons_skip year⟩
  · intro rest pages pc hpc
    rw [deepLoop, if_pos hpc]
    dsimp only
    rw [scanDeepItems_cons_accept100 year st e rest hacc h100]
    rfl
  · intro st0 es1 es2
    simp [mergeTimeline]

/-- Witness for claim C4 as amended: a valid 2020 commitment at the head
of a deep page stops the scan at once. -/
theorem claim_C4_witness :
    scanDeepItems 2020 initMergeState
        [⟨false, "NA", "NA", EventKind.commitment, "01/01/2020", some "Alabama"⟩,
         ⟨false, "NA", "NA", EventKind.signing, "01/02/2020", some "Auburn"⟩]
      = (applyEvent initMergeState
          ⟨false, "NA", "NA", EventKind.commitment, "01/01/2020", some "Alabama"⟩, 1, true) :=
  (claim_C4_amended 2020 initMergeState
      ⟨false, "NA", "NA", EventKind.commitment, "01/01/2020", some "Alabama"⟩
      (by decide) (by decide)).1
    [⟨false, "NA", "NA", EventKind.signing, "01/02/2020", some "Auburn"⟩]

theorem is_date_valid_parse (s : String) (year m d y : Nat)
    (h1 : 1 ≤ year) (h2 : year ≤ 9999)
    (hp : parseMMDDYYYY s = some (m, d, y)) :
    is_date_valid_for_class s year = dateBefore y m d year 9 1 := by
  have hna : s ≠ "NA" := by
    intro h
    rw [h, (by decide : parseMMDDYYYY "NA" = none)] at hp
    exact Option.noConfusion hp
  unfold is_date_valid_for_class
  rw [if_neg hna, hp]
  show (if year < 1 ∨ 9999 < year then true else dateBefore y m d year 9 1) = _
  rw [if_neg (by omega : ¬ (year < 1 ∨ 9999 < year))]

/-- Claim C5: an event whose detected date parses as a calendar date on or
after September 1 of the recruiting year never sets Signed Date or Signed
Team (in either tier), and an event with a parseable date that does set
Signed Date has a date strictly before that cutoff. -/
theorem claim_C5_cutoff (year m d y : Nat) (st : MergeState) (e : TEvent)
    (hy1 : 1 ≤ year) (hy2 : year ≤ 9999)
    (hp : parseMMDDYYYY e.dateStr = some (m, d, y)) :
    (dateBefore y m d year 9 1 = false →
      mergeCommit year st e = st ∧
      ∀ rest, scanDeepItems year st (e :: rest) =
        ((scanDeepItems year st rest).1, (scanDeepItems year st rest).2.1 + 1,
          (scanDeepItems year st rest).2.2))
    ∧ ((mergeCommit year st e).signedDate ≠ st.signedDate →
      dateBefore y m d year 9 1 = true) := by
  have hv : is_date_valid_for_class e.dateStr year = dateBefore y m d year 9 1 :=
    is_date_valid_parse e.dateStr year m d y hy1 hy2 hp
  constructor
  · intro hbad
    have hnv : is_date_valid_for_class e.dateStr year = false := by rw [hv, hbad]
    constructor
    · apply mergeCommit_eq_of_not
      rintro ⟨hcand, -⟩
      rcases (isCandidate_iff year e).mp hcand with ⟨-, -, hval⟩
      rw [hnv] at hval
      exact Bool.false_ne_true hval
    · intro rest
      apply scanDeepItems_cons_skip
      rintro ⟨-, ⟨-, hval⟩, -⟩
      rw [hnv] at hval
      exact Bool.false_ne_true hval
  · intro hch
    by_contra hbt
    have hbad : dateBefore y m d year 9 1 = false := by
      cases hb : dateBefore y m d year 9 1
      · rfl
      · exact absurd hb hbt
    have hnv : is_date_valid_for_class e.dateStr year = false := by rw [hv, hbad]
    have heq : mergeCommit year st e = st := by
      apply mergeCommit_eq_of_not
      rintro ⟨hcand, -⟩
      rcases (isCandidate_iff year e).mp hcand with ⟨-, -, hval⟩
      rw [hnv] at hval
      exact Bool.false_ne_true hval
    exact hch (by rw [heq])

/-- Witness for claim C5: a commitment dated 09/02/2020 is on or after the
September 1, 2020 cutoff and leaves the fresh record unchanged. -/
theorem claim_C5_witness :
    mergeCommit 2020 initMergeState
        ⟨false, "NA", "NA", EventKind.commitment, "09/02/2020", some "Alabama"⟩
      = initMergeState :=
  ((claim_C5_cutoff 2020 9 2 2020 initMergeState
      ⟨false, "NA", "NA", EventKind.commitment, "09/02/2020", some "Alabama"⟩
      (by decide) (by decide) (by decide)).1 (by decide)).1

/-- Claim C10: a date string that is not the "NA" sentinel and does not
parse as MM/DD/YYYY makes the validity check return true for every
recruiting year; in particular the raw timeline date "Sept 5, 2019"
passes through normalize_date unchanged, and a commitment event carrying
it may set the canonical signed date whenever the accumulator is below
Commitment priority. -/
theorem claim_C10_malformed_date (s : String) (year : Nat)
    (hna : s ≠ "NA") (hp : parseMMDDYYYY s = none) :
    is_date_valid_for_class s year = true
    ∧ normalize_date "Sept 5, 2019" = "Sept 5, 2019"
    ∧ parseMMDDYYYY "Sept 5, 2019" = none
    ∧ (∀ st : MergeState, st.datePriority < 100 →
        (mergeCommit year st ⟨false, "NA", "NA", EventKind.commitment, s, none⟩).signedDate
          = s) := by
  have hval : is_date_valid_for_class s year = true := by
    unfold is_date_valid_for_class
    rw [if_neg hna, hp]
  refine ⟨hval, by decide, by decide, ?_⟩
  intro st hlt
  unfold mergeCommit
  rw [if_pos (by decide : (0 : Int) < eventPriority EventKind.commitment),
    if_pos ⟨hna, hval⟩]
  show (if st.datePriority < (100 : Int) then
      applyEvent st ⟨false, "NA", "NA", EventKind.commitment, s, none⟩ else st).signedDate = s
  rw [if_pos hlt]
  rfl

/-- Witness for claim C10: the malformed date "Sept 5, 2019" is reported
valid for 2020 and sets the signed date of a fresh record. -/
theorem claim_C10_witness :
    is_date_valid_for_class "Sept 5, 2019" 2020 = true
    ∧ (mergeCommit 2020 initMergeState
        ⟨false, "NA", "NA", EventKind.commitment, "Sept 5, 2019", none⟩).signedDate
      = "Sept 5, 2019" := by
  have h := claim_C10_malformed_date "Sept 5, 2019" 2020 (by decide) (by decide)
  exact ⟨h.1, h.2.2.2 initMergeState (by decide)⟩

/-! ## Budget allocation lemmas (towards claim C9) -/

theorem batchNumsF_eq {α : Type} (w : Nat) (hw : 1 ≤ w) :
    ∀ (fuel : Nat) (l : List α) (b : Nat), l.length ≤ fuel →
      batchNumsF w fuel b l = (List.range l.length).map (fun k => b * w + k + 1) := by
  intro fuel
  induction fuel with
  | zero =>
    intro l b hl
    have hnil : l = [] := List.eq_nil_of_length_eq_zero (Nat.le_zero.mp hl)
    subst hnil
    rfl
  | succ fuel ih =>
    intro l b hl
    cases l with
    | nil => rfl
    | cons u rest =>
      show (List.range ((u :: rest.take (w - 1)).length)).map (fun i => b * w + i + 1) ++
          batchNumsF w fuel (b + 1) (rest.drop (w - 1)) = _
      rw [ih (rest.drop (w - 1)) (b + 1) (by
        simp only [List.length_drop]
        simp only [List.length_cons] at hl
        omega)]
      simp only [List.length_cons, List.length_take, List.length_drop]
      by_cases hcase : rest.length ≤ w - 1
      · have h1 : min (w - 1) rest.length = rest.length := by omega
        have h2 : rest.length - (w - 1) = 0 := by omega
        rw [h1, h2]
        simp
      · have h1 : min (w - 1) rest.length = w - 1 := by omega
        have h3 : w - 1 + 1 = w := by omega
        have h2 : rest.length + 1 = w + (rest.length - (w - 1)) := by omega
        rw [h1, h3, h2, List.range_add, List.map_append, List.map_map]
        congr 1
        apply List.map_congr_left
        intro k _
        show (b + 1) * w + k + 1 = b * w + (w + k) + 1
        ring

/-- Claim C9: under any concurrency width w ≥ 1, the player number
assigned to the entity at 0-based global position k of the ordered
sequence is k + 1, so exactly the first DEEP_TIMELINE_LIMIT = 1000
positions receive the deep-history budget, and the budget flags are
identical for any two widths. -/
theorem claim_C9_budget {α : Type} (w w2 : Nat) (urls : List α)
    (hw : 1 ≤ w) (hw2 : 1 ≤ w2) :
    batchNums w 0 urls = (List.range urls.length).map (fun k => k + 1)
    ∧ deepFlags w urls =
        (List.range urls.length).map (fun k => decide (k + 1 ≤ DEEP_TIMELINE_LIMIT))
    ∧ deepFlags w urls = deepFlags w2 urls := by
  have key : ∀ (v : Nat), 1 ≤ v →
      batchNums (α := α) v 0 urls = (List.range urls.length).map (fun k => k + 1) := by
    intro v hv
    have h1 := batchNumsF_eq (α := α) v hv urls.length urls 0 (le_refl _)
    rw [show batchNums (α := α) v 0 urls = batchNumsF v urls.length 0 urls from rfl, h1]
    apply List.map_congr_left
    intro k _
    omega
  have hflags : ∀ (v : Nat), 1 ≤ v → deepFlags (α := α) v urls =
      (List.range urls.length).map (fun k => decide (k + 1 ≤ DEEP_TIMELINE_LIMIT)) := by
    intro v hv
    show (batchNums v 0 urls).map _ = _
    rw [key v hv, List.map_map]
    rfl
  refine ⟨key w hw, hflags w hw, ?_⟩
  rw [hflags w hw, hflags w2 hw2]

/-- Witness for claim C9: three entities under widths 4 and 7. -/
theorem claim_C9_witness :
    batchNums 4 0 ["a", "b", "c"] = (List.range 3).map (fun k => k + 1) :=
  (claim_C9_budget 4 7 ["a", "b", "c"] (by decide) (by decide)).1

/-! ## Batch executor lemmas (towards claim C6) -/

theorem scrapeBatchGo_length (year : Nat) (sd : String) (w b : Nat) :
    ∀ (entries : List (String × FetchOutcome)) (i : Nat),
      (scrapeBatchGo year sd w b i entries).length = entries.length := by
  intro entries
  induction entries with
  | nil => intro i; rfl
  | cons e rest ih =>
    intro i
    show (scrapeBatchGo year sd w b (i + 1) rest).length + 1 = rest.length + 1
    rw [ih (i + 1)]

theorem scrapeBatchGo_append (year : Nat) (sd : String) (w b : Nat) :
    ∀ (l1 l2 : List (String × FetchOutcome)) (i : Nat),
      scrapeBatchGo year sd w b i (l1 ++ l2) =
        scrapeBatchGo year sd w b i l1 ++ scrapeBatchGo year sd w b (i + l1.length) l2 := by
  intro l1
  induction l1 with
  | nil =>
    intro l2 i
    rw [List.nil_append, List.length_nil, Nat.add_zero]
    rfl
  | cons e rest ih =>
    intro l2 i
    show stripPriority _ :: scrapeBatchGo year sd w b (i + 1) (rest ++ l2) = _
    rw [ih l2 (i + 1)]
    show _ = stripPriority _ :: (scrapeBatchGo year sd w b (i + 1) rest ++
      scrapeBatchGo year sd w b (i + (rest.length + 1)) l2)
    rw [show i + 1 + rest.length = i + (rest.length + 1) from by omega]

theorem mem_scrapeBatchGo (year : Nat) (sd : String) (w b : Nat) :
    ∀ (entries : List (String × FetchOutcome)) (i : Nat)
      (r : List (String × String)), r ∈ scrapeBatchGo year sd w b i entries →
      ∃ u n o, r = stripPriority (parse_profile_model u year sd n o) := by
  intro entries
  induction entries with
  | nil => intro i r h; exact absurd h (List.not_mem_nil r)
  | cons e rest ih =>
    intro i r h
    obtain ⟨url, o⟩ := e
    have h2 : r = stripPriority (parse_profile_model url year sd (b * w + i + 1) o) ∨
        r ∈ scrapeBatchGo year sd w b (i + 1) rest := by
      have hc : r ∈ stripPriority (parse_profile_model url year sd (b * w + i + 1) o) ::
          scrapeBatchGo year sd w b (i + 1) rest := h
      exact List.mem_cons.mp hc
    rcases h2 with h2 | h2
    · exact ⟨url, b * w + i + 1, o, h2⟩
    · exact ih (i + 1) r h2

theorem lookup_filter_ne (k : String) : ∀ l : List (String × String),
    (l.filter (fun kv => kv.1 ≠ k)).lookup k = none := by
  intro l
  induction l with
  | nil => rfl
  | cons kv rest ih =>
    obtain ⟨k1, v1⟩ := kv
    by_cases h : k1 = k
    · have hf : ((k1, v1) :: rest).filter (fun kv => kv.1 ≠ k)
          = rest.filter (fun kv => kv.1 ≠ k) :=
        List.filter_cons_of_neg (by simp [h])
      rw [hf]
      exact ih
    · have hf : ((k1, v1) :: rest).filter (fun kv => kv.1 ≠ k)
          = (k1, v1) :: rest.filter (fun kv => kv.1 ≠ k) :=
        List.filter_cons_of_pos (by simp [h])
      have hne : (k == k1) = false :=
        beq_eq_false_iff_ne.mpr (fun hh => h hh.symm)
      rw [hf, List.lookup_cons, hne]
      exact ih

/-- Claim C6: a batch of N entities yields exactly N records; a fetch
failure yields the sentinel-initialized record carrying the original
locator and metadata, with every other schema field at "NA"; the private
_date_priority key is deleted from every batch result; and one entity's
outcome does not affect the records of the entities before or after it. -/
theorem claim_C6_batch (year : Nat) (sd : String) (w b : Nat)
    (pre post : List (String × FetchOutcome)) (url : String)
    (e : String × FetchOutcome) :
    (∀ entries : List (String × FetchOutcome),
      (scrape_player_batch_model year sd w b entries).length = entries.length)
    ∧ (scrape_player_batch_model year sd w b (pre ++ (url, FetchOutcome.failure) :: post)
        = scrape_player_batch_model year sd w b pre
          ++ stripPriority (initRecord url year sd)
            :: scrapeBatchGo year sd w b (0 + pre.length + 1) post)
    ∧ ((scrape_player_batch_model year sd w b (pre ++ e :: post)).take pre.length
        = scrape_player_batch_model year sd w b pre)
    ∧ ((scrape_player_batch_model year sd w b (pre ++ e :: post)).drop (pre.length + 1)
        = scrapeBatchGo year sd w b (0 + pre.length + 1) post)
    ∧ (∀ entries, ∀ r ∈ scrape_player_batch_model year sd w b entries,
        r.lookup "_date_priority" = none)
    ∧ (∀ h ∈ CSV_HEADERS,
        h ∉ ["Profile URL", "Recruiting Year", "Scrape Date", "Data Source"] →
        (stripPriority (initRecord url year sd)).lookup h = some "NA")
    ∧ (stripPriority (initRecord url year sd)).lookup "Profile URL" = some url := by
  have hsplit : ∀ (e2 : String × FetchOutcome),
      scrape_player_batch_model year sd w b (pre ++ e2 :: post) =
        scrape_player_batch_model year sd w b pre ++
          stripPriority (parse_profile_model e2.1 year sd (b * w + (0 + pre.length) + 1) e2.2) ::
            scrapeBatchGo year sd w b (0 + pre.length + 1) post := by
    intro e2
    show scrapeBatchGo year sd w b 0 (pre ++ e2 :: post) = _
    rw [scrapeBatchGo_append year sd w b pre (e2 :: post) 0]
    rfl
  refine ⟨fun entries => scrapeBatchGo_length year sd w b entries 0, ?_, ?_, ?_, ?_, ?_, ?_⟩
  · exact hsplit (url, FetchOutcome.failure)
  · rw [hsplit e]
    exact List.take_left' (scrapeBatchGo_length year sd w b pre 0)
  · rw [hsplit e]
    have h1 : (scrape_player_batch_model year sd w b pre).length = pre.length :=
      scrapeBatchGo_length year sd w b pre 0
    have hlen : (scrape_player_batch_model year sd w b pre ++
        [stripPriority (parse_profile_model e.1 year sd (b * w + (0 + pre.length) + 1) e.2)]).length
        = pre.length + 1 := by
      rw [List.length_append, h1]
      rfl
    rw [show scrape_player_batch_model year sd w b pre ++
        stripPriority (parse_profile_model e.1 year sd (b * w + (0 + pre.length) + 1) e.2) ::
          scrapeBatchGo year sd w b (0 + pre.length + 1) post
        = (scrape_player_batch_model year sd w b pre ++
            [stripPriority (parse_profile_model e.1 year sd (b * w + (0 + pre.length) + 1) e.2)]) ++
              scrapeBatchGo year sd w b (0 + pre.length + 1) post from by
      rw [List.append_assoc]
      rfl]
    exact List.drop_left' hlen
  · intro entries r hr
    rcases mem_scrapeBatchGo year sd w b entries 0 r hr with ⟨u, n, o, rfl⟩
    exact lookup_filter_ne "_date_priority" (parse_profile_model u year sd n o)
  · intro h hmem hnot
    fin_cases hmem <;>
      first
        | rfl
        | exact absurd (by decide) hnot
  · rfl

/-- Witness for claim C6: a batch holding one failing entity yields one
record. -/
theorem claim_C6_witness :
    (scrape_player_batch_model 2020 "2026-02-20" 4 0 [("u1", FetchOutcome.failure)]).length = 1 :=
  (claim_C6_batch 2020 "2026-02-20" 4 0 [] [] "u" ("x", FetchOutcome.failure)).1
    [("u1", FetchOutcome.failure)]

/-! ## Load More loop lemmas (towards claims C7 and C8) -/

theorem runFromF_irrel (obs : Nat → Obs) (maxClicks : Nat) :
    ∀ (f1 f2 t cc cf nbc it : Nat),
      runMeasure maxClicks cc cf nbc ≤ f1 → runMeasure maxClicks cc cf nbc ≤ f2 →
      runFromF obs maxClicks f1 t cc cf nbc it = runFromF obs maxClicks f2 t cc cf nbc it := by
  intro f1
  induction f1 with
  | zero =>
    intro f2 t cc cf nbc it h1 h2
    have hcc : ¬ cc < maxClicks := by
      unfold runMeasure at h1
      omega
    cases f2 with
    | zero => rfl
    | succ g2 =>
      rw [runFromF, runFromF, if_neg hcc]
  | succ g ih =>
    intro f2 t cc cf nbc it h1 h2
    by_cases hcc : cc < maxClicks
    · cases f2 with
      | zero =>
        exfalso
        unfold runMeasure at h2
        omega
      | succ g2 =>
        rw [runFromF, runFromF, if_pos hcc, if_pos hcc]
        cases hobs : obs t with
        | click =>
          exact ih g2 (t + 1) (cc + 1) 0 0 (it + 1)
            (by unfold runMeasure at h1 ⊢; omega)
            (by unfold runMeasure at h2 ⊢; omega)
        | noButton =>
          by_cases hn : nbc + 1 ≥ 3
          · rw [if_pos hn, if_pos hn]
          · rw [if_neg hn, if_neg hn]
            exact ih g2 (t + 1) cc cf (nbc + 1) (it + 1)
              (by unfold runMeasure at h1 ⊢; omega)
              (by unfold runMeasure at h2 ⊢; omega)
        | fail =>
          by_cases hf : cf + 1 ≥ 10
          · rw [if_pos hf, if_pos hf]
          · rw [if_neg hf, if_neg hf]
            exact ih g2 (t + 1) cc (cf + 1) nbc (it + 1)
              (by unfold runMeasure at h1 ⊢; omega)
              (by unfold runMeasure at h2 ⊢; omega)
    · cases f2 with
      | zero =>
        rw [runFromF, runFromF, if_neg hcc]
      | succ g2 =>
        rw [runFromF, runFromF, if_neg hcc, if_neg hcc]

theorem runFrom_stop (obs : Nat → Obs) (maxClicks t cc cf nbc it : Nat)
    (h : ¬ cc < maxClicks) :
    runFrom obs maxClicks t cc cf nbc it = ⟨cc, t, it, .maxClicksReached⟩ := by
  unfold runFrom
  cases hm : runMeasure maxClicks cc cf nbc with
  | zero => rfl
  | succ g => rw [runFromF, if_neg h]

theorem runFrom_click (obs : Nat → Obs) (maxClicks t cc cf nbc it : Nat)
    (h : cc < maxClicks) (hobs : obs t = Obs.click) :
    runFrom obs maxClicks t cc cf nbc it =
      runFrom obs maxClicks (t + 1) (cc + 1) 0 0 (it + 1) := by
  unfold runFrom
  have hm : runMeasure maxClicks cc cf nbc = (runMeasure maxClicks cc cf nbc - 1) + 1 := by
    unfold runMeasure
    omega
  rw [hm, runFromF, if_pos h, hobs]
  exact runFromF_irrel obs maxClicks _ _ (t + 1) (cc + 1) 0 0 (it + 1)
    (by unfold runMeasure; omega) (le_refl _)

theorem runFrom_noButton_stop (obs : Nat → Obs) (maxClicks t cc cf nbc it : Nat)
    (h : cc < maxClicks) (hobs : obs t = Obs.noButton) (hn : nbc + 1 ≥ 3) :
    runFrom obs maxClicks t cc cf nbc it = ⟨cc, t + 1, it + 1, .complete⟩ := by
  unfold runFrom
  have hm : runMeasure maxClicks cc cf nbc = (runMeasure maxClicks cc cf nbc - 1) + 1 := by
    unfold runMeasure
    omega
  rw [hm, runFromF, if_pos h, hobs]
  rw [if_pos hn]

theorem runFrom_noButton_cont (obs : Nat → Obs) (maxClicks t cc cf nbc it : Nat)
    (h : cc < maxClicks) (hobs : obs t = Obs.noButton) (hn : ¬ nbc + 1 ≥ 3) :
    runFrom obs maxClicks t cc cf nbc it =
      runFrom obs maxClicks (t + 1) cc cf (nbc + 1) (it + 1) := by
  unfold runFrom
  have hm : runMeasure maxClicks cc cf nbc = (runMeasure maxClicks cc cf nbc - 1) + 1 := by
    unfold runMeasure
    omega
  rw [hm, runFromF, if_pos h, hobs]
  rw [if_neg hn]
  exact runFromF_irrel obs maxClicks _ _ (t + 1) cc cf (nbc + 1) (it + 1)
    (by unfold runMeasure; omega) (le_refl _)

theorem runFrom_fail_stop (obs : Nat → Obs) (maxClicks t cc cf nbc it : Nat)
    (h : cc < maxClicks) (hobs : obs t = Obs.fail) (hf : cf + 1 ≥ 10) :
    runFrom obs maxClicks t cc cf nbc it = ⟨cc, t + 1, it + 1, .tooManyFailures⟩ := by
  unfold runFrom
  have hm : runMeasure maxClicks cc cf nbc = (runMeasure maxClicks cc cf nbc - 1) + 1 := by
    unfold runMeasure
    omega
  rw [hm, runFromF, if_pos h, hobs]
  rw [if_pos hf]

theorem runFrom_fail_cont (obs : Nat → Obs) (maxClicks t cc cf nbc it : Nat)
    (h : cc < maxClicks) (hobs : obs t = Obs.fail) (hf : ¬ cf + 1 ≥ 10) :
    runFrom obs maxClicks t cc cf nbc it =
      runFrom obs maxClicks (t + 1) cc (cf + 1) nbc (it + 1) := by
  unfold runFrom
  have hm : runMeasure maxClicks cc cf nbc = (runMeasure maxClicks cc cf nbc - 1) + 1 := by
    unfold runMeasure
    omega
  rw [hm, runFromF, if_pos h, hobs]
  rw [if_neg hf]
  exact runFromF_irrel obs maxClicks _ _ (t + 1) cc (cf + 1) nbc (it + 1)
    (by unfold runMeasure; omega) (le_refl _)

theorem runFrom_allFail (obs : Nat → Obs) (maxClicks : Nat) :
    ∀ n, 1 ≤ n → n ≤ 10 → ∀ t cc nbc it, cc < maxClicks →
      (∀ i, obs (t + i) = Obs.fail) →
      runFrom obs maxClicks t cc (10 - n) nbc it =
        ⟨cc, t + n, it + n, .tooManyFailures⟩ := by
  intro n
  induction n with
  | zero => intro h1; omega
  | succ m ih =>
    intro _ hle t cc nbc it hcc hstream
    have h0 : obs t = Obs.fail := hstream 0
    cases Nat.eq_zero_or_pos m with
    | inl hm =>
      subst hm
      rw [runFrom_fail_stop obs maxClicks t cc (10 - 1) nbc it hcc h0 (by omega)]
    | inr hm =>
      rw [runFrom_fail_cont obs maxClicks t cc (10 - (m + 1)) nbc it hcc h0 (by omega)]
      have hcf : 10 - (m + 1) + 1 = 10 - m := by omega
      rw [hcf, ih hm (by omega) (t + 1) cc nbc (it + 1) hcc
        (fun i => by rw [show t + 1 + i = t + (i + 1) from by omega]; exact hstream (i + 1))]
      congr 1 <;> omega

/-- Counterexample to claim C7 as stated: the gap-repair crawl loop
(get_players_from_list) aborts after 5 consecutive failures, not 10: on a
stream of persistent action failures with ample iteration range it stops
after exactly 5 iterations with zero clicks. -/
theorem claim_C7_counterexample :
    gapRunFrom (fun _ => Obs.fail) (fun _ => 0) 300 10 0 0 0 0 0
      = ⟨0, 5, GapStop.tooManyFailures⟩
    ∧ (5 : Nat) ≠ 10 := by
  constructor
  · decide
  · decide

/-- Claim C7 as amended: in the full crawl's Load More loop, persistent
action failures abort the loop after exactly 10 consecutive failures,
returning the clicks gathered so far, and any successful click resets the
consecutive-failure counter; in the gap-repair crawl's loop the abort
threshold is 5 consecutive failures (also returning the partial result),
with the same reset on success. -/
theorem claim_C7_amended :
    (∀ (obs : Nat → Obs) (maxClicks t cc nbc it : Nat), cc < maxClicks →
      (∀ i, obs (t + i) = Obs.fail) →
      runFrom obs maxClicks t cc 0 nbc it = ⟨cc, t + 10, it + 10, .tooManyFailures⟩)
    ∧ (∀ (obs : Nat → Obs) (maxClicks t cc cf nbc it : Nat), cc < maxClicks →
      obs t = Obs.click →
      runFrom obs maxClicks t cc cf nbc it =
        runFrom obs maxClicks (t + 1) (cc + 1) 0 0 (it + 1))
    ∧ (∀ (obs : Nat → Obs) (items : Nat → Nat) (mrn fuel t cc nbc it : Nat), 5 ≤ fuel →
      (∀ i, obs (t + i) = Obs.fail) →
      gapRunFrom obs items mrn fuel t cc 0 nbc it = ⟨cc, it + 5, .tooManyFailures⟩)
    ∧ (∀ (obs : Nat → Obs) (items : Nat → Nat) (mrn fuel t cc cf nbc it : Nat),
      obs t = Obs.click →
      ¬ ((cc + 1) % 5 = 0 ∧ items (cc + 1) > mrn + 50) →
      gapRunFrom obs items mrn (fuel + 1) t cc cf nbc it =
        gapRunFrom obs items mrn fuel (t + 1) (cc + 1) 0 0 (it + 1)) := by
  have gapStep : ∀ (obs : Nat → Obs) (items : Nat → Nat) (mrn fuel t cc cf nbc it : Nat),
      obs t = Obs.fail → cf + 1 < 5 →
      gapRunFrom obs items mrn (fuel + 1) t cc cf nbc it =
        gapRunFrom obs items mrn fuel (t + 1) cc (cf + 1) nbc (it + 1) := by
    intro obs items mrn fuel t cc cf nbc it hobs hcf
    rw [gapRunFrom, hobs]
    show (if cf + 1 ≥ 5 then (⟨cc, it + 1, .tooManyFailures⟩ : GapRunResult)
      else gapRunFrom obs items mrn fuel (t + 1) cc (cf + 1) nbc (it + 1)) = _
    rw [if_neg (by omega : ¬ cf + 1 ≥ 5)]
  have gapStop : ∀ (obs : Nat → Obs) (items : Nat → Nat) (mrn fuel t cc cf nbc it : Nat),
      obs t = Obs.fail → cf + 1 ≥ 5 →
      gapRunFrom obs items mrn (fuel + 1) t cc cf nbc it =
        ⟨cc, it + 1, .tooManyFailures⟩ := by
    intro obs items mrn fuel t cc cf nbc it hobs hcf
    rw [gapRunFrom, hobs]
    show (if cf + 1 ≥ 5 then (⟨cc, it + 1, .tooManyFailures⟩ : GapRunResult)
      else gapRunFrom obs items mrn fuel (t + 1) cc (cf + 1) nbc (it + 1)) = _
    rw [if_pos hcf]
  refine ⟨?_, ?_, ?_, ?_⟩
  · intro obs maxClicks t cc nbc it hcc hstream
    have h := runFrom_allFail obs maxClicks 10 (by omega) (by omega) t cc nbc it hcc hstream
    simpa using h
  · intro obs maxClicks t cc cf nbc it hcc hobs
    exact runFrom_click obs maxClicks t cc cf nbc it hcc hobs
  · intro obs items mrn fuel t cc nbc it hfuel hstream
    obtain ⟨f5, rfl⟩ : ∃ f5, fuel = f5 + 5 := ⟨fuel - 5, by omega⟩
    have s0 : obs t = Obs.fail := hstream 0
    have s1 : obs (t + 1) = Obs.fail := hstream 1
    have s2 : obs (t + 1 + 1) = Obs.fail := by
      rw [show t + 1 + 1 = t + 2 from by omega]
      exact hstream 2
    have s3 : obs (t + 1 + 1 + 1) = Obs.fail := by
      rw [show t + 1 + 1 + 1 = t + 3 from by omega]
      exact hstream 3
    have s4 : obs (t + 1 + 1 + 1 + 1) = Obs.fail := by
      rw [show t + 1 + 1 + 1 + 1 = t + 4 from by omega]
      exact hstream 4
    rw [show f5 + 5 = (f5 + 4) + 1 from by omega,
      gapStep obs items mrn (f5 + 4) t cc 0 nbc it s0 (by omega),
      show f5 + 4 = (f5 + 3) + 1 from by omega,
      gapStep obs items mrn (f5 + 3) (t + 1) cc 1 nbc (it + 1) s1 (by omega),
      show f5 + 3 = (f5 + 2) + 1 from by omega,
      gapStep obs items mrn (f5 + 2) (t + 1 + 1) cc 2 nbc (it + 1 + 1) s2 (by omega),
      show f5 + 2 = (f5 + 1) + 1 from by omega,
      gapStep obs items mrn (f5 + 1) (t + 1 + 1 + 1) cc 3 nbc (it + 1 + 1 + 1) s3 (by omega),
      gapStop obs items mrn f5 (t + 1 + 1 + 1 + 1) cc 4 nbc (it + 1 + 1 + 1 + 1) s4
        (by omega)]
  · intro obs items mrn fuel t cc cf nbc it hobs hnot
    rw [gapRunFrom, hobs]
    show (if (cc + 1) % 5 = 0 ∧ items (cc + 1) > mrn + 50
        then (⟨cc + 1, it + 1, .enough⟩ : GapRunResult)
      else gapRunFrom obs items mrn fuel (t + 1) (cc + 1) 0 0 (it + 1)) = _
    rw [if_neg hnot]

/-- Witness for claim C7 as amended: a persistent-failure stream against
the full crawl's loop aborts after exactly 10 failures with the partial
(zero-click) result. -/
theorem claim_C7_witness :
    runFrom (fun _ => Obs.fail) 500 0 0 0 0 0
      = ⟨0, 0 + 10, 0 + 10, StopReason.tooManyFailures⟩ :=
  claim_C7_amended.1 (fun _ => Obs.fail) 500 0 0 0 0 (by decide) (fun _ => rfl)

/-! ## URL normalization lemmas (towards claims C3 and C8) -/

theorem replaceAllF_succ_pos (pat rep : List Char) (fuel : Nat) (c : Char)
    (rest : List Char) (h : pat.isPrefixOf (c :: rest) = true) :
    replaceAllF pat rep (fuel + 1) (c :: rest) =
      rep ++ replaceAllF pat rep fuel (rest.drop (pat.length - 1)) := by
  show (if pat.isPrefixOf (c :: rest) then _ else _) = _
  rw [if_pos h]

theorem replaceAllF_succ_neg (pat rep : List Char) (fuel : Nat) (c : Char)
    (rest : List Char) (h : pat.isPrefixOf (c :: rest) = false) :
    replaceAllF pat rep (fuel + 1) (c :: rest) = c :: replaceAllF pat rep fuel rest := by
  show (if pat.isPrefixOf (c :: rest) then _ else _) = _
  rw [if_neg (by simp [h])]

theorem replaceAllF_irrel (pat rep : List Char) :
    ∀ f1 : Nat, ∀ f2 s, s.length ≤ f1 → s.length ≤ f2 →
      replaceAllF pat rep f1 s = replaceAllF pat rep f2 s := by
  intro f1
  induction f1 with
  | zero =>
    intro f2 s h1 _
    have hnil : s = [] := List.eq_nil_of_length_eq_zero (Nat.le_zero.mp h1)
    subst hnil
    cases f2 <;> rfl
  | succ g ih =>
    intro f2 s h1 h2
    cases s with
    | nil => cases f2 <;> rfl
    | cons c rest =>
      cases f2 with
      | zero =>
        exfalso
        simp at h2
      | succ g2 =>
        cases hpre : pat.isPrefixOf (c :: rest) with
        | true =>
          rw [replaceAllF_succ_pos pat rep g c rest hpre,
            replaceAllF_succ_pos pat rep g2 c rest hpre]
          congr 1
          have hd : (rest.drop (pat.length - 1)).length ≤ rest.length := by
            rw [List.length_drop]
            omega
          simp at h1 h2
          apply ih
          · omega
          · omega
        | false =>
          rw [replaceAllF_succ_neg pat rep g c rest hpre,
            replaceAllF_succ_neg pat rep g2 c rest hpre]
          congr 1
          simp at h1 h2
          apply ih
          · omega
          · omega

theorem replaceAll_nil (pat rep : List Char) : replaceAll pat rep [] = [] := rfl

theorem replaceAll_cons_neg (pat rep : List Char) (c : Char) (rest : List Char)
    (h : pat.isPrefixOf (c :: rest) = false) :
    replaceAll pat rep (c :: rest) = c :: replaceAll pat rep rest := by
  unfold replaceAll
  rw [show (c :: rest).length = rest.length + 1 from rfl,
    replaceAllF_succ_neg pat rep rest.length c rest h]

theorem replaceAll_cons_pos (pat rep : List Char) (c : Char) (rest : List Char)
    (h : pat.isPrefixOf (c :: rest) = true) :
    replaceAll pat rep (c :: rest) =
      rep ++ replaceAll pat rep (rest.drop (pat.length - 1)) := by
  unfold replaceAll
  rw [show (c :: rest).length = rest.length + 1 from rfl,
    replaceAllF_succ_pos pat rep rest.length c rest h]
  congr 1
  apply replaceAllF_irrel
  · rw [List.length_drop]; omega
  · exact le_refl _

theorem replaceAll_append_pos (pat rep : List Char) (hpat : pat ≠ []) (t : List Char) :
    replaceAll pat rep (pat ++ t) = rep ++ replaceAll pat rep t := by
  cases pat with
  | nil => exact absurd rfl hpat
  | cons p0 prest =>
    rw [show (p0 :: prest) ++ t = p0 :: (prest ++ t) from rfl]
    rw [replaceAll_cons_pos (p0 :: prest) rep p0 (prest ++ t)
      (by
        have : (p0 :: prest) <+: (p0 :: prest) ++ t := List.prefix_append _ _
        simpa using this)]
    congr 1
    rw [show (p0 :: prest).length - 1 = prest.length from by simp]
    rw [List.drop_left]

theorem containsSub_iff (pat : List Char) :
    ∀ s, containsSub pat s = true ↔ pat <:+: s := by
  intro s
  induction s with
  | nil =>
    show pat.isEmpty = true ↔ _
    rw [List.isEmpty_iff, List.infix_nil]
  | cons c rest ih =>
    show (pat.isPrefixOf (c :: rest) || containsSub pat rest) = true ↔ _
    rw [Bool.or_eq_true, List.isPrefixOf_iff_prefix, ih, List.infix_cons_iff]

theorem containsSub_cons_false (pat : List Char) (c : Char) (rest : List Char)
    (h : containsSub pat (c :: rest) = false) : containsSub pat rest = false := by
  by_contra hr
  have ht : containsSub pat rest = true := by
    cases hx : containsSub pat rest
    · exact absurd hx hr
    · rfl
  have : pat <:+: (c :: rest) := List.infix_cons_iff.mpr (Or.inr ((containsSub_iff pat rest).mp ht))
  rw [(containsSub_iff pat (c :: rest)).mpr this] at h
  exact Bool.true_eq_false.mp h

theorem containsSub_append_drop (pat l t : List Char)
    (h : containsSub pat (l ++ t) = false) : containsSub pat t = false := by
  by_contra hr
  have ht : containsSub pat t = true := by
    cases hx : containsSub pat t
    · exact absurd hx hr
    · rfl
  have hinf : pat <:+: l ++ t := by
    rcases (containsSub_iff pat t).mp ht with ⟨a, b, rfl⟩
    exact ⟨l ++ a, b, by simp⟩
  rw [(containsSub_iff pat (l ++ t)).mpr hinf] at h
  exact Bool.true_eq_false.mp h

theorem containsSub_false_of_mem (pat s : List Char) (ch : Char)
    (hch : ch ∈ pat) (hns : ch ∉ s) : containsSub pat s = false := by
  cases hx : containsSub pat s
  · rfl
  · exfalso
    have hinf := (containsSub_iff pat s).mp hx
    exact hns (hinf.subset hch)

theorem replaceAll_of_not_contains (pat rep : List Char) (hpat : pat ≠ []) :
    ∀ n : Nat, ∀ s, s.length ≤ n → containsSub pat s = false →
      replaceAll pat rep s = s := by
  intro n
  induction n with
  | zero =>
    intro s h1 _
    have hnil : s = [] := List.eq_nil_of_length_eq_zero (Nat.le_zero.mp h1)
    subst hnil
    rfl
  | succ g ih =>
    intro s h1 hc
    cases s with
    | nil => rfl
    | cons c rest =>
      have hc2 : (pat.isPrefixOf (c :: rest) || containsSub pat rest) = false := hc
      rcases Bool.or_eq_false_iff.mp hc2 with ⟨hp, hrest⟩
      rw [replaceAll_cons_neg pat rep c rest hp]
      rw [ih rest (by simp at h1; omega) hrest]

theorem prefix_of_replaceAll (pat : List Char) (c0 : Char) (rep' : List Char) :
    ∀ n : Nat, ∀ q t : List Char, t.length ≤ n → c0 ∉ q →
      q.isPrefixOf (replaceAll pat (c0 :: rep') t) = true → q.isPrefixOf t = true := by
  intro n
  induction n with
  | zero =>
    intro q t h1 _ hpre
    have hnil : t = [] := List.eq_nil_of_length_eq_zero (Nat.le_zero.mp h1)
    subst hnil
    exact hpre
  | succ g ih =>
    intro q t h1 hq hpre
    cases t with
    | nil => exact hpre
    | cons c rest =>
      cases hp : pat.isPrefixOf (c :: rest) with
      | true =>
        rw [replaceAll_cons_pos pat (c0 :: rep') c rest hp] at hpre
        cases q with
        | nil => rfl
        | cons d q' =>
          have h2 : ((d == c0) && q'.isPrefixOf (rep' ++
              replaceAll pat (c0 :: rep') (rest.drop (pat.length - 1)))) = true := hpre
          rcases Bool.and_eq_true_iff.mp h2 with ⟨hdc, -⟩
          have hd : d = c0 := eq_of_beq hdc
          subst hd
          exact absurd (List.mem_cons_self d q') hq
      | false =>
        rw [replaceAll_cons_neg pat (c0 :: rep') c rest hp] at hpre
        cases q with
        | nil => rfl
        | cons d q' =>
          have h2 : ((d == c) && q'.isPrefixOf (replaceAll pat (c0 :: rep') rest)) = true :=
            hpre
          rcases Bool.and_eq_true_iff.mp h2 with ⟨hdc, hq'⟩
          have hrec : q'.isPrefixOf rest = true :=
            ih q' rest (by simp at h1; omega)
              (fun hm => hq (List.mem_cons_of_mem d hm)) hq'
          show ((d == c) && q'.isPrefixOf rest) = true
          rw [hdc, hrec]
          rfl

theorem contains_http_replaceAll (n : Nat) :
    ∀ u : List Char, u.length ≤ n →
      containsSub httpPat (replaceAll httpPat httpRep u) = false := by
  induction n with
  | zero =>
    intro u h1
    have hnil : u = [] := List.eq_nil_of_length_eq_zero (Nat.le_zero.mp h1)
    subst hnil
    rfl
  | succ g ih =>
    intro u h1
    cases u with
    | nil => rfl
    | cons c rest =>
      cases hp : httpPat.isPrefixOf (c :: rest) with
      | true =>
        obtain ⟨t, ht⟩ := List.isPrefixOf_iff_prefix.mp hp
        have hlen : t.length ≤ g := by
          have h2 := congrArg List.length ht
          rw [List.length_append] at h2
          rw [show httpPat.length = 7 from rfl] at h2
          simp at h1 h2
          omega
        rw [← ht, replaceAll_append_pos httpPat httpRep (by decide) t]
        have hih := ih t hlen
        rw [show httpRep = ['h', 't', 't', 'p', 's', ':', '/', '/'] from rfl] at hih ⊢
        rw [show httpPat = ['h', 't', 't', 'p', ':', '/', '/'] from rfl] at hih ⊢
        simp only [List.cons_append, List.nil_append, containsSub, List.isPrefixOf]
        simp [hih]
      | false =>
        rw [replaceAll_cons_neg httpPat httpRep c rest hp]
        have hih := ih rest (by simp at h1; omega)
        show (httpPat.isPrefixOf (c :: replaceAll httpPat httpRep rest)
            || containsSub httpPat (replaceAll httpPat httpRep rest)) = false
        rw [hih, Bool.or_false]
        cases hch : (('h' : Char) == c) with
        | false =>
          rw [show httpPat = 'h' :: ['t', 't', 'p', ':', '/', '/'] from rfl]
          show (('h' == c) && (['t', 't', 'p', ':', '/', '/'] : List Char).isPrefixOf
            (replaceAll httpPat httpRep rest)) = false
          rw [hch, Bool.false_and]
        | true =>
          have hc : c = 'h' := (eq_of_beq hch).symm
          subst hc
          cases hq : (['t', 't', 'p', ':', '/', '/'] : List Char).isPrefixOf
              (replaceAll httpPat httpRep rest) with
          | false =>
            rw [show httpPat = 'h' :: ['t', 't', 'p', ':', '/', '/'] from rfl]
            show (('h' == 'h') && (['t', 't', 'p', ':', '/', '/'] : List Char).isPrefixOf
              (replaceAll httpPat httpRep rest)) = false
            rw [hq, Bool.and_false]
          | true =>
            exfalso
            have hqp : (['t', 't', 'p', ':', '/', '/'] : List Char).isPrefixOf
                (replaceAll httpPat ('h' :: ['t', 't', 'p', 's', ':', '/', '/']) rest)
                = true := by
              rw [show ('h' :: ['t', 't', 'p', 's', ':', '/', '/'] : List Char) = httpRep
                from rfl]
              exact hq
            have hrest := prefix_of_replaceAll httpPat 'h' ['t', 't', 'p', 's', ':', '/', '/']
              rest.length ['t', 't', 'p', ':', '/', '/'] rest (le_refl _) (by decide) hqp
            have : httpPat.isPrefixOf ('h' :: rest) = true := by
              rw [show httpPat = 'h' :: ['t', 't', 'p', ':', '/', '/'] from rfl]
              show (('h' == 'h') && (['t', 't', 'p', ':', '/', '/'] : List Char).isPrefixOf
                rest) = true
              rw [hrest]
              rfl
            rw [hp] at this
            exact Bool.false_ne_true this

theorem contains_www_replaceAll (n : Nat) :
    ∀ s : List Char, s.length ≤ n → containsSub "://www.www.".data s = false →
      containsSub wwwPat (replaceAll wwwPat wwwRep s) = false := by
  induction n with
  | zero =>
    intro s h1 _
    have hnil : s = [] := List.eq_nil_of_length_eq_zero (Nat.le_zero.mp h1)
    subst hnil
    rfl
  | succ g ih =>
    intro s h1 hbig
    cases s with
    | nil => rfl
    | cons c rest =>
      cases hp : wwwPat.isPrefixOf (c :: rest) with
      | true =>
        obtain ⟨t, ht⟩ := List.isPrefixOf_iff_prefix.mp hp
        have hlen : t.length ≤ g := by
          have h2 := congrArg List.length ht
          rw [List.length_append] at h2
          rw [show wwwPat.length = 7 from rfl] at h2
          simp at h1 h2
          omega
        have hbt : containsSub "://www.www.".data t = false := by
          rw [← ht] at hbig
          exact containsSub_append_drop _ wwwPat t hbig
        have hwp : (['w', 'w', 'w', '.'] : List Char).isPrefixOf t = false := by
          cases hx : (['w', 'w', 'w', '.'] : List Char).isPrefixOf t with
          | false => rfl
          | true =>
            exfalso
            have hpre : ("://www.www.".data).isPrefixOf (c :: rest) = true := by
              rw [← ht]
              rw [show "://www.www.".data = wwwPat ++ ['w', 'w', 'w', '.'] from rfl]
              have hpp : (wwwPat ++ ['w', 'w', 'w', '.']) <+: wwwPat ++ t :=
                (List.prefix_append_right_inj wwwPat).mpr (List.isPrefixOf_iff_prefix.mp hx)
              simpa using hpp
            have hcs : containsSub "://www.www.".data (c :: rest) = true := by
              show (("://www.www.".data).isPrefixOf (c :: rest) || _) = true
              rw [hpre, Bool.true_or]
            rw [hcs] at hbig
            exact absurd hbig (by decide)
        rw [← ht, replaceAll_append_pos wwwPat wwwRep (by decide) t]
        have hih := ih t hlen hbt
        have hnp : (['w', 'w', 'w', '.'] : List Char).isPrefixOf
            (replaceAll wwwPat wwwRep t) = false := by
          cases hx : (['w', 'w', 'w', '.'] : List Char).isPrefixOf
              (replaceAll wwwPat wwwRep t) with
          | false => rfl
          | true =>
            exfalso
            have hres := prefix_of_replaceAll wwwPat ':' ['/', '/'] t.length
              ['w', 'w', 'w', '.'] t (le_refl _) (by decide)
              (by rw [show (':' :: ['/', '/'] : List Char) = wwwRep from rfl]; exact hx)
            rw [hres] at hwp
            exact absurd hwp (by decide)
        rw [show wwwRep = [':', '/', '/'] from rfl] at hnp hih ⊢
        rw [show wwwPat = [':', '/', '/', 'w', 'w', 'w', '.'] from rfl] at hnp hih ⊢
        simp only [List.cons_append, List.nil_append, containsSub, List.isPrefixOf]
        simp [hih, hnp]
      | false =>
        rw [replaceAll_cons_neg wwwPat wwwRep c rest hp]
        have hih := ih rest (by simp at h1; omega)
          (containsSub_cons_false _ c rest hbig)
        show (wwwPat.isPrefixOf (c :: replaceAll wwwPat wwwRep rest)
            || containsSub wwwPat (replaceAll wwwPat wwwRep rest)) = false
        rw [hih, Bool.or_false]
        cases hch : ((':' : Char) == c) with
        | false =>
          rw [show wwwPat = ':' :: ['/', '/', 'w', 'w', 'w', '.'] from rfl]
          show ((':' == c) && (['/', '/', 'w', 'w', 'w', '.'] : List Char).isPrefixOf
            (replaceAll wwwPat wwwRep rest)) = false
          rw [hch, Bool.false_and]
        | true =>
          have hc : c = ':' := (eq_of_beq hch).symm
          subst hc
          cases hq : (['/', '/', 'w', 'w', 'w', '.'] : List Char).isPrefixOf
              (replaceAll wwwPat wwwRep rest) with
          | false =>
            rw [show wwwPat = ':' :: ['/', '/', 'w', 'w', 'w', '.'] from rfl]
            show ((':' == ':') && (['/', '/', 'w', 'w', 'w', '.'] : List Char).isPrefixOf
              (replaceAll wwwPat wwwRep rest)) = false
            rw [hq, Bool.and_false]
          | true =>
            exfalso
            have hqp : (['/', '/', 'w', 'w', 'w', '.'] : List Char).isPrefixOf
                (replaceAll wwwPat (':' :: ['/', '/']) rest) = true := by
              rw [show (':' :: ['/', '/'] : List Char) = wwwRep from rfl]
              exact hq
            have hrest := prefix_of_replaceAll wwwPat ':' ['/', '/'] rest.length
              ['/', '/', 'w', 'w', 'w', '.'] rest (le_refl _) (by decide) hqp
            have hfull : wwwPat.isPrefixOf (':' :: rest) = true := by
              rw [show wwwPat = ':' :: ['/', '/', 'w', 'w', 'w', '.'] from rfl]
              show ((':' == ':') && (['/', '/', 'w', 'w', 'w', '.'] : List Char).isPrefixOf
                rest) = true
              rw [hrest]
              rfl
            rw [hp] at hfull
            exact absurd hfull (by decide)

theorem contains_www_replaceAll_http (n : Nat) :
    ∀ u : List Char, u.length ≤ n → containsSub wwwPat u = false →
      containsSub wwwPat (replaceAll httpPat httpRep u) = false := by
  induction n with
  | zero =>
    intro u h1 _
    have hnil : u = [] := List.eq_nil_of_length_eq_zero (Nat.le_zero.mp h1)
    subst hnil
    rfl
  | succ g ih =>
    intro u h1 hwww
    cases u with
    | nil => rfl
    | cons c rest =>
      cases hp : httpPat.isPrefixOf (c :: rest) with
      | true =>
        obtain ⟨t, ht⟩ := List.isPrefixOf_iff_prefix.mp hp
        have hlen : t.length ≤ g := by
          have h2 := congrArg List.length ht
          rw [List.length_append] at h2
          rw [show httpPat.length = 7 from rfl] at h2
          simp at h1 h2
          omega
        have hwt : containsSub wwwPat t = false := by
          rw [← ht] at hwww
          exact containsSub_append_drop _ httpPat t hwww
        rw [← ht, replaceAll_append_pos httpPat httpRep (by decide) t]
        have hih := ih t hlen hwt
        have hnp : (['w', 'w', 'w', '.'] : List Char).isPrefixOf
            (replaceAll httpPat httpRep t) = false := by
          cases hx : (['w', 'w', 'w', '.'] : List Char).isPrefixOf
              (replaceAll httpPat httpRep t) with
          | false => rfl
          | true =>
            exfalso
            have hres := prefix_of_replaceAll httpPat 'h'
              ['t', 't', 'p', 's', ':', '/', '/'] t.length ['w', 'w', 'w', '.'] t
              (le_refl _) (by decide)
              (by rw [show ('h' :: ['t', 't', 'p', 's', ':', '/', '/'] : List Char)
                  = httpRep from rfl]
                  exact hx)
            obtain ⟨t2, ht2⟩ := List.isPrefixOf_iff_prefix.mp hres
            have hinf : wwwPat <:+: httpPat ++ t := by
              refine ⟨['h', 't', 't', 'p'], t2, ?_⟩
              rw [← ht2]
              rfl
            have hcs := (containsSub_iff wwwPat (httpPat ++ t)).mpr hinf
            rw [← ht] at hwww
            rw [hcs] at hwww
            exact absurd hwww (by decide)
        rw [show httpRep = ['h', 't', 't', 'p', 's', ':', '/', '/'] from rfl] at hnp hih ⊢
        rw [show httpPat = ['h', 't', 't', 'p', ':', '/', '/'] from rfl] at hnp hih ⊢
        rw [show wwwPat = [':', '/', '/', 'w', 'w', 'w', '.'] from rfl] at hih ⊢
        simp only [List.cons_append, List.nil_append, containsSub, List.isPrefixOf]
        simp [hih, hnp]
      | false =>
        rw [replaceAll_cons_neg httpPat httpRep c rest hp]
        have hwrest : containsSub wwwPat rest = false :=
          containsSub_cons_false _ c rest hwww
        have hih := ih rest (by simp at h1; omega) hwrest
        show (wwwPat.isPrefixOf (c :: replaceAll httpPat httpRep rest)
            || containsSub wwwPat (replaceAll httpPat httpRep rest)) = false
        rw [hih, Bool.or_false]
        cases hch : ((':' : Char) == c) with
        | false =>
          rw [show wwwPat = ':' :: ['/', '/', 'w', 'w', 'w', '.'] from rfl]
          show ((':' == c) && (['/', '/', 'w', 'w', 'w', '.'] : List Char).isPrefixOf
            (replaceAll httpPat httpRep rest)) = false
          rw [hch, Bool.false_and]
        | true =>
          have hc : c = ':' := (eq_of_beq hch).symm
          subst hc
          cases hq : (['/', '/', 'w', 'w', 'w', '.'] : List Char).isPrefixOf
              (replaceAll httpPat httpRep rest) with
          | false =>
            rw [show wwwPat = ':' :: ['/', '/', 'w', 'w', 'w', '.'] from rfl]
            show ((':' == ':') && (['/', '/', 'w', 'w', 'w', '.'] : List Char).isPrefixOf
              (replaceAll httpPat httpRep rest)) = false
            rw [hq, Bool.and_false]
          | true =>
            exfalso
            have hqp : (['/', '/', 'w', 'w', 'w', '.'] : List Char).isPrefixOf
                (replaceAll httpPat ('h' :: ['t', 't', 'p', 's', ':', '/', '/'])
                  rest) = true := by
              rw [show ('h' :: ['t', 't', 'p', 's', ':', '/', '/'] : List Char)
                = httpRep from rfl]
              exact hq
            have hrest := prefix_of_replaceAll httpPat 'h'
              ['t', 't', 'p', 's', ':', '/', '/'] rest.length
              ['/', '/', 'w', 'w', 'w', '.'] rest (le_refl _) (by decide) hqp
            have hfull : wwwPat.isPrefixOf (':' :: rest) = true := by
              rw [show wwwPat = ':' :: ['/', '/', 'w', 'w', 'w', '.'] from rfl]
              show ((':' == ':') && (['/', '/', 'w', 'w', 'w', '.'] : List Char).isPrefixOf
                rest) = true
              rw [hrest]
              rfl
            have hcs : containsSub wwwPat (':' :: rest) = true := by
              show (wwwPat.isPrefixOf (':' :: rest) || _) = true
              rw [hfull, Bool.true_or]
            rw [hcs] at hwww
            exact absurd hwww (by decide)

/-- A character of a replace-all result comes from the input or from the
replacement text. -/
theorem mem_replaceAll (pat rep : List Char) :
    ∀ n : Nat, ∀ s : List Char, ∀ c : Char, s.length ≤ n →
      c ∈ replaceAll pat rep s → c ∈ s ∨ c ∈ rep := by
  intro n
  induction n with
  | zero =>
    intro s c h1 hc
    have hnil : s = [] := List.eq_nil_of_length_eq_zero (Nat.le_zero.mp h1)
    subst hnil
    exact absurd hc (by simp [replaceAll, replaceAllF])
  | succ g ih =>
    intro s c h1 hc
    cases s with
    | nil => exact absurd hc (by simp [replaceAll, replaceAllF])
    | cons c0 rest =>
      cases hp : pat.isPrefixOf (c0 :: rest) with
      | true =>
        rw [replaceAll_cons_pos pat rep c0 rest hp] at hc
        rcases List.mem_append.mp hc with hrep | htail
        · exact Or.inr hrep
        · have hd : (rest.drop (pat.length - 1)).length ≤ g := by
            rw [List.length_drop]
            simp at h1
            omega
          rcases ih (rest.drop (pat.length - 1)) c hd htail with hs | hr
          · exact Or.inl (List.mem_cons_of_mem c0 (List.drop_subset _ rest hs))
          · exact Or.inr hr
      | false =>
        rw [replaceAll_cons_neg pat rep c0 rest hp] at hc
        rcases List.mem_cons.mp hc with he | htail
        · exact Or.inl (he ▸ List.mem_cons_self c0 rest)
        · rcases ih rest c (by simp at h1; omega) htail with hs | hr
          · exact Or.inl (List.mem_cons_of_mem c0 hs)
          · exact Or.inr hr

/-- No occurrence in a string means no occurrence in any infix of it. -/
theorem containsSub_false_mono (pat l m : List Char) (hsub : l <:+: m)
    (h : containsSub pat m = false) : containsSub pat l = false := by
  cases hx : containsSub pat l with
  | false => rfl
  | true =>
    exfalso
    have : pat <:+: m := ((containsSub_iff pat l).mp hx).trans hsub
    rw [(containsSub_iff pat m).mpr this] at h
    exact absurd h (by decide)

/-- takeWhile keeps the whole list when the predicate holds everywhere. -/
theorem takeWhile_all (p : Char → Bool) :
    ∀ l : List Char, (∀ c ∈ l, p c = true) → l.takeWhile p = l := by
  intro l
  induction l with
  | nil => intro _; rfl
  | cons a l ih =>
    intro h
    have ha := h a (List.mem_cons_self a l)
    simp [List.takeWhile_cons, ha, ih (fun c hc => h c (List.mem_cons_of_mem a hc))]

/-- takeWhile passes over a block where the predicate holds everywhere. -/
theorem takeWhile_append_stop (p : Char → Bool) :
    ∀ l r : List Char, (∀ c ∈ l, p c = true) →
      (l ++ r).takeWhile p = l ++ r.takeWhile p := by
  intro l
  induction l with
  | nil => intro r _; rfl
  | cons a l ih =>
    intro r h
    have ha := h a (List.mem_cons_self a l)
    simp only [List.cons_append, List.takeWhile_cons, ha, if_true]
    rw [ih r (fun c hc => h c (List.mem_cons_of_mem a hc))]

/-- A pattern containing two adjacent slashes is never a prefix of a
slash-free block followed by a single closing slash. -/
theorem isPrefixOf_slashslash (q : List Char) :
    ∀ p : List Char, ∀ l : List Char, '/' ∉ l →
      (p ++ '/' :: '/' :: q).isPrefixOf (l ++ ['/']) = false := by
  intro p
  induction p with
  | nil =>
    intro l hl
    cases l with
    | nil => simp [List.isPrefixOf]
    | cons d rest =>
      have hd : (('/' : Char) == d) = false := by
        have : d ≠ '/' := fun he => hl (by rw [he]; exact List.mem_cons_self _ _)
        exact beq_eq_false_iff_ne.mpr (fun he => this he.symm)
      simp [List.isPrefixOf, hd]
  | cons a p ih =>
    intro l hl
    cases l with
    | nil =>
      cases p with
      | nil => simp [List.isPrefixOf]
      | cons b p2 => simp [List.isPrefixOf]
    | cons d rest =>
      show ((a :: (p ++ '/' :: '/' :: q)).isPrefixOf (d :: (rest ++ ['/']))) = false
      have hih := ih rest (fun hm => hl (List.mem_cons_of_mem d hm))
      show ((a == d) && (p ++ '/' :: '/' :: q).isPrefixOf (rest ++ ['/'])) = false
      rw [hih, Bool.and_false]

/-- A pattern containing two adjacent slashes never occurs in a slash-free
block followed by a single closing slash. -/
theorem containsSub_slashslash (p q : List Char) :
    ∀ l : List Char, '/' ∉ l →
      containsSub (p ++ '/' :: '/' :: q) (l ++ ['/']) = false := by
  intro l
  induction l with
  | nil =>
    intro _
    show ((p ++ '/' :: '/' :: q).isPrefixOf ['/'] || containsSub (p ++ '/' :: '/' :: q) []) = false
    rw [show ((['/'] : List Char) = [] ++ ['/']) from rfl,
      isPrefixOf_slashslash q p [] (by simp), Bool.false_or]
    cases p with
    | nil => rfl
    | cons a p2 => rfl
  | cons c rest ih =>
    intro hl
    show ((p ++ '/' :: '/' :: q).isPrefixOf (c :: (rest ++ ['/']))
      || containsSub (p ++ '/' :: '/' :: q) (rest ++ ['/'])) = false
    rw [show (c :: (rest ++ ['/'])) = (c :: rest) ++ ['/'] from rfl,
      isPrefixOf_slashslash q p (c :: rest) hl, Bool.false_or]
    exact ih (fun hm => hl (List.mem_cons_of_mem c hm))

/-- The "://www." pattern never starts inside the canonical player-URL
root: occurrences in an extension of the root are occurrences in the
extension. -/
theorem containsSub_www_playerPre (t : List Char) :
    containsSub wwwPat (playerPre ++ t) = containsSub wwwPat t := by
  rw [show playerPre = ['h', 't', 't', 'p', 's', ':', '/', '/', '2', '4', '7', 's', 'p',
    'o', 'r', 't', 's', '.', 'c', 'o', 'm', '/', 'p', 'l', 'a', 'y', 'e', 'r', '/'] from rfl]
  rw [show wwwPat = [':', '/', '/', 'w', 'w', 'w', '.'] from rfl]
  simp only [List.cons_append, List.nil_append, containsSub, List.isPrefixOf]
  simp

/-- The "http://" pattern never starts inside the canonical player-URL
root: occurrences in an extension of the root are occurrences in the
extension. -/
theorem containsSub_http_playerPre (t : List Char) :
    containsSub httpPat (playerPre ++ t) = containsSub httpPat t := by
  rw [show playerPre = ['h', 't', 't', 'p', 's', ':', '/', '/', '2', '4', '7', 's', 'p',
    'o', 'r', 't', 's', '.', 'c', 'o', 'm', '/', 'p', 'l', 'a', 'y', 'e', 'r', '/'] from rfl]
  rw [show httpPat = ['h', 't', 't', 'p', ':', '/', '/'] from rfl]
  simp only [List.cons_append, List.nil_append, containsSub, List.isPrefixOf]
  simp

/-- normalize_player_url when the transformed string misses the player
pattern: the transformed string itself is returned. -/
theorem normalize_player_url_none (url : List Char)
    (h : matchPlayer (replaceAll httpPat httpRep (replaceAll wwwPat wwwRep
      ((url.takeWhile (fun c => c ≠ '?')).takeWhile (fun c => c ≠ '#')))) = none) :
    normalize_player_url url = replaceAll httpPat httpRep (replaceAll wwwPat wwwRep
      ((url.takeWhile (fun c => c ≠ '?')).takeWhile (fun c => c ≠ '#'))) := by
  have hrfl : normalize_player_url url =
      (match matchPlayer (replaceAll httpPat httpRep (replaceAll wwwPat wwwRep
        ((url.takeWhile (fun c => c ≠ '?')).takeWhile (fun c => c ≠ '#')))) with
      | some g => g ++ ['/']
      | none => replaceAll httpPat httpRep (replaceAll wwwPat wwwRep
        ((url.takeWhile (fun c => c ≠ '?')).takeWhile (fun c => c ≠ '#')))) := rfl
  rw [h] at hrfl
  exact hrfl

/-- normalize_player_url when the transformed string matches the player
pattern: the matched group with a trailing slash is returned. -/
theorem normalize_player_url_some (url g : List Char)
    (h : matchPlayer (replaceAll httpPat httpRep (replaceAll wwwPat wwwRep
      ((url.takeWhile (fun c => c ≠ '?')).takeWhile (fun c => c ≠ '#')))) = some g) :
    normalize_player_url url = g ++ ['/'] := by
  have hrfl : normalize_player_url url =
      (match matchPlayer (replaceAll httpPat httpRep (replaceAll wwwPat wwwRep
        ((url.takeWhile (fun c => c ≠ '?')).takeWhile (fun c => c ≠ '#')))) with
      | some g => g ++ ['/']
      | none => replaceAll httpPat httpRep (replaceAll wwwPat wwwRep
        ((url.takeWhile (fun c => c ≠ '?')).takeWhile (fun c => c ≠ '#')))) := rfl
  rw [h] at hrfl
  exact hrfl

/-- The anchored player-URL match on the canonical shape: root, nonempty
slash-free segment, and a trailing part that is empty or slash-headed. -/
theorem matchPlayer_canon (seg rest : List Char) (hne : seg ≠ []) (hs : '/' ∉ seg)
    (hr : rest = [] ∨ ∃ r, rest = '/' :: r) :
    matchPlayer (playerPre ++ (seg ++ rest)) = some (playerPre ++ seg) := by
  have hpre : playerPre.isPrefixOf (playerPre ++ (seg ++ rest)) = true :=
    List.isPrefixOf_iff_prefix.mpr (List.prefix_append _ _)
  have hdrop : (playerPre ++ (seg ++ rest)).drop playerPre.length = seg ++ rest :=
    List.drop_left _ _
  have hseg : ((playerPre ++ (seg ++ rest)).drop playerPre.length).takeWhile
      (fun c => c ≠ '/') = seg := by
    rw [hdrop]
    rw [takeWhile_append_stop (fun c => decide (c ≠ '/')) seg rest
      (fun c hc => decide_eq_true_eq.mpr (fun he => hs (he ▸ hc)))]
    rcases hr with hnil | ⟨r, hr'⟩
    · rw [hnil]
      simp
    · rw [hr']
      rw [List.takeWhile_cons]
      simp
  unfold matchPlayer
  rw [if_pos hpre]
  show (if ((playerPre ++ (seg ++ rest)).drop playerPre.length).takeWhile
      (fun c => c ≠ '/') = [] then none
    else some (playerPre ++ ((playerPre ++ (seg ++ rest)).drop playerPre.length).takeWhile
      (fun c => c ≠ '/'))) = some (playerPre ++ seg)
  rw [hseg, if_neg hne]

/-- normalize_player_url fixes the canonical player-URL form: root plus a
nonempty segment free of slash, query, and fragment characters, plus the
trailing slash. -/
theorem normalize_fixed_canon (seg : List Char) (hne : seg ≠ []) (hs : '/' ∉ seg)
    (hq : '?' ∉ seg) (hh : '#' ∉ seg) :
    normalize_player_url (playerPre ++ (seg ++ ['/'])) = playerPre ++ (seg ++ ['/']) := by
  have hqm : '?' ∉ playerPre ++ (seg ++ ['/']) := by
    intro hm
    rcases List.mem_append.mp hm with h1 | h2
    · exact absurd h1 (by decide)
    · rcases List.mem_append.mp h2 with h3 | h4
      · exact hq h3
      · exact absurd h4 (by decide)
  have hhm : '#' ∉ playerPre ++ (seg ++ ['/']) := by
    intro hm
    rcases List.mem_append.mp hm with h1 | h2
    · exact absurd h1 (by decide)
    · rcases List.mem_append.mp h2 with h3 | h4
      · exact hh h3
      · exact absurd h4 (by decide)
  have e1 : (playerPre ++ (seg ++ ['/'])).takeWhile (fun c => decide (c ≠ '?')) =
      playerPre ++ (seg ++ ['/']) :=
    takeWhile_all _ _ (fun c hc => decide_eq_true_eq.mpr (fun he => hqm (he ▸ hc)))
  have e2 : (playerPre ++ (seg ++ ['/'])).takeWhile (fun c => decide (c ≠ '#')) =
      playerPre ++ (seg ++ ['/']) :=
    takeWhile_all _ _ (fun c hc => decide_eq_true_eq.mpr (fun he => hhm (he ▸ hc)))
  have hww : containsSub wwwPat (playerPre ++ (seg ++ ['/'])) = false := by
    rw [containsSub_www_playerPre]
    rw [show wwwPat = [':'] ++ '/' :: '/' :: ['w', 'w', 'w', '.'] from rfl]
    exact containsSub_slashslash _ _ seg hs
  have hhp : containsSub httpPat (playerPre ++ (seg ++ ['/'])) = false := by
    rw [containsSub_http_playerPre]
    rw [show httpPat = ['h', 't', 't', 'p', ':'] ++ '/' :: '/' :: [] from rfl]
    exact containsSub_slashslash _ _ seg hs
  have e3 : replaceAll wwwPat wwwRep (playerPre ++ (seg ++ ['/'])) =
      playerPre ++ (seg ++ ['/']) :=
    replaceAll_of_not_contains wwwPat wwwRep (by decide) _ _ (le_refl _) hww
  have e4 : replaceAll httpPat httpRep (playerPre ++ (seg ++ ['/'])) =
      playerPre ++ (seg ++ ['/']) :=
    replaceAll_of_not_contains httpPat httpRep (by decide) _ _ (le_refl _) hhp
  have e5 : matchPlayer (playerPre ++ (seg ++ ['/'])) = some (playerPre ++ seg) :=
    matchPlayer_canon seg ['/'] hne hs (Or.inr ⟨[], rfl⟩)
  have := normalize_player_url_some (playerPre ++ (seg ++ ['/'])) (playerPre ++ seg)
    (by rw [e1, e2, e3, e4, e5])
  rw [this, List.append_assoc]

/-- normalize_player_url is idempotent on inputs without an overlapped
"://www.www." occurrence (on such inputs the single left-to-right
replacement pass can leave a fresh "://www." behind). -/
theorem normalize_player_url_idem (x : List Char)
    (hbig : containsSub "://www.www.".data x = false) :
    normalize_player_url (normalize_player_url x) = normalize_player_url x := by
  set s1 := (x.takeWhile (fun c => c ≠ '?')).takeWhile (fun c => c ≠ '#') with hs1
  set s2 := replaceAll wwwPat wwwRep s1 with hs2
  set s3 := replaceAll httpPat httpRep s2 with hs3
  have hpre1 : s1 <+: x := by
    rw [hs1]
    exact (List.takeWhile_prefix _).trans (List.takeWhile_prefix _)
  have hbig1 : containsSub "://www.www.".data s1 = false :=
    containsSub_false_mono _ s1 x hpre1.isInfix hbig
  have hq1 : '?' ∉ s1 := by
    intro hm
    rw [hs1] at hm
    have hm2 := (List.takeWhile_prefix _).subset hm
    have := List.mem_takeWhile_imp hm2
    simp at this
  have hh1 : '#' ∉ s1 := by
    intro hm
    rw [hs1] at hm
    have := List.mem_takeWhile_imp hm
    simp at this
  have hw2 : containsSub wwwPat s2 = false := by
    rw [hs2]
    exact contains_www_replaceAll s1.length s1 (le_refl _) hbig1
  have hw3 : containsSub wwwPat s3 = false := by
    rw [hs3]
    exact contains_www_replaceAll_http s2.length s2 (le_refl _) hw2
  have hh3 : containsSub httpPat s3 = false := by
    rw [hs3]
    exact contains_http_replaceAll s2.length s2 (le_refl _)
  have hq2 : '?' ∉ s2 := by
    intro hm
    rw [hs2] at hm
    rcases mem_replaceAll wwwPat wwwRep s1.length s1 '?' (le_refl _) hm with h | h
    · exact hq1 h
    · exact absurd h (by decide)
  have hh2 : '#' ∉ s2 := by
    intro hm
    rw [hs2] at hm
    rcases mem_replaceAll wwwPat wwwRep s1.length s1 '#' (le_refl _) hm with h | h
    · exact hh1 h
    · exact absurd h (by decide)
  have hq3 : '?' ∉ s3 := by
    intro hm
    rw [hs3] at hm
    rcases mem_replaceAll httpPat httpRep s2.length s2 '?' (le_refl _) hm with h | h
    · exact hq2 h
    · exact absurd h (by decide)
  have hh3m : '#' ∉ s3 := by
    intro hm
    rw [hs3] at hm
    rcases mem_replaceAll httpPat httpRep s2.length s2 '#' (le_refl _) hm with h | h
    · exact hh2 h
    · exact absurd h (by decide)
  have e1 : s3.takeWhile (fun c => decide (c ≠ '?')) = s3 :=
    takeWhile_all _ _ (fun c hc => decide_eq_true_eq.mpr (fun he => hq3 (he ▸ hc)))
  have e2 : s3.takeWhile (fun c => decide (c ≠ '#')) = s3 :=
    takeWhile_all _ _ (fun c hc => decide_eq_true_eq.mpr (fun he => hh3m (he ▸ hc)))
  have e3 : replaceAll wwwPat wwwRep s3 = s3 :=
    replaceAll_of_not_contains wwwPat wwwRep (by decide) _ _ (le_refl _) hw3
  have e4 : replaceAll httpPat httpRep s3 = s3 :=
    replaceAll_of_not_contains httpPat httpRep (by decide) _ _ (le_refl _) hh3
  cases hm : matchPlayer s3 with
  | none =>
    have hnx : normalize_player_url x = s3 := normalize_player_url_none x hm
    rw [hnx]
    have hm2 : matchPlayer (replaceAll httpPat httpRep (replaceAll wwwPat wwwRep
        ((s3.takeWhile (fun c => c ≠ '?')).takeWhile (fun c => c ≠ '#')))) = none := by
      rw [e1, e2, e3, e4]
      exact hm
    rw [normalize_player_url_none s3 hm2, e1, e2, e3, e4]
  | some g =>
    have hm0 : matchPlayer s3 = some g := hm
    have hnx : normalize_player_url x = g ++ ['/'] := normalize_player_url_some x g hm0
    unfold matchPlayer at hm
    cases hpre : playerPre.isPrefixOf s3 with
    | false =>
      rw [if_neg (by rw [hpre]; exact Bool.false_ne_true)] at hm
      exact Option.noConfusion hm
    | true =>
      rw [if_pos hpre] at hm
      change (if (s3.drop playerPre.length).takeWhile (fun c => c ≠ '/') = [] then none
        else some (playerPre ++
          (s3.drop playerPre.length).takeWhile (fun c => c ≠ '/'))) = some g at hm
      by_cases hse : (s3.drop playerPre.length).takeWhile (fun c => c ≠ '/') = []
      · rw [if_pos hse] at hm
        exact Option.noConfusion hm
      · rw [if_neg hse] at hm
        have hg : g = playerPre ++ (s3.drop playerPre.length).takeWhile
            (fun c => c ≠ '/') := (Option.some.inj hm).symm
        have hsl : '/' ∉ (s3.drop playerPre.length).takeWhile (fun c => c ≠ '/') := by
          intro hmem
          have := List.mem_takeWhile_imp hmem
          simp at this
        have hsub : ∀ c, c ∈ (s3.drop playerPre.length).takeWhile
            (fun c => c ≠ '/') → c ∈ s3 :=
          fun c hc => List.drop_subset _ s3 ((List.takeWhile_prefix _).subset hc)
        rw [hnx, hg, List.append_assoc]
        exact normalize_fixed_canon _ hse hsl
          (fun hmem => hq3 (hsub _ hmem)) (fun hmem => hh3m (hsub _ hmem))

/-- Colon-free strings are untouched by the www-collapse replacement. -/
theorem RA_www_noColon (T : List Char) (hT : ':' ∉ T) :
    replaceAll wwwPat wwwRep T = T :=
  replaceAll_of_not_contains wwwPat wwwRep (by decide) T.length T (le_refl _)
    (containsSub_false_of_mem wwwPat T ':' (by decide) hT)

/-- Colon-free strings are untouched by the scheme-upgrade replacement. -/
theorem RA_http_noColon (T : List Char) (hT : ':' ∉ T) :
    replaceAll httpPat httpRep T = T :=
  replaceAll_of_not_contains httpPat httpRep (by decide) T.length T (le_refl _)
    (containsSub_false_of_mem httpPat T ':' (by decide) hT)

/-- The www pattern starts with a colon, so it is not a prefix of a string
starting with any other character. -/
theorem wwwPat_not_prefix_of_ne (c : Char) (hc : c ≠ ':') (rest : List Char) :
    wwwPat.isPrefixOf (c :: rest) = false := by
  rw [show wwwPat = ':' :: ['/', '/', 'w', 'w', 'w', '.'] from rfl]
  show (((':' : Char) == c) && (['/', '/', 'w', 'w', 'w', '.'] : List Char).isPrefixOf
    rest) = false
  rw [beq_eq_false_iff_ne.mpr (fun he => hc he.symm), Bool.false_and]

/-- The http pattern starts with h, so it is not a prefix of a string
starting with any other character. -/
theorem httpPat_not_prefix_of_ne (c : Char) (hc : c ≠ 'h') (rest : List Char) :
    httpPat.isPrefixOf (c :: rest) = false := by
  rw [show httpPat = 'h' :: ['t', 't', 'p', ':', '/', '/'] from rfl]
  show ((('h' : Char) == c) && (['t', 't', 'p', ':', '/', '/'] : List Char).isPrefixOf
    rest) = false
  rw [beq_eq_false_iff_ne.mpr (fun he => hc he.symm), Bool.false_and]

/-- The www pattern does not start at the scheme colon when the host
starts with the digit 2. -/
theorem wwwPat_not_prefix_colon2 (U : List Char) :
    wwwPat.isPrefixOf (':' :: '/' :: '/' :: '2' :: U) = false := by
  rw [show wwwPat = [':', '/', '/', 'w', 'w', 'w', '.'] from rfl]
  simp [List.isPrefixOf]

/-- The http pattern does not start at the beginning of an https scheme. -/
theorem httpPat_not_prefix_https (T : List Char) :
    httpPat.isPrefixOf ('h' :: 't' :: 't' :: 'p' :: 's' :: T) = false := by
  rw [show httpPat = ['h', 't', 't', 'p', ':', '/', '/'] from rfl]
  simp [List.isPrefixOf]

/-- The www-collapse replacement drops a www host prefix sitting after the
scheme and leaves the colon-free remainder alone. -/
theorem RA_www_collapse (secure : Bool) (T : List Char) (hT : ':' ∉ T) :
    replaceAll wwwPat wwwRep ((if secure then "https://".data else "http://".data) ++
        ("www.".data ++ T)) =
      (if secure then "https://".data else "http://".data) ++ T := by
  cases secure with
  | true =>
    show replaceAll wwwPat wwwRep
      ('h' :: 't' :: 't' :: 'p' :: 's' :: (wwwPat ++ T)) =
      'h' :: 't' :: 't' :: 'p' :: 's' :: (wwwRep ++ T)
    rw [replaceAll_cons_neg wwwPat wwwRep 'h' _ (wwwPat_not_prefix_of_ne 'h' (by decide) _),
      replaceAll_cons_neg wwwPat wwwRep 't' _ (wwwPat_not_prefix_of_ne 't' (by decide) _),
      replaceAll_cons_neg wwwPat wwwRep 't' _ (wwwPat_not_prefix_of_ne 't' (by decide) _),
      replaceAll_cons_neg wwwPat wwwRep 'p' _ (wwwPat_not_prefix_of_ne 'p' (by decide) _),
      replaceAll_cons_neg wwwPat wwwRep 's' _ (wwwPat_not_prefix_of_ne 's' (by decide) _),
      replaceAll_append_pos wwwPat wwwRep (by decide) T, RA_www_noColon T hT]
  | false =>
    show replaceAll wwwPat wwwRep
      ('h' :: 't' :: 't' :: 'p' :: (wwwPat ++ T)) =
      'h' :: 't' :: 't' :: 'p' :: (wwwRep ++ T)
    rw [replaceAll_cons_neg wwwPat wwwRep 'h' _ (wwwPat_not_prefix_of_ne 'h' (by decide) _),
      replaceAll_cons_neg wwwPat wwwRep 't' _ (wwwPat_not_prefix_of_ne 't' (by decide) _),
      replaceAll_cons_neg wwwPat wwwRep 't' _ (wwwPat_not_prefix_of_ne 't' (by decide) _),
      replaceAll_cons_neg wwwPat wwwRep 'p' _ (wwwPat_not_prefix_of_ne 'p' (by decide) _),
      replaceAll_append_pos wwwPat wwwRep (by decide) T, RA_www_noColon T hT]

/-- The www-collapse replacement leaves a bare-host URL (scheme directly
followed by the 247 host, no other colon) unchanged. -/
theorem RA_www_id (secure : Bool) (U : List Char) (hU : ':' ∉ U) :
    replaceAll wwwPat wwwRep ((if secure then "https://".data else "http://".data) ++
        ('2' :: U)) =
      (if secure then "https://".data else "http://".data) ++ ('2' :: U) := by
  have hU4 : ':' ∉ ('/' :: '/' :: '2' :: U) := by
    intro hm
    simp at hm
    exact hU hm
  cases secure with
  | true =>
    show replaceAll wwwPat wwwRep
      ('h' :: 't' :: 't' :: 'p' :: 's' :: ':' :: '/' :: '/' :: '2' :: U) =
      'h' :: 't' :: 't' :: 'p' :: 's' :: ':' :: '/' :: '/' :: '2' :: U
    rw [replaceAll_cons_neg wwwPat wwwRep 'h' _ (wwwPat_not_prefix_of_ne 'h' (by decide) _),
      replaceAll_cons_neg wwwPat wwwRep 't' _ (wwwPat_not_prefix_of_ne 't' (by decide) _),
      replaceAll_cons_neg wwwPat wwwRep 't' _ (wwwPat_not_prefix_of_ne 't' (by decide) _),
      replaceAll_cons_neg wwwPat wwwRep 'p' _ (wwwPat_not_prefix_of_ne 'p' (by decide) _),
      replaceAll_cons_neg wwwPat wwwRep 's' _ (wwwPat_not_prefix_of_ne 's' (by decide) _),
      replaceAll_cons_neg wwwPat wwwRep ':' _ (wwwPat_not_prefix_colon2 U),
      RA_www_noColon _ hU4]
  | false =>
    show replaceAll wwwPat wwwRep
      ('h' :: 't' :: 't' :: 'p' :: ':' :: '/' :: '/' :: '2' :: U) =
      'h' :: 't' :: 't' :: 'p' :: ':' :: '/' :: '/' :: '2' :: U
    rw [replaceAll_cons_neg wwwPat wwwRep 'h' _ (wwwPat_not_prefix_of_ne 'h' (by decide) _),
      replaceAll_cons_neg wwwPat wwwRep 't' _ (wwwPat_not_prefix_of_ne 't' (by decide) _),
      replaceAll_cons_neg wwwPat wwwRep 't' _ (wwwPat_not_prefix_of_ne 't' (by decide) _),
      replaceAll_cons_neg wwwPat wwwRep 'p' _ (wwwPat_not_prefix_of_ne 'p' (by decide) _),
      replaceAll_cons_neg wwwPat wwwRep ':' _ (wwwPat_not_prefix_colon2 U),
      RA_www_noColon _ hU4]

/-- The scheme-upgrade replacement maps either scheme to https and leaves
the colon-free remainder alone. -/
theorem RA_http_upgrade (secure : Bool) (T : List Char) (hT : ':' ∉ T) :
    replaceAll httpPat httpRep ((if secure then "https://".data else "http://".data) ++ T) =
      "https://".data ++ T := by
  have hT1 : ':' ∉ ('/' :: '/' :: T) := by
    intro hm
    simp at hm
    exact hT hm
  cases secure with
  | true =>
    show replaceAll httpPat httpRep
      ('h' :: 't' :: 't' :: 'p' :: 's' :: ':' :: '/' :: '/' :: T) =
      'h' :: 't' :: 't' :: 'p' :: 's' :: ':' :: '/' :: '/' :: T
    rw [replaceAll_cons_neg httpPat httpRep 'h' _ (httpPat_not_prefix_https _),
      replaceAll_cons_neg httpPat httpRep 't' _ (httpPat_not_prefix_of_ne 't' (by decide) _),
      replaceAll_cons_neg httpPat httpRep 't' _ (httpPat_not_prefix_of_ne 't' (by decide) _),
      replaceAll_cons_neg httpPat httpRep 'p' _ (httpPat_not_prefix_of_ne 'p' (by decide) _),
      replaceAll_cons_neg httpPat httpRep 's' _ (httpPat_not_prefix_of_ne 's' (by decide) _),
      replaceAll_cons_neg httpPat httpRep ':' _ (httpPat_not_prefix_of_ne ':' (by decide) _),
      RA_http_noColon _ hT1]
  | false =>
    show replaceAll httpPat httpRep (httpPat ++ T) = httpRep ++ T
    rw [replaceAll_append_pos httpPat httpRep (by decide) T, RA_http_noColon T hT]

/-- Raw player-URL strings differing only in scheme, www host prefix,
trailing sub-resource path, and query string/fragment all normalize to the
canonical root-plus-segment form with a trailing slash. -/
theorem normalize_rawPlayerURL (secure www : Bool) (seg path qf : List Char)
    (hne : seg ≠ []) (h1 : '/' ∉ seg) (h2 : '?' ∉ seg) (h3 : '#' ∉ seg) (h4 : ':' ∉ seg)
    (h5 : '?' ∉ path) (h6 : '#' ∉ path) (h7 : ':' ∉ path)
    (hpathShape : path = [] ∨ ∃ r, path = '/' :: r)
    (hqf : qf = [] ∨ (∃ r, qf = '?' :: r) ∨ (∃ r, qf = '#' :: r)) :
    normalize_player_url (rawPlayerURL secure www seg path qf) =
      playerPre ++ (seg ++ ['/']) := by
  set A := (if secure then "https://".data else "http://".data) ++
    ((if www then "www.".data else ([] : List Char)) ++
      ("247sports.com/player/".data ++ (seg ++ path))) with hA
  have hraw : rawPlayerURL secure www seg path qf = A ++ qf := by
    rw [hA]
    unfold rawPlayerURL
    simp [List.append_assoc]
  have hqA : '?' ∉ A := by
    rw [hA]
    intro hm
    rcases List.mem_append.mp hm with h | h
    · cases secure
      · exact absurd h (by decide)
      · exact absurd h (by decide)
    · rcases List.mem_append.mp h with h | h
      · cases www
        · exact absurd h (by decide)
        · exact absurd h (by decide)
      · rcases List.mem_append.mp h with h | h
        · exact absurd h (by decide)
        · rcases List.mem_append.mp h with h | h
          · exact h2 h
          · exact h5 h
  have hhA : '#' ∉ A := by
    rw [hA]
    intro hm
    rcases List.mem_append.mp hm with h | h
    · cases secure
      · exact absurd h (by decide)
      · exact absurd h (by decide)
    · rcases List.mem_append.mp h with h | h
      · cases www
        · exact absurd h (by decide)
        · exact absurd h (by decide)
      · rcases List.mem_append.mp h with h | h
        · exact absurd h (by decide)
        · rcases List.mem_append.mp h with h | h
          · exact h3 h
          · exact h6 h
  have hTcol : ':' ∉ ("247sports.com/player/".data ++ (seg ++ path)) := by
    intro hm
    rcases List.mem_append.mp hm with h | h
    · exact absurd h (by decide)
    · rcases List.mem_append.mp h with h | h
      · exact h4 h
      · exact h7 h
  have hall1 : ∀ c ∈ A, (fun c => decide (c ≠ '?')) c = true :=
    fun c hc => decide_eq_true_eq.mpr (fun he => hqA (he ▸ hc))
  have hall2 : ∀ c ∈ A, (fun c => decide (c ≠ '#')) c = true :=
    fun c hc => decide_eq_true_eq.mpr (fun he => hhA (he ▸ hc))
  have hs1 : ((rawPlayerURL secure www seg path qf).takeWhile
      (fun c => c ≠ '?')).takeWhile (fun c => c ≠ '#') = A := by
    rw [hraw]
    rcases hqf with hq | ⟨r, hr⟩ | ⟨r, hr⟩
    · rw [hq, List.append_nil, takeWhile_all _ A hall1, takeWhile_all _ A hall2]
    · rw [hr, takeWhile_append_stop _ A _ hall1]
      have he : ('?' :: r).takeWhile (fun c => decide (c ≠ '?')) = [] := by
        simp [List.takeWhile_cons]
      rw [he, List.append_nil, takeWhile_all _ A hall2]
    · rw [hr, takeWhile_append_stop _ A _ hall1]
      have he : ('#' :: r).takeWhile (fun c => decide (c ≠ '?')) =
          '#' :: r.takeWhile (fun c => decide (c ≠ '?')) := by
        simp [List.takeWhile_cons]
      rw [he, takeWhile_append_stop _ A _ hall2]
      have he2 : ('#' :: r.takeWhile (fun c => decide (c ≠ '?'))).takeWhile
          (fun c => decide (c ≠ '#')) = [] := by
        simp [List.takeWhile_cons]
      rw [he2, List.append_nil]
  have hs2 : replaceAll wwwPat wwwRep A =
      (if secure then "https://".data else "http://".data) ++
        ("247sports.com/player/".data ++ (seg ++ path)) := by
    rw [hA]
    cases www with
    | true =>
      show replaceAll wwwPat wwwRep ((if secure then "https://".data else "http://".data) ++
        ("www.".data ++ ("247sports.com/player/".data ++ (seg ++ path)))) = _
      exact RA_www_collapse secure _ hTcol
    | false =>
      exact RA_www_id secure ("47sports.com/player/".data ++ (seg ++ path))
        (fun hm => hTcol (List.mem_cons_of_mem '2' hm))
  have hs3 : replaceAll httpPat httpRep
      ((if secure then "https://".data else "http://".data) ++
        ("247sports.com/player/".data ++ (seg ++ path))) =
      playerPre ++ (seg ++ path) := by
    rw [RA_http_upgrade secure _ hTcol]
    rfl
  have hmatch : matchPlayer (replaceAll httpPat httpRep (replaceAll wwwPat wwwRep
      (((rawPlayerURL secure www seg path qf).takeWhile
        (fun c => c ≠ '?')).takeWhile (fun c => c ≠ '#')))) =
      some (playerPre ++ seg) := by
    rw [hs1, hs2, hs3]
    exact matchPlayer_canon seg path hne h1 hpathShape
  rw [normalize_player_url_some _ _ hmatch, List.append_assoc]

/-- C3 (counterexample): the URL normalizer is not idempotent on every
input.  On "a://www.www.b" the single left-to-right "://www." replacement
pass leaves a fresh "://www." occurrence behind, so a second application
changes the string again. -/
theorem claim_C3_counterexample :
    normalize_player_url (normalize_player_url "a://www.www.b".data) ≠
      normalize_player_url "a://www.www.b".data := by
  decide

/-- C3 (amended): the URL normalizer is idempotent on every input without
an overlapped "://www.www." occurrence, and every raw player-URL string —
any scheme, optional www host prefix, a nonempty player segment free of
slash/query/fragment/colon characters, a trailing sub-resource path that
is empty or slash-headed (free of query/fragment/colon characters), and a
query-string/fragment part that is empty or starts with the query or
fragment delimiter — normalizes to the canonical root-plus-segment form
with a trailing slash, hence any two such raw strings sharing the segment
normalize to the same value. -/
theorem claim_C3_amended :
    (∀ x : List Char, containsSub "://www.www.".data x = false →
      normalize_player_url (normalize_player_url x) = normalize_player_url x) ∧
    (∀ secure www : Bool, ∀ seg path qf : List Char,
      seg ≠ [] → '/' ∉ seg → '?' ∉ seg → '#' ∉ seg → ':' ∉ seg →
      '?' ∉ path → '#' ∉ path → ':' ∉ path →
      (path = [] ∨ ∃ r, path = '/' :: r) →
      (qf = [] ∨ (∃ r, qf = '?' :: r) ∨ (∃ r, qf = '#' :: r)) →
      normalize_player_url (rawPlayerURL secure www seg path qf) =
        playerPre ++ (seg ++ ['/'])) :=
  ⟨normalize_player_url_idem,
    fun secure www seg path qf hne hs1 hs2 hs3 hs4 hp1 hp2 hp3 hps hqs =>
      normalize_rawPlayerURL secure www seg path qf hne hs1 hs2 hs3 hs4 hp1 hp2 hp3 hps hqs⟩

/-- C3 witness: idempotence on a concrete clean URL, and canonicalization
of a concrete raw insecure www-prefixed URL with sub-resource path and
query string. -/
theorem claim_C3_witness :
    (containsSub "://www.www.".data
        "http://www.247sports.com/player/John-Doe-46049965/?extra=1".data = false ∧
      normalize_player_url (normalize_player_url
        "http://www.247sports.com/player/John-Doe-46049965/?extra=1".data) =
        normalize_player_url
          "http://www.247sports.com/player/John-Doe-46049965/?extra=1".data) ∧
    normalize_player_url
        (rawPlayerURL false true "John-Doe-46049965".data "/college-123/".data "?x=1".data) =
      playerPre ++ ("John-Doe-46049965".data ++ ['/']) := by
  constructor
  · exact ⟨by decide, claim_C3_amended.1 _ (by decide)⟩
  · exact claim_C3_amended.2 false true _ _ _ (by decide) (by decide) (by decide)
      (by decide) (by decide) (by decide) (by decide) (by decide)
      (Or.inr ⟨"college-123/".data, rfl⟩) (Or.inr (Or.inl ⟨"x=1".data, rfl⟩))

/-- The fueled Load More loop never exceeds the click ceiling (from a
state already below it) and performs at most fuel iterations. -/
theorem runFromF_bounds (obs : Nat → Obs) (maxClicks : Nat) :
    ∀ fuel t cc cf nbc it, (runFromF obs maxClicks fuel t cc cf nbc it).clicks ≤
        max cc maxClicks ∧
      (runFromF obs maxClicks fuel t cc cf nbc it).iters ≤ it + fuel := by
  intro fuel
  induction fuel with
  | zero =>
    intro t cc cf nbc it
    exact ⟨Nat.le_max_left cc maxClicks, le_refl it⟩
  | succ g ih =>
    intro t cc cf nbc it
    have he : runFromF obs maxClicks (g + 1) t cc cf nbc it =
        (if cc < maxClicks then
          match obs t with
          | .click => runFromF obs maxClicks g (t + 1) (cc + 1) 0 0 (it + 1)
          | .noButton =>
            if nbc + 1 ≥ 3 then ⟨cc, t + 1, it + 1, .complete⟩
            else runFromF obs maxClicks g (t + 1) cc cf (nbc + 1) (it + 1)
          | .fail =>
            if cf + 1 ≥ 10 then ⟨cc, t + 1, it + 1, .tooManyFailures⟩
            else runFromF obs maxClicks g (t + 1) cc (cf + 1) nbc (it + 1)
        else ⟨cc, t, it, .maxClicksReached⟩ : RunResult) := rfl
    rw [he]
    by_cases hcc : cc < maxClicks
    · rw [if_pos hcc]
      cases hobs : obs t with
      | click =>
        show (runFromF obs maxClicks g (t + 1) (cc + 1) 0 0 (it + 1)).clicks ≤
            max cc maxClicks ∧
          (runFromF obs maxClicks g (t + 1) (cc + 1) 0 0 (it + 1)).iters ≤ it + (g + 1)
        rcases ih (t + 1) (cc + 1) 0 0 (it + 1) with ⟨h1, h2⟩
        constructor
        · refine le_trans h1 ?_
          have hm2 : max (cc + 1) maxClicks = maxClicks := Nat.max_eq_right hcc
          rw [hm2]
          exact Nat.le_max_right cc maxClicks
        · omega
      | noButton =>
        show ((if nbc + 1 ≥ 3 then (⟨cc, t + 1, it + 1, .complete⟩ : RunResult)
            else runFromF obs maxClicks g (t + 1) cc cf (nbc + 1) (it + 1)).clicks ≤
            max cc maxClicks) ∧
          (if nbc + 1 ≥ 3 then (⟨cc, t + 1, it + 1, .complete⟩ : RunResult)
            else runFromF obs maxClicks g (t + 1) cc cf (nbc + 1) (it + 1)).iters ≤
            it + (g + 1)
        by_cases hn : nbc + 1 ≥ 3
        · rw [if_pos hn]
          exact ⟨Nat.le_max_left cc maxClicks, by show it + 1 ≤ it + (g + 1); omega⟩
        · rw [if_neg hn]
          rcases ih (t + 1) cc cf (nbc + 1) (it + 1) with ⟨h1, h2⟩
          exact ⟨h1, by omega⟩
      | fail =>
        show ((if cf + 1 ≥ 10 then (⟨cc, t + 1, it + 1, .tooManyFailures⟩ : RunResult)
            else runFromF obs maxClicks g (t + 1) cc (cf + 1) nbc (it + 1)).clicks ≤
            max cc maxClicks) ∧
          (if cf + 1 ≥ 10 then (⟨cc, t + 1, it + 1, .tooManyFailures⟩ : RunResult)
            else runFromF obs maxClicks g (t + 1) cc (cf + 1) nbc (it + 1)).iters ≤
            it + (g + 1)
        by_cases hf : cf + 1 ≥ 10
        · rw [if_pos hf]
          exact ⟨Nat.le_max_left cc maxClicks, by show it + 1 ≤ it + (g + 1); omega⟩
        · rw [if_neg hf]
          rcases ih (t + 1) cc (cf + 1) nbc (it + 1) with ⟨h1, h2⟩
          exact ⟨h1, by omega⟩
    · rw [if_neg hcc]
      exact ⟨Nat.le_max_left cc maxClicks, by show it ≤ it + (g + 1); omega⟩

/-- The Load More loop performs at most maxClicks clicks and at most
14 * maxClicks + 13 iterations, whatever the source does. -/
theorem clickLoop_bounded (obs : Nat → Obs) (maxClicks : Nat) :
    (clickLoadMoreLoop obs maxClicks).clicks ≤ maxClicks ∧
      (clickLoadMoreLoop obs maxClicks).iters ≤ 14 * maxClicks + 13 := by
  rcases runFromF_bounds obs maxClicks (runMeasure maxClicks 0 0 0) 0 0 0 0 0 with ⟨h1, h2⟩
  constructor
  · calc (clickLoadMoreLoop obs maxClicks).clicks ≤ max 0 maxClicks := h1
      _ = maxClicks := Nat.max_eq_right (Nat.zero_le _)
  · calc (clickLoadMoreLoop obs maxClicks).iters ≤ 0 + runMeasure maxClicks 0 0 0 := h2
      _ ≤ 14 * maxClicks + 13 := by unfold runMeasure; omega

/-- On the simulated finite listing the loop clicks while more items
remain, then sees three consecutive missing-affordance observations and
declares the listing complete. -/
theorem runFrom_sim_aux (step total maxClicks : Nat) (hstep : 0 < step) (htot : 0 < total)
    (hmax : (total - 1) / step < maxClicks) :
    ∀ c cc it, cc + c = (total - 1) / step →
      runFrom (simObs step total) maxClicks cc cc 0 0 it =
        ⟨(total - 1) / step, (total - 1) / step + 3, it + c + 3, .complete⟩ := by
  have hKstop : total ≤ ((total - 1) / step + 1) * step := by
    have h1 : (total - 1) / step < (total - 1) / step + 1 := Nat.lt_succ_self _
    have h2 : total - 1 < ((total - 1) / step + 1) * step :=
      (Nat.div_lt_iff_lt_mul hstep).mp h1
    omega
  have hNoBtn : ∀ t : Nat, (total - 1) / step ≤ t →
      simObs step total t = Obs.noButton := by
    intro t ht
    unfold simObs
    rw [if_neg ?_]
    have h1 : ((total - 1) / step + 1) * step ≤ (t + 1) * step :=
      Nat.mul_le_mul_right step (by omega)
    omega
  intro c
  induction c with
  | zero =>
    intro cc it hcc
    rw [Nat.add_zero] at hcc
    have hlt : cc < maxClicks := by omega
    rw [runFrom_noButton_cont (simObs step total) maxClicks cc cc 0 0 it hlt
      (hNoBtn cc (by omega)) (by omega)]
    rw [runFrom_noButton_cont (simObs step total) maxClicks (cc + 1) cc 0 1 (it + 1) hlt
      (hNoBtn (cc + 1) (by omega)) (by omega)]
    rw [runFrom_noButton_stop (simObs step total) maxClicks (cc + 2) cc 0 2 (it + 2) hlt
      (hNoBtn (cc + 2) (by omega)) (by omega)]
    rw [hcc]
  | succ m ih =>
    intro cc it hcc
    have hccK : cc < (total - 1) / step := by omega
    have hclick : simObs step total cc = Obs.click := by
      unfold simObs
      rw [if_pos ?_]
      calc (cc + 1) * step ≤ ((total - 1) / step) * step :=
            Nat.mul_le_mul_right step (by omega)
        _ ≤ total - 1 := Nat.div_mul_le_self _ _
        _ < total := by omega
    rw [runFrom_click (simObs step total) maxClicks cc cc 0 0 it (by omega) hclick]
    have := ih (cc + 1) (it + 1) (by omega)
    rw [this]
    have hit : it + 1 + m + 3 = it + (m + 1) + 3 := by omega
    rw [hit]

/-- Ordered first-occurrence deduplication leaves a duplicate-free list
unchanged. -/
theorem dedupFirstF_nodup :
    ∀ n : Nat, ∀ l : List (List Char), l.length ≤ n → l.Nodup → dedupFirstF n l = l := by
  intro n
  induction n with
  | zero =>
    intro l h1 _
    have hnil : l = [] := List.eq_nil_of_length_eq_zero (Nat.le_zero.mp h1)
    subst hnil
    rfl
  | succ g ih =>
    intro l h1 hnd
    cases l with
    | nil => rfl
    | cons x xs =>
      rcases List.nodup_cons.mp hnd with ⟨hx, hxs⟩
      show x :: dedupFirstF g (xs.filter (fun y => y ≠ x)) = x :: xs
      have hfil : xs.filter (fun y => decide (y ≠ x)) = xs :=
        List.filter_eq_self.mpr
          (fun a ha => decide_eq_true_eq.mpr (fun he => hx (he ▸ ha)))
      rw [hfil, ih xs (by simp at h1; omega) hxs]

/-- dedupFirst on a duplicate-free list is the identity. -/
theorem dedupFirst_nodup (l : List (List Char)) (h : l.Nodup) : dedupFirst l = l :=
  dedupFirstF_nodup l.length l (le_refl _) h

/-- The simulated player URLs are pairwise distinct. -/
theorem simUrl_inj : Function.Injective simUrl := by
  intro i j h
  have hlen := congrArg List.length h
  simp [simUrl] at hlen
  omega

/-- Every simulated player URL passes the extraction filter. -/
theorem simUrl_keeps (i : Nat) :
    (containsSub "/player/".data (simUrl i) &&
      containsSub "247sports.com".data (simUrl i)) = true := by
  have h1 : "/player/".data <:+: simUrl i := by
    refine ⟨"https://247sports.com".data, List.replicate (i + 1) 'a' ++ ['/'], ?_⟩
    simp only [List.append_assoc]
    rfl
  have h2 : "247sports.com".data <:+: simUrl i := by
    refine ⟨"https://".data, "/player/".data ++ (List.replicate (i + 1) 'a' ++ ['/']), ?_⟩
    simp only [List.append_assoc]
    rfl
  rw [(containsSub_iff _ _).mpr h1, (containsSub_iff _ _).mpr h2]
  rfl

/-- The normalizer fixes every simulated player URL. -/
theorem simUrl_normalize (i : Nat) : normalize_player_url (simUrl i) = simUrl i := by
  have hassoc : simUrl i = playerPre ++ (List.replicate (i + 1) 'a' ++ ['/']) := by
    unfold simUrl
    rw [List.append_assoc]
  rw [hassoc]
  refine normalize_fixed_canon _ ?_ ?_ ?_ ?_
  · rw [List.replicate_succ]
    exact List.cons_ne_nil _ _
  · intro hm
    exact absurd (List.mem_replicate.mp hm).2 (by decide)
  · intro hm
    exact absurd (List.mem_replicate.mp hm).2 (by decide)
  · intro hm
    exact absurd (List.mem_replicate.mp hm).2 (by decide)

/-- Extraction and deduplication return the simulated listing's URLs
verbatim once all items are shown. -/
theorem extract_sim (total : Nat) :
    extractPlayerUrls ((List.range total).map simUrl) = (List.range total).map simUrl := by
  unfold extractPlayerUrls
  have hfil : ((List.range total).map simUrl).filter (fun u =>
      containsSub "/player/".data u && containsSub "247sports.com".data u) =
      (List.range total).map simUrl := by
    refine List.filter_eq_self.mpr ?_
    intro a ha
    rcases List.mem_map.mp ha with ⟨i, _, hi⟩
    rw [← hi]
    exact simUrl_keeps i
  rw [hfil]
  have hmap : ((List.range total).map simUrl).map normalize_player_url =
      ((List.range total).map simUrl).map id :=
    List.map_congr_left (fun u hu => by
      rcases List.mem_map.mp hu with ⟨i, _, hi⟩
      rw [← hi]
      exact simUrl_normalize i)
  rw [hmap, List.map_id]
  exact dedupFirst_nodup _ ((List.nodup_range total).map simUrl_inj)

/-- On the simulated finite listing the driver stops with the complete
reason after the minimal number of clicks, and the crawl returns the full
listing verbatim. -/
theorem simCrawl_exact (step total : Nat) (hstep : 0 < step) (htot : 0 < total)
    (hbound : total ≤ 500 * step) :
    clickLoadMoreLoop (simObs step total) 500 =
      ⟨(total - 1) / step, (total - 1) / step + 3, (total - 1) / step + 3, .complete⟩ ∧
    simCrawl step total = (List.range total).map simUrl := by
  have hmax : (total - 1) / step < 500 :=
    (Nat.div_lt_iff_lt_mul hstep).mpr (by omega)
  have hrun : clickLoadMoreLoop (simObs step total) 500 =
      ⟨(total - 1) / step, (total - 1) / step + 3,
        0 + (total - 1) / step + 3, .complete⟩ := by
    unfold clickLoadMoreLoop
    exact runFrom_sim_aux step total 500 hstep htot hmax ((total - 1) / step) 0 0
      (by omega)
  have hKstop : total ≤ ((total - 1) / step + 1) * step := by
    have h1 : (total - 1) / step < (total - 1) / step + 1 := Nat.lt_succ_self _
    have h2 : total - 1 < ((total - 1) / step + 1) * step :=
      (Nat.div_lt_iff_lt_mul hstep).mp h1
    omega
  have hvis : simVisible step total ((total - 1) / step) = false := by
    unfold simVisible
    exact decide_eq_false (by omega)
  have hclean : cleanupPhase (simVisible step total) ((total - 1) / step) =
      (total - 1) / step := by
    unfold cleanupPhase
    rw [hvis]
    simp
  have hlinks : simLinks step total ((total - 1) / step) =
      (List.range total).map simUrl := by
    unfold simLinks
    rw [min_eq_right hKstop]
  constructor
  · rw [hrun, Nat.zero_add]
  · have hsim : simCrawl step total = extractPlayerUrls (simLinks step total
        (cleanupPhase (simVisible step total)
          (clickLoadMoreLoop (simObs step total) 500).clicks)) := rfl
    rw [hsim, hrun]
    show extractPlayerUrls (simLinks step total
      (cleanupPhase (simVisible step total) ((total - 1) / step))) = _
    rw [hclean, hlinks, extract_sim]

/-- C8: the list convergence driver terminates within bounds set by the
click ceiling, the consecutive-failure ceiling and the three-strikes
no-button rule, for every observation stream; and on a simulated source
with a finite item count whose Load More affordance disappears once all
items are shown, it stops with the listing declared complete after the
third consecutive no-button observation and returns exactly that item
count of pairwise distinct entries. -/
theorem claim_C8_convergence :
    (∀ obs : Nat → Obs, ∀ maxClicks : Nat,
      (clickLoadMoreLoop obs maxClicks).clicks ≤ maxClicks ∧
        (clickLoadMoreLoop obs maxClicks).iters ≤ 14 * maxClicks + 13) ∧
    (∀ step total : Nat, 0 < step → 0 < total → total ≤ 500 * step →
      clickLoadMoreLoop (simObs step total) 500 =
        ⟨(total - 1) / step, (total - 1) / step + 3,
          (total - 1) / step + 3, .complete⟩ ∧
      simCrawl step total = (List.range total).map simUrl ∧
      (simCrawl step total).length = total ∧ (simCrawl step total).Nodup) := by
  constructor
  · exact clickLoop_bounded
  · intro step total hstep htot hbound
    rcases simCrawl_exact step total hstep htot hbound with ⟨h1, h2⟩
    refine ⟨h1, h2, ?_, ?_⟩
    · rw [h2]
      simp
    · rw [h2]
      exact (List.nodup_range total).map simUrl_inj

/-- C8 witness: a simulated listing of 20 items shown 7 per click needs 2
clicks, completes after three no-button observations, and yields the 20
distinct simulated URLs. -/
theorem claim_C8_witness :
    (0 < 7 ∧ 0 < 20 ∧ 20 ≤ 500 * 7) ∧
    (clickLoadMoreLoop (simObs 7 20) 500 = ⟨2, 5, 5, .complete⟩ ∧
      simCrawl 7 20 = (List.range 20).map simUrl ∧
      (simCrawl 7 20).length = 20 ∧ (simCrawl 7 20).Nodup) := by
  refine ⟨⟨by decide, by decide, by decide⟩, ?_⟩
  exact claim_C8_convergence.2 7 20 (by decide) (by decide) (by decide)

/-- A key occurring in an association list makes lookup succeed. -/
theorem lookup_isSome_of_mem_fst {α β : Type} [BEq α] [LawfulBEq α] :
    ∀ (l : List (α × β)) (k : α), k ∈ l.map Prod.fst → (l.lookup k).isSome = true := by
  intro l
  induction l with
  | nil =>
    intro k h
    simp at h
  | cons kv rest ih =>
    intro k h
    obtain ⟨a, b⟩ := kv
    simp only [List.map_cons] at h
    rcases List.mem_cons.mp h with he | hm
    · have hb : (k == a) = true := beq_iff_eq.mpr he
      rw [List.lookup_cons, hb]
      rfl
    · cases hbeq : (k == a) with
      | true =>
        rw [List.lookup_cons, hbeq]
        rfl
      | false =>
        rw [List.lookup_cons, hbeq]
        exact ih k hm

/-- A successful lookup exhibits a member of the association list. -/
theorem mem_of_lookup_eq_some {α β : Type} [BEq α] [LawfulBEq α] :
    ∀ (l : List (α × β)) (k : α) (v : β), l.lookup k = some v → (k, v) ∈ l := by
  intro l
  induction l with
  | nil =>
    intro k v h
    exact Option.noConfusion h
  | cons kv rest ih =>
    intro k v h
    obtain ⟨a, b⟩ := kv
    rw [List.lookup_cons] at h
    cases hbeq : (k == a) with
    | true =>
      rw [hbeq] at h
      have hv : b = v := Option.some.inj h
      have hk : k = a := eq_of_beq hbeq
      rw [← hv, hk]
      exact List.mem_cons_self _ _
    | false =>
      rw [hbeq] at h
      exact List.mem_cons_of_mem _ (ih k v h)

/-- Updating an existing URL leaves the target dict's key list unchanged. -/
theorem upsert_keys_pos (tp : List (String × TargetInfo)) (url name : String) (rank : Nat)
    (h : (tp.lookup url).isSome = true) :
    (upsertTarget tp url name rank).map Prod.fst = tp.map Prod.fst := by
  unfold upsertTarget
  rw [if_pos h, List.map_map]
  exact List.map_congr_left (fun kv _ => by
    by_cases hk : kv.1 = url
    · simp [hk]
    · simp [hk])

/-- Inserting a fresh URL appends it to the target dict's key list. -/
theorem upsert_keys_neg (tp : List (String × TargetInfo)) (url name : String) (rank : Nat)
    (h : ¬ (tp.lookup url).isSome = true) :
    (upsertTarget tp url name rank).map Prod.fst = tp.map Prod.fst ++ [url] := by
  unfold upsertTarget
  rw [if_neg h, List.map_append]
  rfl

/-- Every key of the composite-pass target dict is an input key or the URL
of a player found at one of the requested composite ranks. -/
theorem compPass_keys_sub (compMap : List (Nat × PlayerRef)) :
    ∀ ranks tp misses, ∀ u ∈ ((compPass compMap ranks tp misses).1.map Prod.fst),
      u ∈ tp.map Prod.fst ∨
        ∃ r p, r ∈ ranks ∧ compMap.lookup r = some p ∧ p.url = u := by
  intro ranks
  induction ranks with
  | nil =>
    intro tp misses u hu
    exact Or.inl hu
  | cons r rest ih =>
    intro tp misses u hu
    show u ∈ tp.map Prod.fst ∨ _
    cases hl : compMap.lookup r with
    | some p =>
      have hu2 : u ∈ ((compPass compMap rest (upsertTarget tp p.url p.name r)
          misses).1.map Prod.fst) := by
        have he : compPass compMap (r :: rest) tp misses =
            compPass compMap rest (upsertTarget tp p.url p.name r) misses := by
          show (match compMap.lookup r with
            | some p => compPass compMap rest (upsertTarget tp p.url p.name r) misses
            | none => compPass compMap rest tp (misses ++ [r])) = _
          rw [hl]
        rw [← he]
        exact hu
      rcases ih (upsertTarget tp p.url p.name r) misses u hu2 with hk | ⟨r2, p2, hr2, hl2, hu3⟩
      · by_cases hs : (tp.lookup p.url).isSome = true
        · rw [upsert_keys_pos tp p.url p.name r hs] at hk
          exact Or.inl hk
        · rw [upsert_keys_neg tp p.url p.name r hs] at hk
          rcases List.mem_append.mp hk with h1 | h2
          · exact Or.inl h1
          · refine Or.inr ⟨r, p, List.mem_cons_self _ _, hl, ?_⟩
            have := List.mem_singleton.mp h2
            exact this.symm
      · exact Or.inr ⟨r2, p2, List.mem_cons_of_mem r hr2, hl2, hu3⟩
    | none =>
      have hu2 : u ∈ ((compPass compMap rest tp (misses ++ [r])).1.map Prod.fst) := by
        have he : compPass compMap (r :: rest) tp misses =
            compPass compMap rest tp (misses ++ [r]) := by
          show (match compMap.lookup r with
            | some p => compPass compMap rest (upsertTarget tp p.url p.name r) misses
            | none => compPass compMap rest tp (misses ++ [r])) = _
          rw [hl]
        rw [← he]
        exact hu
      rcases ih tp (misses ++ [r]) u hu2 with hk | ⟨r2, p2, hr2, hl2, hu3⟩
      · exact Or.inl hk
      · exact Or.inr ⟨r2, p2, List.mem_cons_of_mem r hr2, hl2, hu3⟩

/-- compPass step on a rank present in the composite snapshot. -/
theorem compPass_cons_some (compMap : List (Nat × PlayerRef)) (r : Nat) (rest : List Nat)
    (tp : List (String × TargetInfo)) (misses : List Nat) (p : PlayerRef)
    (hl : compMap.lookup r = some p) :
    compPass compMap (r :: rest) tp misses =
      compPass compMap rest (upsertTarget tp p.url p.name r) misses := by
  show (match compMap.lookup r with
    | some p => compPass compMap rest (upsertTarget tp p.url p.name r) misses
    | none => compPass compMap rest tp (misses ++ [r])) = _
  rw [hl]

/-- compPass step on a rank absent from the composite snapshot. -/
theorem compPass_cons_none (compMap : List (Nat × PlayerRef)) (r : Nat) (rest : List Nat)
    (tp : List (String × TargetInfo)) (misses : List Nat)
    (hl : compMap.lookup r = none) :
    compPass compMap (r :: rest) tp misses = compPass compMap rest tp (misses ++ [r]) := by
  show (match compMap.lookup r with
    | some p => compPass compMap rest (upsertTarget tp p.url p.name r) misses
    | none => compPass compMap rest tp (misses ++ [r])) = _
  rw [hl]

/-- compPass never removes a key from the target dict. -/
theorem compPass_keys_super (compMap : List (Nat × PlayerRef)) :
    ∀ ranks tp misses, ∀ u ∈ tp.map Prod.fst,
      u ∈ ((compPass compMap ranks tp misses).1.map Prod.fst) := by
  intro ranks
  induction ranks with
  | nil =>
    intro tp misses u hu
    exact hu
  | cons r rest ih =>
    intro tp misses u hu
    cases hl : compMap.lookup r with
    | some p =>
      rw [compPass_cons_some compMap r rest tp misses p hl]
      refine ih _ misses u ?_
      by_cases hs : (tp.lookup p.url).isSome = true
      · rw [upsert_keys_pos tp p.url p.name r hs]
        exact hu
      · rw [upsert_keys_neg tp p.url p.name r hs]
        exact List.mem_append.mpr (Or.inl hu)
    | none =>
      rw [compPass_cons_none compMap r rest tp misses hl]
      exact ih tp (misses ++ [r]) u hu

/-- Every requested composite rank present in the snapshot puts its
player's URL among the target dict's keys. -/
theorem compPass_present (compMap : List (Nat × PlayerRef)) :
    ∀ ranks tp misses, ∀ r ∈ ranks, ∀ p : PlayerRef, compMap.lookup r = some p →
      p.url ∈ ((compPass compMap ranks tp misses).1.map Prod.fst) := by
  intro ranks
  induction ranks with
  | nil =>
    intro tp misses r hr
    simp at hr
  | cons r0 rest ih =>
    intro tp misses r hr p hl
    rcases List.mem_cons.mp hr with he | hm
    · subst he
      rw [compPass_cons_some compMap r rest tp misses p hl]
      refine compPass_keys_super compMap rest _ misses p.url ?_
      by_cases hs : (tp.lookup p.url).isSome = true
      · rw [upsert_keys_pos tp p.url p.name r hs]
        rcases Option.isSome_iff_exists.mp hs with ⟨v, hv⟩
        exact List.mem_map_of_mem Prod.fst (mem_of_lookup_eq_some tp p.url v hv)
      · rw [upsert_keys_neg tp p.url p.name r hs]
        exact List.mem_append.mpr (Or.inr (List.mem_singleton.mpr rfl))
    · cases hl0 : compMap.lookup r0 with
      | some p0 =>
        rw [compPass_cons_some compMap r0 rest tp misses p0 hl0]
        exact ih _ misses r hm p hl
      | none =>
        rw [compPass_cons_none compMap r0 rest tp misses hl0]
        exact ih tp (misses ++ [r0]) r hm p hl

/-- compPass keeps the target dict's keys duplicate-free. -/
theorem compPass_nodup_keys (compMap : List (Nat × PlayerRef)) :
    ∀ ranks tp misses, (tp.map Prod.fst).Nodup →
      ((compPass compMap ranks tp misses).1.map Prod.fst).Nodup := by
  intro ranks
  induction ranks with
  | nil =>
    intro tp misses h
    exact h
  | cons r rest ih =>
    intro tp misses h
    cases hl : compMap.lookup r with
    | some p =>
      rw [compPass_cons_some compMap r rest tp misses p hl]
      refine ih _ misses ?_
      by_cases hs : (tp.lookup p.url).isSome = true
      · rw [upsert_keys_pos tp p.url p.name r hs]
        exact h
      · rw [upsert_keys_neg tp p.url p.name r hs]
        refine List.nodup_append.mpr ⟨h, List.nodup_singleton _, ?_⟩
        intro a ha hb
        rw [List.mem_singleton.mp hb] at ha
        exact hs (lookup_isSome_of_mem_fst tp p.url ha)
    | none =>
      rw [compPass_cons_none compMap r rest tp misses hl]
      exact ih tp (misses ++ [r]) h

/-- The composite pass reports exactly the requested ranks missing from
the snapshot, in request order after the incoming reports. -/
theorem compPass_misses (compMap : List (Nat × PlayerRef)) :
    ∀ ranks tp misses, (compPass compMap ranks tp misses).2 =
      misses ++ ranks.filter (fun r => (compMap.lookup r).isNone) := by
  intro ranks
  induction ranks with
  | nil =>
    intro tp misses
    rw [List.filter_nil, List.append_nil]
    rfl
  | cons r rest ih =>
    intro tp misses
    cases hl : compMap.lookup r with
    | some p =>
      rw [compPass_cons_some compMap r rest tp misses p hl, ih _ misses,
        List.filter_cons_of_neg (by rw [hl]; simp)]
    | none =>
      rw [compPass_cons_none compMap r rest tp misses hl, ih tp (misses ++ [r]),
        List.filter_cons_of_pos (by rw [hl]; rfl), List.append_assoc]
      rfl

/-- pass247 step: present rank whose URL is already in the diagnostics. -/
theorem pass247_cons_skip (m : List (Nat × PlayerRef)) (ds : List (String × DiagEntry))
    (r : Nat) (rest : List Nat) (p : PlayerRef) (hl : m.lookup r = some p)
    (hany : ds.any (fun kv => kv.2.url = p.url) = true) :
    pass247 m ds (r :: rest) = pass247 m ds rest := by
  show (match m.lookup r with
    | some p =>
      if ds.any (fun kv => kv.2.url = p.url) then pass247 m ds rest
      else (p.url :: (pass247 m ds rest).1, (pass247 m ds rest).2)
    | none => ((pass247 m ds rest).1, r :: (pass247 m ds rest).2)) = _
  rw [hl]
  show (if ds.any (fun kv => kv.2.url = p.url) then pass247 m ds rest
    else (p.url :: (pass247 m ds rest).1, (pass247 m ds rest).2)) = _
  rw [hany]
  rfl

/-- pass247 step: present rank whose URL is new. -/
theorem pass247_cons_fetch (m : List (Nat × PlayerRef)) (ds : List (String × DiagEntry))
    (r : Nat) (rest : List Nat) (p : PlayerRef) (hl : m.lookup r = some p)
    (hany : ds.any (fun kv => kv.2.url = p.url) = false) :
    pass247 m ds (r :: rest) =
      (p.url :: (pass247 m ds rest).1, (pass247 m ds rest).2) := by
  show (match m.lookup r with
    | some p =>
      if ds.any (fun kv => kv.2.url = p.url) then pass247 m ds rest
      else (p.url :: (pass247 m ds rest).1, (pass247 m ds rest).2)
    | none => ((pass247 m ds rest).1, r :: (pass247 m ds rest).2)) = _
  rw [hl]
  show (if ds.any (fun kv => kv.2.url = p.url) then pass247 m ds rest
    else (p.url :: (pass247 m ds rest).1, (pass247 m ds rest).2)) = _
  rw [hany]
  rfl

/-- pass247 step: absent rank. -/
theorem pass247_cons_none (m : List (Nat × PlayerRef)) (ds : List (String × DiagEntry))
    (r : Nat) (rest : List Nat) (hl : m.lookup r = none) :
    pass247 m ds (r :: rest) =
      ((pass247 m ds rest).1, r :: (pass247 m ds rest).2) := by
  show (match m.lookup r with
    | some p =>
      if ds.any (fun kv => kv.2.url = p.url) then pass247 m ds rest
      else (p.url :: (pass247 m ds rest).1, (pass247 m ds rest).2)
    | none => ((pass247 m ds rest).1, r :: (pass247 m ds rest).2)) = _
  rw [hl]

/-- Every URL the secondary pass fetches belongs to a player found at one
of the requested ranks, and was absent from the diagnostics. -/
theorem pass247_fetch_mem (m : List (Nat × PlayerRef)) (ds : List (String × DiagEntry)) :
    ∀ ranks, ∀ u ∈ (pass247 m ds ranks).1,
      ∃ r p, r ∈ ranks ∧ m.lookup r = some p ∧ p.url = u ∧
        ds.any (fun kv => kv.2.url = u) = false := by
  intro ranks
  induction ranks with
  | nil =>
    intro u hu
    exact absurd hu (by simp [pass247])
  | cons r rest ih =>
    intro u hu
    cases hl : m.lookup r with
    | some p =>
      cases hany : ds.any (fun kv => kv.2.url = p.url) with
      | true =>
        rw [pass247_cons_skip m ds r rest p hl hany] at hu
        rcases ih u hu with ⟨r2, p2, h1, h2, h3, h4⟩
        exact ⟨r2, p2, List.mem_cons_of_mem r h1, h2, h3, h4⟩
      | false =>
        rw [pass247_cons_fetch m ds r rest p hl hany] at hu
        rcases List.mem_cons.mp hu with he | hm
        · exact ⟨r, p, List.mem_cons_self _ _, hl, he.symm, he ▸ hany⟩
        · rcases ih u hm with ⟨r2, p2, h1, h2, h3, h4⟩
          exact ⟨r2, p2, List.mem_cons_of_mem r h1, h2, h3, h4⟩
    | none =>
      rw [pass247_cons_none m ds r rest hl] at hu
      rcases ih u hu with ⟨r2, p2, h1, h2, h3, h4⟩
      exact ⟨r2, p2, List.mem_cons_of_mem r h1, h2, h3, h4⟩

/-- The secondary pass reports exactly the requested ranks missing from
the 247-only snapshot, in request order. -/
theorem pass247_misses (m : List (Nat × PlayerRef)) (ds : List (String × DiagEntry)) :
    ∀ ranks, (pass247 m ds ranks).2 =
      ranks.filter (fun r => (m.lookup r).isNone) := by
  intro ranks
  induction ranks with
  | nil => rfl
  | cons r rest ih =>
    cases hl : m.lookup r with
    | some p =>
      rw [List.filter_cons_of_neg (by rw [hl]; simp)]
      cases hany : ds.any (fun kv => kv.2.url = p.url) with
      | true =>
        rw [pass247_cons_skip m ds r rest p hl hany, ih]
      | false =>
        rw [pass247_cons_fetch m ds r rest p hl hany]
        exact ih
    | none =>
      rw [pass247_cons_none m ds r rest hl, List.filter_cons_of_pos (by rw [hl]; rfl)]
      rw [ih]

/-- A requested rank present in the 247-only snapshot whose URL is absent
from the diagnostics is fetched by the secondary pass. -/
theorem pass247_present_fetch (m : List (Nat × PlayerRef)) (ds : List (String × DiagEntry)) :
    ∀ ranks, ∀ r ∈ ranks, ∀ p : PlayerRef, m.lookup r = some p →
      ds.any (fun kv => kv.2.url = p.url) = false →
      p.url ∈ (pass247 m ds ranks).1 := by
  intro ranks
  induction ranks with
  | nil =>
    intro r hr
    simp at hr
  | cons r0 rest ih =>
    intro r hr p hl hany
    rcases List.mem_cons.mp hr with he | hm
    · subst he
      rw [pass247_cons_fetch m ds r rest p hl hany]
      exact List.mem_cons_self _ _
    · cases hl0 : m.lookup r0 with
      | some p0 =>
        cases hany0 : ds.any (fun kv => kv.2.url = p0.url) with
        | true =>
          rw [pass247_cons_skip m ds r0 rest p0 hl0 hany0]
          exact ih r hm p hl hany
        | false =>
          rw [pass247_cons_fetch m ds r0 rest p0 hl0 hany0]
          exact List.mem_cons_of_mem _ (ih r hm p hl hany)
      | none =>
        rw [pass247_cons_none m ds r0 rest hl0]
        exact ih r hm p hl hany

/-- With duplicate-free requested ranks mapping to pairwise distinct URLs,
the secondary pass fetches without repetition. -/
theorem pass247_nodup (m : List (Nat × PlayerRef)) (ds : List (String × DiagEntry)) :
    ∀ ranks, ranks.Nodup →
      (∀ r1 ∈ ranks, ∀ r2 ∈ ranks,
        ((m.lookup r1).map PlayerRef.url = (m.lookup r2).map PlayerRef.url ∧
          (m.lookup r1).isSome = true) → r1 = r2) →
      (pass247 m ds ranks).1.Nodup := by
  intro ranks
  induction ranks with
  | nil =>
    intro _ _
    exact List.nodup_nil
  | cons r rest ih =>
    intro hnd hdist
    rcases List.nodup_cons.mp hnd with ⟨hnotin, hrest⟩
    have hdist2 : ∀ r1 ∈ rest, ∀ r2 ∈ rest,
        ((m.lookup r1).map PlayerRef.url = (m.lookup r2).map PlayerRef.url ∧
          (m.lookup r1).isSome = true) → r1 = r2 :=
      fun r1 h1 r2 h2 h => hdist r1 (List.mem_cons_of_mem r h1) r2
        (List.mem_cons_of_mem r h2) h
    cases hl : m.lookup r with
    | some p =>
      cases hany : ds.any (fun kv => kv.2.url = p.url) with
      | true =>
        rw [pass247_cons_skip m ds r rest p hl hany]
        exact ih hrest hdist2
      | false =>
        rw [pass247_cons_fetch m ds r rest p hl hany]
        refine List.nodup_cons.mpr ⟨?_, ih hrest hdist2⟩
        intro hmem
        rcases pass247_fetch_mem m ds rest p.url hmem with ⟨r2, p2, h1, h2, h3, _⟩
        have : r = r2 := by
          refine hdist r (List.mem_cons_self _ _) r2 (List.mem_cons_of_mem r h1) ⟨?_, ?_⟩
          · rw [hl, h2]
            simp [h3]
          · rw [hl]
            rfl
        exact hnotin (this ▸ h1)
    | none =>
      rw [pass247_cons_none m ds r rest hl]
      exact ih hrest hdist2

/-- Any URL reported by a diagnostics write came from the stored entry or
from the previous diagnostics. -/
theorem setDiag_any_imp (ds : List (String × DiagEntry)) (k : String) (v : DiagEntry)
    (u : String)
    (h : (setDiag ds k v).any (fun kv => kv.2.url = u) = true) :
    ds.any (fun kv => kv.2.url = u) = true ∨ v.url = u := by
  unfold setDiag at h
  by_cases hs : (ds.lookup k).isSome = true
  · rw [if_pos hs, List.any_map] at h
    rcases List.any_eq_true.mp h with ⟨kv, hm, hp⟩
    by_cases hk : kv.1 = k
    · have hf : (if kv.1 = k then (kv.1, v) else kv) = (kv.1, v) := if_pos hk
      rw [show ((fun kv => decide (kv.2.url = u)) ∘
          (fun kv => if kv.1 = k then (kv.1, v) else kv)) kv =
          decide ((if kv.1 = k then (kv.1, v) else kv).2.url = u) from rfl, hf] at hp
      exact Or.inr (of_decide_eq_true hp)
    · have hf : (if kv.1 = k then (kv.1, v) else kv) = kv := if_neg hk
      rw [show ((fun kv => decide (kv.2.url = u)) ∘
          (fun kv => if kv.1 = k then (kv.1, v) else kv)) kv =
          decide ((if kv.1 = k then (kv.1, v) else kv).2.url = u) from rfl, hf] at hp
      exact Or.inl (List.any_eq_true.mpr ⟨kv, hm, hp⟩)
  · rw [if_neg hs, List.any_append] at h
    rcases Bool.or_eq_true_iff.mp h with h1 | h2
    · exact Or.inl h1
    · simp at h2
      exact Or.inr h2

/-- Every URL in the diagnostics of a fetch list is one of the fetched
URLs. -/
theorem diagFold_any_sub (idOf profile247 : String → String) :
    ∀ (urls : List String) (ds0 : List (String × DiagEntry)) (u : String),
      ((urls.foldl (fun ds w => setDiag ds (idOf w) ⟨w, profile247 w⟩) ds0).any
        (fun kv => kv.2.url = u)) = true →
      u ∈ urls ∨ ds0.any (fun kv => kv.2.url = u) = true := by
  intro urls
  induction urls with
  | nil =>
    intro ds0 u h
    exact Or.inr h
  | cons w rest ih =>
    intro ds0 u h
    rw [List.foldl_cons] at h
    rcases ih _ u h with hm | hany
    · exact Or.inl (List.mem_cons_of_mem w hm)
    · rcases setDiag_any_imp ds0 (idOf w) ⟨w, profile247 w⟩ u hany with h1 | h2
      · exact Or.inr h1
      · exact Or.inl (h2 ▸ List.mem_cons_self w rest)

/-- A diagnostics write records an entry carrying its key and URL. -/
theorem setDiag_any_keyurl (ds : List (String × DiagEntry)) (k : String)
    (e : DiagEntry) :
    (setDiag ds k e).any (fun kv => decide (kv.1 = k) && decide (kv.2.url = e.url)) =
      true := by
  unfold setDiag
  by_cases hs : (ds.lookup k).isSome = true
  · rw [if_pos hs, List.any_map]
    rcases Option.isSome_iff_exists.mp hs with ⟨v0, hv0⟩
    have hm := mem_of_lookup_eq_some ds k v0 hv0
    refine List.any_eq_true.mpr ⟨(k, v0), hm, ?_⟩
    show (decide ((if (k, v0).1 = k then ((k, v0).1, e) else (k, v0)).1 = k) &&
      decide ((if (k, v0).1 = k then ((k, v0).1, e) else (k, v0)).2.url = e.url)) = true
    rw [if_pos rfl]
    simp
  · rw [if_neg hs, List.any_append]
    refine Bool.or_eq_true_iff.mpr (Or.inr ?_)
    simp

/-- A diagnostics write under a different key preserves any recorded
key/URL pair. -/
theorem setDiag_any_keyurl_preserve (ds : List (String × DiagEntry)) (k2 : String)
    (v : DiagEntry) (k u : String) (hne : k2 ≠ k)
    (h : ds.any (fun kv => decide (kv.1 = k) && decide (kv.2.url = u)) = true) :
    (setDiag ds k2 v).any (fun kv => decide (kv.1 = k) && decide (kv.2.url = u)) =
      true := by
  unfold setDiag
  rcases List.any_eq_true.mp h with ⟨kv, hm, hp⟩
  rcases Bool.and_eq_true_iff.mp hp with ⟨hp1, hp2⟩
  have hk : kv.1 = k := of_decide_eq_true hp1
  by_cases hs : (ds.lookup k2).isSome = true
  · rw [if_pos hs, List.any_map]
    refine List.any_eq_true.mpr ⟨kv, hm, ?_⟩
    have hf : (if kv.1 = k2 then (kv.1, v) else kv) = kv :=
      if_neg (fun hcon => hne (by rw [← hcon, hk]))
    show (decide ((if kv.1 = k2 then (kv.1, v) else kv).1 = k) &&
      decide ((if kv.1 = k2 then (kv.1, v) else kv).2.url = u)) = true
    rw [hf, hp1, hp2]
    rfl
  · rw [if_neg hs, List.any_append]
    exact Bool.or_eq_true_iff.mpr (Or.inl h)

/-- Later diagnostics writes under other keys preserve a recorded key/URL
pair. -/
theorem diagFold_keyurl_preserve (idOf profile247 : String → String) (k u : String) :
    ∀ (urls : List String) (ds0 : List (String × DiagEntry)),
      (∀ w ∈ urls, idOf w ≠ k) →
      ds0.any (fun kv => decide (kv.1 = k) && decide (kv.2.url = u)) = true →
      ((urls.foldl (fun ds w => setDiag ds (idOf w) ⟨w, profile247 w⟩) ds0).any
        (fun kv => decide (kv.1 = k) && decide (kv.2.url = u))) = true := by
  intro urls
  induction urls with
  | nil =>
    intro ds0 _ h
    exact h
  | cons w rest ih =>
    intro ds0 hkeys h
    rw [List.foldl_cons]
    refine ih _ (fun w2 hw2 => hkeys w2 (List.mem_cons_of_mem w hw2)) ?_
    exact setDiag_any_keyurl_preserve ds0 (idOf w) ⟨w, profile247 w⟩ k u
      (hkeys w (List.mem_cons_self w rest)) h

/-- When the id extraction separates the fetched URLs, each fetched URL
appears in the diagnostics. -/
theorem diagFold_mem_any (idOf profile247 : String → String) :
    ∀ (urls : List String) (ds0 : List (String × DiagEntry)) (u : String), u ∈ urls →
      (∀ v ∈ urls, idOf v = idOf u → v = u) →
      ((urls.foldl (fun ds w => setDiag ds (idOf w) ⟨w, profile247 w⟩) ds0).any
        (fun kv => kv.2.url = u)) = true := by
  intro urls
  induction urls with
  | nil =>
    intro ds0 u hu
    simp at hu
  | cons w rest ih =>
    intro ds0 u hu hinj
    rw [List.foldl_cons]
    by_cases hur : u ∈ rest
    · exact ih _ u hur (fun v hv he => hinj v (List.mem_cons_of_mem w hv) he)
    · have huw : u = w := by
        rcases List.mem_cons.mp hu with he | hm
        · exact he
        · exact absurd hm hur
      subst huw
      have hkeys : ∀ v ∈ rest, idOf v ≠ idOf u :=
        fun v hv he => hur ((hinj v (List.mem_cons_of_mem u hv) he) ▸ hv)
      have hbase : (setDiag ds0 (idOf u) ⟨u, profile247 u⟩).any
          (fun kv => decide (kv.1 = idOf u) && decide (kv.2.url = u)) = true :=
        setDiag_any_keyurl ds0 (idOf u) ⟨u, profile247 u⟩
      have hkept := diagFold_keyurl_preserve idOf profile247 (idOf u) u rest _ hkeys hbase
      rcases List.any_eq_true.mp hkept with ⟨kv, hm, hp⟩
      rcases Bool.and_eq_true_iff.mp hp with ⟨_, hp2⟩
      exact List.any_eq_true.mpr ⟨kv, hm, hp2⟩

/-- On an empty composite list snapshot the year is skipped: nothing is
fetched and nothing is reported. -/
theorem resolveGapsModel_nil (idOf profile247 : String → String)
    (r247Map : List (Nat × PlayerRef)) (gapsComp gaps247 : List Nat) :
    resolveGapsModel idOf profile247 [] r247Map gapsComp gaps247 = ⟨[], [], [], []⟩ := by
  unfold resolveGapsModel
  rw [if_pos rfl]

/-- On a nonempty composite list snapshot the run performs the composite
pass, the diagnostics build, the coverage filter, and the secondary
pass. -/
theorem resolveGapsModel_ne (idOf profile247 : String → String)
    (compMap r247Map : List (Nat × PlayerRef)) (gapsComp gaps247 : List Nat)
    (h : compMap ≠ []) :
    resolveGapsModel idOf profile247 compMap r247Map gapsComp gaps247 =
      ⟨(compPass compMap gapsComp [] []).1.map Prod.fst,
        (pass247 r247Map
          (diagnosticsOf idOf profile247
            ((compPass compMap gapsComp [] []).1.map Prod.fst))
          (gaps247.filter (fun r => ¬ covered247
            (diagnosticsOf idOf profile247
              ((compPass compMap gapsComp [] []).1.map Prod.fst)) r))).1,
        (compPass compMap gapsComp [] []).2,
        (pass247 r247Map
          (diagnosticsOf idOf profile247
            ((compPass compMap gapsComp [] []).1.map Prod.fst))
          (gaps247.filter (fun r => ¬ covered247
            (diagnosticsOf idOf profile247
              ((compPass compMap gapsComp [] []).1.map Prod.fst)) r))).2⟩ := by
  unfold resolveGapsModel
  rw [if_neg h]

/-- C2 (counterexample): with a nonempty composite snapshot (so the year
is not skipped), the secondary 247-only pass deduplicates only against
the first pass's diagnostics, not within itself, so two requested 247
ranks held by the same entity make the run fetch that entity's URL
twice. -/
theorem claim_C2_counterexample :
    fetchedAll (resolveGapsModel (fun _ => "NA") (fun _ => "NA") [(1, ⟨"w", "W"⟩)]
        [(1, ⟨"u", "P"⟩), (2, ⟨"u", "P"⟩)] [1] [1, 2]) = ["w", "u", "u"] ∧
    ¬ (fetchedAll (resolveGapsModel (fun _ => "NA") (fun _ => "NA") [(1, ⟨"w", "W"⟩)]
        [(1, ⟨"u", "P"⟩), (2, ⟨"u", "P"⟩)] [1] [1, 2])).Nodup := by
  constructor
  · decide
  · decide

/-- C2 (amended): on an empty composite snapshot the year is skipped with
no fetches and no reports.  Otherwise gap resolution adds no phantoms
(every fetched URL belongs to a player found at a requested rank in a
consulted snapshot); the composite pass fetches without repetition and
covers every requested composite rank present in its snapshot, reporting
exactly the absent ones; every requested 247 rank is covered by the first
pass, or its player's URL is fetched by one of the passes, or it is
absent from the 247-only snapshot and reported; and when the id
extraction separates the first pass's URLs and distinct requested 247
ranks hold distinct URLs, every URL is fetched exactly once overall —
without those hypotheses the 247-only pass can repeat a URL, as the
counterexample shows. -/
theorem claim_C2_amended :
    ∀ (idOf profile247 : String → String) (compMap r247Map : List (Nat × PlayerRef))
      (gapsComp gaps247 : List Nat),
      (compMap = [] →
        resolveGapsModel idOf profile247 compMap r247Map gapsComp gaps247 =
          ⟨[], [], [], []⟩) ∧
      (∀ u ∈ fetchedAll (resolveGapsModel idOf profile247 compMap r247Map gapsComp
          gaps247),
        ∃ r p, ((r ∈ gapsComp ∧ compMap.lookup r = some p) ∨
          (r ∈ gaps247 ∧ r247Map.lookup r = some p)) ∧ p.url = u) ∧
      (resolveGapsModel idOf profile247 compMap r247Map gapsComp
        gaps247).fetched1.Nodup ∧
      (∀ r ∈ gapsComp, ∀ p : PlayerRef, compMap.lookup r = some p →
        p.url ∈ (resolveGapsModel idOf profile247 compMap r247Map gapsComp
          gaps247).fetched1) ∧
      (compMap ≠ [] →
        (resolveGapsModel idOf profile247 compMap r247Map gapsComp gaps247).hardComp =
          gapsComp.filter (fun r => (compMap.lookup r).isNone)) ∧
      (compMap ≠ [] → ∀ r ∈ gaps247,
        covered247 (diagnosticsOf idOf profile247 (resolveGapsModel idOf profile247
          compMap r247Map gapsComp gaps247).fetched1) r = true ∨
        (∃ p, r247Map.lookup r = some p ∧ p.url ∈ fetchedAll (resolveGapsModel idOf
          profile247 compMap r247Map gapsComp gaps247)) ∨
        (r247Map.lookup r = none ∧ r ∈ (resolveGapsModel idOf profile247 compMap
          r247Map gapsComp gaps247).hard247)) ∧
      ((∀ u1 ∈ (resolveGapsModel idOf profile247 compMap r247Map gapsComp
            gaps247).fetched1,
          ∀ u2 ∈ (resolveGapsModel idOf profile247 compMap r247Map gapsComp
            gaps247).fetched1, idOf u1 = idOf u2 → u1 = u2) →
        (∀ r1 ∈ gaps247, ∀ r2 ∈ gaps247,
          ((r247Map.lookup r1).map PlayerRef.url =
              (r247Map.lookup r2).map PlayerRef.url ∧
            (r247Map.lookup r1).isSome = true) → r1 = r2) →
        gaps247.Nodup →
        (fetchedAll (resolveGapsModel idOf profile247 compMap r247Map gapsComp
          gaps247)).Nodup) := by
  intro idOf profile247 compMap r247Map gapsComp gaps247
  by_cases hemp : compMap = []
  · subst hemp
    have hC := resolveGapsModel_nil idOf profile247 r247Map gapsComp gaps247
    refine ⟨fun _ => hC, ?_, ?_, ?_, fun hne => absurd rfl hne, fun hne => absurd rfl hne,
      ?_⟩
    · intro u hu
      rw [hC] at hu
      exact absurd hu (by simp [fetchedAll])
    · rw [hC]
      exact List.nodup_nil
    · intro r hr p hl
      exact Option.noConfusion hl
    · intro _ _ _
      rw [hC]
      show (fetchedAll ⟨[], [], [], []⟩).Nodup
      exact List.nodup_nil
  · have hres := resolveGapsModel_ne idOf profile247 compMap r247Map gapsComp gaps247 hemp
    set C := resolveGapsModel idOf profile247 compMap r247Map gapsComp gaps247 with hCdef
    have hf1 : C.fetched1 = (compPass compMap gapsComp [] []).1.map Prod.fst := by
      rw [hres]
    have hds : diagnosticsOf idOf profile247 C.fetched1 =
        (C.fetched1).foldl (fun ds w => setDiag ds (idOf w) ⟨w, profile247 w⟩) [] := rfl
    have hnc : C.fetched2 = (pass247 r247Map (diagnosticsOf idOf profile247 C.fetched1)
        (gaps247.filter
          (fun r => ¬ covered247 (diagnosticsOf idOf profile247 C.fetched1) r))).1 := by
      rw [hres]
    have hh247 : C.hard247 = (pass247 r247Map (diagnosticsOf idOf profile247 C.fetched1)
        (gaps247.filter
          (fun r => ¬ covered247 (diagnosticsOf idOf profile247 C.fetched1) r))).2 := by
      rw [hres]
    have hhc : C.hardComp = (compPass compMap gapsComp [] []).2 := by
      rw [hres]
    have hfa : fetchedAll C = C.fetched1 ++ C.fetched2 := rfl
    refine ⟨fun h => absurd h hemp, ?_, ?_, ?_, fun _ => ?_, fun _ => ?_, ?_⟩
    · intro u hu
      rw [hfa] at hu
      rcases List.mem_append.mp hu with h1 | h2
      · rw [hf1] at h1
        rcases compPass_keys_sub compMap gapsComp [] [] u h1 with habs | ⟨r, p, hr, hl, hpu⟩
        · simp at habs
        · exact ⟨r, p, Or.inl ⟨hr, hl⟩, hpu⟩
      · rw [hnc] at h2
        rcases pass247_fetch_mem r247Map _ _ u h2 with ⟨r, p, hr, hl, hpu, _⟩
        exact ⟨r, p, Or.inr ⟨(List.mem_filter.mp hr).1, hl⟩, hpu⟩
    · rw [hf1]
      exact compPass_nodup_keys compMap gapsComp [] [] (by simp)
    · intro r hr p hl
      rw [hf1]
      exact compPass_present compMap gapsComp [] [] r hr p hl
    · rw [hhc, compPass_misses compMap gapsComp [] [], List.nil_append]
    · intro r hr
      by_cases hcov : covered247 (diagnosticsOf idOf profile247 C.fetched1) r = true
      · exact Or.inl hcov
      · have hmemnc : r ∈ gaps247.filter
            (fun r => ¬ covered247 (diagnosticsOf idOf profile247 C.fetched1) r) :=
          List.mem_filter.mpr ⟨hr, decide_eq_true hcov⟩
        cases hl : r247Map.lookup r with
        | none =>
          refine Or.inr (Or.inr ⟨rfl, ?_⟩)
          rw [hh247, pass247_misses]
          exact List.mem_filter.mpr ⟨hmemnc, by rw [hl]; rfl⟩
        | some p =>
          by_cases hany : (diagnosticsOf idOf profile247 C.fetched1).any
              (fun kv => kv.2.url = p.url) = true
          · rw [hds] at hany
            rcases diagFold_any_sub idOf profile247 C.fetched1 [] p.url hany with hm | habs
            · exact Or.inr (Or.inl ⟨p, rfl, by
                rw [hfa]
                exact List.mem_append.mpr (Or.inl hm)⟩)
            · simp at habs
          · have hfetch := pass247_present_fetch r247Map
              (diagnosticsOf idOf profile247 C.fetched1)
              (gaps247.filter
                (fun r => ¬ covered247 (diagnosticsOf idOf profile247 C.fetched1) r))
              r hmemnc p hl (Bool.eq_false_iff.mpr hany)
            refine Or.inr (Or.inl ⟨p, rfl, ?_⟩)
            rw [hfa]
            refine List.mem_append.mpr (Or.inr ?_)
            rw [hnc]
            exact hfetch
    · intro hinj hdist hnd
      rw [hfa]
      refine List.nodup_append.mpr ⟨?_, ?_, ?_⟩
      · rw [hf1]
        exact compPass_nodup_keys compMap gapsComp [] [] (by simp)
      · rw [hnc]
        refine pass247_nodup r247Map _ _ (hnd.filter _) ?_
        intro r1 h1 r2 h2 h
        exact hdist r1 (List.mem_filter.mp h1).1 r2 (List.mem_filter.mp h2).1 h
      · intro u hu1 hu2
        rw [hnc] at hu2
        rcases pass247_fetch_mem r247Map _ _ u hu2 with ⟨r, p, _, _, _, hanyfalse⟩
        have hmem := diagFold_mem_any idOf profile247 C.fetched1 [] u hu1
          (fun v hv he => hinj v hv u hu1 he)
        rw [hds, hmem] at hanyfalse
        exact absurd hanyfalse (by decide)

/-- C2 witness: a concrete run with a nonempty composite snapshot, one
composite target, one missing composite rank, and an uncovered 247 rank,
where every exercised part of the amended claim instantiates and all
fetches are distinct. -/
theorem claim_C2_witness :
    ("u1" ∈ fetchedAll (resolveGapsModel (fun s => s) (fun _ => "NA")
        [(1, ⟨"u1", "A"⟩)] [(2, ⟨"u2", "B"⟩)] [1, 5] [2, 7]) ∧
      (∃ r p, ((r ∈ [1, 5] ∧ ([(1, (⟨"u1", "A"⟩ : PlayerRef))].lookup r = some p)) ∨
        (r ∈ [2, 7] ∧ ([(2, (⟨"u2", "B"⟩ : PlayerRef))].lookup r = some p))) ∧
        p.url = "u1")) ∧
    (resolveGapsModel (fun s => s) (fun _ => "NA")
      [(1, ⟨"u1", "A"⟩)] [(2, ⟨"u2", "B"⟩)] [1, 5] [2, 7]).hardComp =
      [1, 5].filter (fun r => (([(1, (⟨"u1", "A"⟩ : PlayerRef))].lookup r).isNone)) ∧
    (fetchedAll (resolveGapsModel (fun s => s) (fun _ => "NA")
      [(1, ⟨"u1", "A"⟩)] [(2, ⟨"u2", "B"⟩)] [1, 5] [2, 7])).Nodup := by
  have h := claim_C2_amended (fun s => s) (fun _ => "NA")
    [(1, ⟨"u1", "A"⟩)] [(2, ⟨"u2", "B"⟩)] [1, 5] [2, 7]
  refine ⟨⟨by decide, h.2.1 "u1" (by decide)⟩, h.2.2.2.2.1 (by decide), ?_⟩
  exact h.2.2.2.2.2.2 (by decide) (by decide) (by decide)

end Scraper
